import Mathlib

/-!
Content enrichment pipeline: embedding and properties.

A shallow embedding of the article pipeline of the repository
(`backend/scraper/beyondchats-scraper.js`, `backend/controllers/*.js`,
`backend/models/Article.js`, `scripts/utils/*.js`).

Conventions of the embedding.

* A JavaScript string is a Lean `String`; character-level algorithms work on
  its list of code points (`String.data`).  Lone surrogates do not exist in
  this model; the pipeline deletes or ignores them wherever it inspects
  characters.
* Every call that leaves the process (search backend, page rendering, the
  generative model, the document store accepting a write, the clock) is a
  field of an environment record, so that each theorem quantifies over all
  outcomes of the outside world.  A call that throws is `none`.
* The document store is the list of its documents in insertion order.
* A page is a tree of text nodes and elements; an element carries its tag name
  and the attributes `class` and `src`, which are all that the extraction code
  reads.  The extraction functions start from the children of the content
  element after the removal of the unwanted nodes.
-/

set_option maxRecDepth 100000

namespace BeyondChats

/-! ## JavaScript string primitives -/

/-- The characters matched by `\s` and removed by `String.prototype.trim`:
ECMAScript `WhiteSpace` together with `LineTerminator`. -/
def isWhiteSpace (c : Char) : Bool :=
  let n := c.toNat
  n == 0x09 || n == 0x0A || n == 0x0B || n == 0x0C || n == 0x0D || n == 0x20 ||
  n == 0xA0 || n == 0x1680 || (0x2000 ≤ n && n ≤ 0x200A) || n == 0x2028 ||
  n == 0x2029 || n == 0x202F || n == 0x205F || n == 0x3000 || n == 0xFEFF

/-- ASCII upper-case letter `A`..`Z`. -/
def isAsciiUpper (c : Char) : Bool := 65 ≤ c.toNat && c.toNat ≤ 90

/-- ASCII lower-case letter `a`..`z`. -/
def isAsciiLower (c : Char) : Bool := 97 ≤ c.toNat && c.toNat ≤ 122

/-- ASCII digit `0`..`9`. -/
def isAsciiDigit (c : Char) : Bool := 48 ≤ c.toNat && c.toNat ≤ 57

/-- The characters matched by `\w` (no `i`/`u` flag): `[A-Za-z0-9_]`. -/
def isWordChar (c : Char) : Bool :=
  isAsciiUpper c || isAsciiLower c || isAsciiDigit c || c == '_'

/-- Lower-casing of one code point, as `String.prototype.toLowerCase` does it.
`A`..`Z` map to `a`..`z`; U+0130 maps to `i` followed by U+0307 and U+212A (Kelvin
sign) to `k`: these are the only code points whose lower-case form contains an
ASCII character they did not contain before.  Every other code point is kept:
its lower-case form is neither ASCII nor white space, and every consumer of
`toLowerCase` in this development filters or tests the result against ASCII and
white-space patterns only, which cannot tell the difference. -/
def lowerCodePoint (c : Char) : List Char :=
  if isAsciiUpper c then [Char.ofNat (c.toNat + 32)]
  else if c.toNat = 0x130 then ['i', Char.ofNat 0x307]
  else if c.toNat = 0x212A then ['k']
  else [c]

/-- Code-point list form of `String.prototype.toLowerCase`. -/
def toLowerCaseChars (s : List Char) : List Char :=
  s.flatMap lowerCodePoint

/-- Code-point list form of `String.prototype.trim`. -/
def trimChars (s : List Char) : List Char :=
  (s.dropWhile isWhiteSpace).rdropWhile isWhiteSpace

/-- `String.prototype.toLowerCase`. -/
def toLowerCase (s : String) : String := String.mk (toLowerCaseChars s.data)

/-- `String.prototype.trim`. -/
def trim (s : String) : String := String.mk (trimChars s.data)

/-- `String.prototype.length`: the number of UTF-16 code units. -/
def jsLength (s : String) : Nat :=
  (s.data.map fun c => if c.toNat < 0x10000 then 1 else 2).sum

/-! ## `generateSlug` (backend/scraper/beyondchats-scraper.js) -/

/-- The class `[\w\s-]`: what `.replace(/[^\w\s-]/g, '')` keeps. -/
def isSlugKept (c : Char) : Bool := isWordChar c || isWhiteSpace c || c == '-'

/-- The class `[\s_-]`: the separators that `.replace(/[\s_-]+/g, '-')` merges. -/
def isSlugSeparator (c : Char) : Bool := isWhiteSpace c || c == '_' || c == '-'

/-- The replacement `.replace(/[\s_-]+/g, '-')`: every maximal run of separators
becomes one hyphen.  `inRun` records that the previous character belonged to a
run whose hyphen has been emitted already. -/
def collapseSeparators (inRun : Bool) : List Char → List Char
  | [] => []
  | c :: cs =>
    if isSlugSeparator c then
      if inRun then collapseSeparators true cs else '-' :: collapseSeparators true cs
    else c :: collapseSeparators false cs

/-- The replacement `.replace(/^-+|-+$/g, '')`: the leading run of hyphens and the
trailing run of hyphens are deleted. -/
def stripHyphens (s : List Char) : List Char :=
  (s.dropWhile (· == '-')).rdropWhile (· == '-')

/-- The body of `generateSlug` on code points, one line per chained call. -/
def generateSlugChars (title : List Char) : List Char :=
  let lowered := toLowerCaseChars title
  let trimmed := trimChars lowered
  let kept := trimmed.filter isSlugKept
  let hyphenated := collapseSeparators false kept
  stripHyphens hyphenated

/-- The function `generateSlug(title)`. -/
def generateSlug (title : String) : String := String.mk (generateSlugChars title.data)

/-- The characters a slug is made of: `[a-z0-9-]`. -/
def isSlugChar (c : Char) : Bool := isAsciiLower c || isAsciiDigit c || c == '-'

/-! ## Data model (backend/models/Article.js) -/

/-- The `{url, title}` pair of `referenceArticleSchema`.  The search functions
return objects of the same two fields. -/
structure ReferenceArticle where
  url : String
  title : String
deriving DecidableEq

/-- A document of `articleSchema`.  `id` is the document's ObjectId, dates are
instants on the clock. -/
structure Article where
  id : String
  title : String
  content : String
  originalContent : String
  slug : String
  publishedDate : Nat
  author : String
  sourceUrl : String
  isUpdated : Bool
  updatedAt : Option Nat
  referenceArticles : List ReferenceArticle
deriving DecidableEq

/-- The collection of articles, in insertion order. -/
abbrev Store := List Article

/-- What `scrapeArticleContent` of scripts/utils/content-scraper.js returns.
`structureSignature` is the field `structure` of the source. -/
structure ScrapedArticle where
  title : String
  content : String
  html : String
  structureSignature : String
deriving DecidableEq

/-- An element of `referenceContents`: a reference together with what was
extracted from its page. -/
structure ReferenceContent where
  url : String
  title : String
  content : String
  structureSignature : String
  html : String
deriving DecidableEq

/-- The request sent to the generative model.  The source renders a fixed
template around these arguments (`enhanceArticle` with the reference summaries,
`enhanceArticleWithoutReferences` without); the arguments determine the text. -/
inductive Prompt where
  | withReferences (originalContent : String) (referenceArticles : List ReferenceContent)
      (originalTitle : String)
  | withoutReferences (originalContent : String) (originalTitle : String)
deriving DecidableEq

/-- The outside world of the HTTP controllers.
* `castObjectId id`: whether the store can cast `id` to an ObjectId (`findById`
  throws otherwise).
* `geminiApiKey`: whether `process.env.GEMINI_API_KEY` is set.
* `searchGoogle`, `scrapeArticleContent`, `generateContent`: the results of the
  calls, `none` for a call that throws.
* `storeAccepts doc`: whether `save()` of `doc` resolves (it throws otherwise).
* `now`: the reading of `new Date()`. -/
structure Env where
  castObjectId : String → Bool
  geminiApiKey : Bool
  searchGoogle : String → Option (List ReferenceArticle)
  scrapeArticleContent : String → Option ScrapedArticle
  generateContent : Prompt → Option String
  storeAccepts : Article → Bool
  now : Nat

/-- The JSON answer of a controller: the HTTP status (200 unless the handler sets
one), `success`, `message` (`""` when the answer has none) and `data`. -/
structure Response where
  status : Nat
  success : Bool
  message : String
  data : Option Article
deriving DecidableEq

/-- A controller call: its answer and the store it leaves. -/
structure Outcome where
  response : Response
  store : Store
deriving DecidableEq

/-! ## The document store -/

/-- `Article.findById(id)`: throws (`none`) when `id` is no ObjectId, and gives the
stored document with that id otherwise, if there is one. -/
def findById (env : Env) (store : Store) (id : String) : Option (Option Article) :=
  if env.castObjectId id then some (store.find? fun a => decide (a.id = id)) else none

/-- `Article.findOne({ slug })`. -/
def findOneBySlug (store : Store) (slug : String) : Option Article :=
  store.find? fun a => decide (a.slug = slug)

/-- The write of a loaded document: the stored document of the same id is
replaced. -/
def replaceDocument (doc : Article) : Store → Store
  | [] => []
  | a :: rest => if a.id = doc.id then doc :: rest else a :: replaceDocument doc rest

/-- `article.save()` on a loaded document: `none` when the store rejects it. -/
def saveDocument (env : Env) (store : Store) (doc : Article) : Option Store :=
  if env.storeAccepts doc then some (replaceDocument doc store) else none

/-! ## Rewrite orchestration (scripts/utils/gemini-enhancer.js) -/

/-- `s.includes(pattern)`. -/
def includes (s pattern : String) : Bool := decide (pattern.data <:+: s.data)

/-- `s.replace(/^MARKER\n?/, '')` for a literal `marker`. -/
def stripOpeningFence (marker s : List Char) : List Char :=
  if marker.isPrefixOf s then
    match s.drop marker.length with
    | '\n' :: rest => rest
    | rest => rest
  else s

/-- `s.replace(/\n?```$/, '')`: a closing triple backtick at the very end is
removed, with the newline right before it when there is one. -/
def stripClosingFence (s : List Char) : List Char :=
  if "```".data.isSuffixOf s then
    match (s.reverse.drop 3) with
    | '\n' :: rest => rest.reverse
    | rest => rest.reverse
  else s

/-- The clean-up both rewrite functions apply to the model's text: trim, then
remove a code fence the model wrapped around its answer. -/
def cleanModelResponseChars (text : List Char) : List Char :=
  let cleanedContent := trimChars text
  if "```html".data.isPrefixOf cleanedContent then
    stripClosingFence (stripOpeningFence "```html".data cleanedContent)
  else if "```".data.isPrefixOf cleanedContent then
    stripClosingFence (stripOpeningFence "```".data cleanedContent)
  else cleanedContent

/-- String form of `cleanModelResponseChars`. -/
def cleanModelResponse (text : String) : String :=
  String.mk (cleanModelResponseChars text.data)

/-- `enhanceArticle(originalContent, referenceArticles, originalTitle)`: `none`
when it throws (`initGemini` without a key, or the model call). -/
def enhanceArticle (env : Env) (originalContent : String)
    (referenceArticles : List ReferenceContent) (originalTitle : String) : Option String :=
  if env.geminiApiKey then
    match env.generateContent
        (Prompt.withReferences originalContent referenceArticles originalTitle) with
    | none => none
    | some enhancedContent => some (cleanModelResponse enhancedContent)
  else none

/-- `enhanceArticleWithoutReferences(originalContent, originalTitle)`. -/
def enhanceArticleWithoutReferences (env : Env) (originalContent originalTitle : String) :
    Option String :=
  if env.geminiApiKey then
    match env.generateContent (Prompt.withoutReferences originalContent originalTitle) with
    | none => none
    | some enhancedContent => some (cleanModelResponse enhancedContent)
  else none

/-- One `<li>` line of the references section. -/
def referenceItemHtml (ref : ReferenceArticle) : String :=
  "  <li><a href=\"" ++ ref.url ++ "\" target=\"_blank\" rel=\"noopener noreferrer\">" ++
    ref.title ++ "</a></li>"

/-- The template `referencesHtml` of `addCitations`. -/
def referencesHtml (referenceArticles : List ReferenceArticle) : String :=
  "\n<h2>References</h2>\n<ul>\n" ++
    "\n".intercalate (referenceArticles.map referenceItemHtml) ++ "\n</ul>"

/-- `addCitations(content, referenceArticles)`; `none` is a missing list. -/
def addCitations (content : String) (referenceArticles : Option (List ReferenceArticle)) :
    String :=
  match referenceArticles with
  | none => content
  | some refs =>
    if refs.length = 0 then content
    else if includes (toLowerCase content) "references" ||
        includes (toLowerCase content) "sources" then content
    else content ++ referencesHtml refs

/-! ## `enhanceArticleById` (backend/controllers/enhancementController.js) -/

/-- `article.title.split(':')[0].split('-')[0].trim()`. -/
def shortTitle (title : String) : String :=
  trim (String.mk ((title.data.takeWhile (· != ':')).takeWhile (· != '-')))

/-- Step 1: the value of `searchResults` after the search block.  A search that
throws leaves the value assigned so far. -/
def searchStep (env : Env) (title : String) : List ReferenceArticle :=
  match env.searchGoogle title with
  | none => []
  | some searchResults =>
    if searchResults.length = 0 then
      if jsLength (shortTitle title) > 10 ∧ shortTitle title ≠ title then
        match env.searchGoogle (shortTitle title) with
        | none => searchResults
        | some retried => retried
      else searchResults
    else searchResults

/-- One turn of the scraping loop: the element pushed on `referenceContents`, if
any.  Nothing is pushed when the scrape throws or returns empty content. -/
def scrapeReference (env : Env) (ref : ReferenceArticle) : Option ReferenceContent :=
  match env.scrapeArticleContent ref.url with
  | none => none
  | some scraped =>
    if scraped.content = "" then none
    else some
      { url := ref.url, title := ref.title, content := scraped.content,
        structureSignature := scraped.structureSignature, html := scraped.html }

/-- Step 2: `referenceContents` after the loop over the first
`Math.min(2, searchResults.length)` results. -/
def scrapeStep (env : Env) (searchResults : List ReferenceArticle) : List ReferenceContent :=
  (searchResults.take 2).filterMap (scrapeReference env)

/-- The text handed to the rewrite: `article.originalContent || article.content`. -/
def rewriteSource (article : Article) : String :=
  if article.originalContent = "" then article.content else article.originalContent

/-- Step 3: `enhancedContent`, or `none` when the rewrite throws. -/
def enhanceStep (env : Env) (article : Article) (searchResults : List ReferenceArticle)
    (referenceContents : List ReferenceContent) : Option String :=
  if referenceContents.length > 0 then
    match enhanceArticle env (rewriteSource article) referenceContents article.title with
    | none => none
    | some enhancedContent =>
      some (addCitations enhancedContent (some (searchResults.take referenceContents.length)))
  else enhanceArticleWithoutReferences env (rewriteSource article) article.title

/-- The one-time capture `if (!article.originalContent && article.content)`. -/
def preserveOriginal (article : Article) : Article :=
  if article.originalContent = "" ∧ article.content ≠ "" then
    { article with originalContent := article.content }
  else article

/-- Step 4 up to the write: the document handed to `save()`. -/
def enhancedDocument (env : Env) (article : Article) (searchResults : List ReferenceArticle)
    (referenceContents : List ReferenceContent) (enhancedContent : String) : Article :=
  let article := preserveOriginal article
  let article := { article with
    content := enhancedContent, isUpdated := true, updatedAt := some env.now }
  if searchResults.length > 0 then
    { article with
      referenceArticles := (searchResults.take referenceContents.length).map
        fun ref => { url := ref.url, title := ref.title } }
  else article

/-- An error answer. -/
def errorResponse (status : Nat) (message : String) : Response :=
  { status := status, success := false, message := message, data := none }

/-- The handler `enhanceArticleById` for `req.params.id = id`. -/
def enhanceArticleById (env : Env) (store : Store) (id : String) : Outcome :=
  match findById env store id with
  | none => ⟨errorResponse 500 "Error enhancing article", store⟩
  | some none => ⟨errorResponse 404 "Article not found", store⟩
  | some (some article) =>
    if env.geminiApiKey = false then
      ⟨errorResponse 500 "GEMINI_API_KEY is not configured", store⟩
    else
      let searchResults := searchStep env article.title
      let referenceContents := scrapeStep env searchResults
      match enhanceStep env article searchResults referenceContents with
      | none => ⟨errorResponse 500 "Error enhancing article with Gemini API", store⟩
      | some enhancedContent =>
        let doc := enhancedDocument env article searchResults referenceContents enhancedContent
        match saveDocument env store doc with
        | none => ⟨errorResponse 500 "Error enhancing article", store⟩
        | some saved =>
          ⟨{ status := 200, success := true, message := "Article enhanced successfully",
             data := some doc }, saved⟩

/-! ## `updateArticle` (backend/controllers/articleController.js) -/

/-- The fields `updateArticle` reads from `req.body`; `none` is an absent field. -/
structure UpdateBody where
  content : Option String
  referenceArticles : Option (List ReferenceArticle)
deriving DecidableEq

/-- The document `updateArticle` hands to `save()`. -/
def updatedDocument (env : Env) (article : Article) (body : UpdateBody) : Article :=
  let article := preserveOriginal article
  let article :=
    match body.content with
    | some content => if content = "" then article else { article with content := content }
    | none => article
  let article :=
    match body.referenceArticles with
    | some referenceArticles => { article with referenceArticles := referenceArticles }
    | none => article
  { article with isUpdated := true, updatedAt := some env.now }

/-- The handler `updateArticle` for `req.params.id = id` and `req.body = body`. -/
def updateArticle (env : Env) (store : Store) (id : String) (body : UpdateBody) : Outcome :=
  match findById env store id with
  | none => ⟨errorResponse 500 "Error updating article", store⟩
  | some none => ⟨errorResponse 404 "Article not found", store⟩
  | some (some article) =>
    let doc := updatedDocument env article body
    match saveDocument env store doc with
    | none => ⟨errorResponse 500 "Error updating article", store⟩
    | some saved => ⟨{ status := 200, success := true, message := "", data := some doc }, saved⟩

/-! ## `enhanceSingleArticle` (scripts/enhance-articles.js) -/

/-- The prompt of the rewrite for `article` and the collected extracts. -/
def rewritePrompt (article : Article) (referenceContents : List ReferenceContent) : Prompt :=
  if referenceContents.length > 0 then
    Prompt.withReferences (rewriteSource article) referenceContents article.title
  else Prompt.withoutReferences (rewriteSource article) article.title

/-- One run of `enhanceSingleArticle`: the value returned, the store the API
server is left with, the queries passed to `searchGoogle`, the prompts sent to
the model, and the body of the PUT request when one was sent. -/
structure CliRun where
  success : Bool
  store : Store
  queries : List String
  prompts : List Prompt
  published : Option UpdateBody

/-- Step 1 of `enhanceSingleArticle`: the queries passed to `searchGoogle`, in
order, and the final `searchResults`, `none` when a search throws (the outer
`catch` then ends the run). -/
def cliSearch (env : Env) (title : String) : List String × Option (List ReferenceArticle) :=
  match env.searchGoogle title with
  | none => ([title], none)
  | some first =>
    let afterShort : List String × Option (List ReferenceArticle) :=
      if first.length = 0 ∧ jsLength (shortTitle title) > 10 ∧ shortTitle title ≠ title then
        ([title, shortTitle title], env.searchGoogle (shortTitle title))
      else ([title], some first)
    match afterShort with
    | (queries, none) => (queries, none)
    | (queries, some second) =>
      if second.length = 0 then
        (queries ++ [title ++ " guide article"], env.searchGoogle (title ++ " guide article"))
      else (queries, some second)

/-- Step 2 of `enhanceSingleArticle`: `referenceContents` after the loop over the
first `articlesToScrape` results, `none` when a scrape throws. -/
def cliScrape (env : Env) (searchResults : List ReferenceArticle) :
    Option (List ReferenceContent) :=
  (searchResults.take 2).foldl
    (fun collected ref =>
      match collected with
      | none => none
      | some referenceContents =>
        match env.scrapeArticleContent ref.url with
        | none => none
        | some scraped =>
          if scraped.content = "" then some referenceContents
          else some (referenceContents ++
            [{ url := ref.url, title := ref.title, content := scraped.content,
               structureSignature := scraped.structureSignature, html := scraped.html }]))
    (some [])

/-- The function `enhanceSingleArticle(article)` of the command-line flow, run
against the API server's store.  Step 3 is the code of step 3 of
`enhanceArticleById`; step 4 sends `PUT /articles/:id`, served by `updateArticle`,
and returns whether that answered success.  The call of `analyzeStructure`, whose
result is only logged, is left out. -/
def enhanceSingleArticle (env : Env) (store : Store) (article : Article) : CliRun :=
  match cliSearch env article.title with
  | (queries, none) =>
    { success := false, store := store, queries := queries, prompts := [], published := none }
  | (queries, some searchResults) =>
    if searchResults.length = 0 then
      { success := false, store := store, queries := queries, prompts := [],
        published := none }
    else
      match cliScrape env searchResults with
      | none =>
        { success := false, store := store, queries := queries, prompts := [],
          published := none }
      | some referenceContents =>
        let prompts :=
          if env.geminiApiKey then [rewritePrompt article referenceContents] else []
        match enhanceStep env article searchResults referenceContents with
        | none =>
          { success := false, store := store, queries := queries, prompts := prompts,
            published := none }
        | some enhancedContent =>
          let body : UpdateBody :=
            { content := some enhancedContent
              referenceArticles := some ((searchResults.take referenceContents.length).map
                fun ref => { url := ref.url, title := ref.title }) }
          let outcome := updateArticle env store article.id body
          { success := outcome.response.success, store := outcome.store, queries := queries,
            prompts := prompts, published := some body }

/-! ## `enhanceAllArticles` (backend/controllers/enhancementController.js) -/

/-- `Article.find({ isUpdated: false }).limit(10)`: the first ten matching
documents in the order of the store; the query has no sort. -/
def findUnenhanced (store : Store) : List Article :=
  (store.filter fun article => !article.isUpdated).take 10

/-- One run of `processEnhancements`: the store it leaves, the ids posted to the
enhancement endpoint, in order, and the endpoint's answers. -/
structure BatchRun where
  store : Store
  attempted : List String
  answers : List Response
deriving DecidableEq

/-- The function `processEnhancements(articles)`: one POST
`/articles/:id/enhance` per article, served by `enhanceArticleById`, one after the
other; an answer that makes the request throw is caught and the loop goes on. -/
def processEnhancements (env : Env) (store : Store) (articles : List Article) : BatchRun :=
  articles.foldl
    (fun run article =>
      let outcome := enhanceArticleById env run.store article.id
      { store := outcome.store, attempted := run.attempted ++ [article.id],
        answers := run.answers ++ [outcome.response] })
    { store := store, attempted := [], answers := [] }

/-- The JSON answer of `enhanceAllArticles`: `count`, and whether it carries
`status: 'processing'`. -/
structure BatchAnswer where
  success : Bool
  count : Nat
  processing : Bool
deriving DecidableEq

/-- The handler `enhanceAllArticles`: its answer, sent at once, and the background
run it starts. -/
def enhanceAllArticles (env : Env) (store : Store) : BatchAnswer × BatchRun :=
  let articles := findUnenhanced store
  if articles.length = 0 then
    ({ success := true, count := 0, processing := false },
      { store := store, attempted := [], answers := [] })
  else
    ({ success := true, count := articles.length, processing := true },
      processEnhancements env store articles)

/-! ## Reference search (scripts/utils/google-search.js) -/

/-- Lower-casing of `A`..`Z` only: how a regular expression with the `i` flag (and
no `u` flag) compares a subject character with an ASCII letter of the pattern. -/
def asciiLowerChars (s : List Char) : List Char :=
  s.map fun c => if isAsciiUpper c then Char.ofNat (c.toNat + 32) else c

/-- The forms of the regular expressions in `isArticleLink`. -/
inductive UrlPattern where
  /-- A literal without anchor, such as `/youtube\.com/`. -/
  | containing (literal : String)
  /-- A literal anchored at the end, such as `/\.edu\/$/`. -/
  | ending (literal : String)
  /-- Alternative literals anchored at the end, with the `i` flag, such as
  `/\.docx?$/i`. -/
  | endingIgnoreCase (literals : List String)
  /-- The expression `/\/\d{4}\/\d{2}\//`. -/
  | datePath
deriving DecidableEq

/-- A match of `/\/\d{4}\/\d{2}\//` that starts at the head of the list. -/
def datePathAtHead : List Char → Bool
  | '/' :: a :: b :: c :: d :: '/' :: e :: f :: '/' :: _ =>
    isAsciiDigit a && isAsciiDigit b && isAsciiDigit c && isAsciiDigit d &&
      isAsciiDigit e && isAsciiDigit f
  | _ => false

/-- `pattern.test(url)`. -/
def UrlPattern.test (pattern : UrlPattern) (url : String) : Bool :=
  match pattern with
  | .containing literal => includes url literal
  | .ending literal => literal.data.isSuffixOf url.data
  | .endingIgnoreCase literals =>
    literals.any fun literal => literal.data.isSuffixOf (asciiLowerChars url.data)
  | .datePath => url.data.tails.any datePathAtHead

/-- The array `excludePatterns`. -/
def excludePatterns : List UrlPattern :=
  [ .containing "youtube.com", .containing "youtu.be", .containing "facebook.com",
    .containing "twitter.com", .containing "x.com", .containing "linkedin.com",
    .containing "instagram.com", .containing "pinterest.com", .containing "reddit.com",
    .endingIgnoreCase [".pdf"], .endingIgnoreCase [".doc", ".docx"],
    .containing "beyondchats.com", .containing "google.com/search",
    .containing "google.com/url", .containing "amazon.com", .containing "amazon.",
    .containing "wikipedia.org", .containing ".gov/", .ending ".edu/",
    .containing "play.google.com", .containing "apps.apple.com",
    .containing "chrome-extension", .containing "mailto:", .containing "tel:" ]

/-- The array `includePatterns`. -/
def includePatterns : List UrlPattern :=
  [ .containing "/blog/", .containing "/article/", .containing "/post/",
    .containing "/news/", .containing "/guide/", .containing "/tutorial/",
    .containing "/how-to/", .containing "medium.com", .containing "dev.to",
    .containing "hashnode.com", .containing "wordpress.com", .containing "blogger.com",
    .containing ".blog", .datePath, .containing "forbes.com", .containing "techcrunch.com",
    .containing "wired.com", .containing "theverge.com", .containing "mashable.com",
    .containing "entrepreneur.com", .containing "inc.com", .containing "businessinsider.com",
    .containing "hubspot.com", .containing "marketingland.com",
    .containing "searchengineland.com", .containing "moz.com", .containing "semrush.com",
    .containing "ahrefs.com" ]

/-- The expression `/\.(jpg|jpeg|png|gif|svg|ico|zip|rar|exe|dmg)$/i`. -/
def downloadPattern : UrlPattern :=
  .endingIgnoreCase
    [".jpg", ".jpeg", ".png", ".gif", ".svg", ".ico", ".zip", ".rar", ".exe", ".dmg"]

/-- `s.startsWith(literal)`. -/
def startsWith (s literal : String) : Bool := literal.data.isPrefixOf s.data

/-- The function `isArticleLink(url)`; `none` is a missing (undefined) url. -/
def isArticleLink (url : Option String) : Bool :=
  match url with
  | none => false
  | some url =>
    if url = "" then false
    else if excludePatterns.any (fun pattern => pattern.test url) then false
    else if includePatterns.any (fun pattern => pattern.test url) then true
    else if startsWith url "http://" || startsWith url "https://" then
      if jsLength url < 20 then false
      else if downloadPattern.test url then false
      else true
    else false

/-- An element of `response.data.items` of the structured search API. -/
structure ApiItem where
  link : Option String
  title : String
deriving DecidableEq

/-- What the page script reads from one result element `div.g, div[data-ved]`:
the `href` of its first link `a[href^="http"], a[href^="/url"]` and the text of its
first title element `h3, h2, .LC20lb, a h3`; `none` when there is no such
element. -/
structure ResultBlock where
  href : Option String
  title : Option String
deriving DecidableEq

/-- An anchor `a.result__a` of the alternative engine's page: its `href` and its
text. -/
structure ResultAnchor where
  href : Option String
  text : String
deriving DecidableEq

/-- The outside world of `searchGoogle`.
* `apiConfigured`: `GOOGLE_API_KEY` and `GOOGLE_CX` are both set.
* `customSearch query`: the answer of the structured API: `none` when the request
  throws, `some none` when the answer has no `items`.
* `resultBlocks query`: the result elements of the rendered page, `none` when
  launching, navigating or closing the browser throws.
* `decodeURIComponent`: the built-in function, `none` when it throws.
* `duckDuckGo query`: the anchors of the alternative engine's page, `none` when
  the request throws. -/
structure SearchEnv where
  apiConfigured : Bool
  customSearch : String → Option (Option (List ApiItem))
  resultBlocks : String → Option (List ResultBlock)
  decodeURIComponent : String → Option String
  duckDuckGo : String → Option (List ResultAnchor)

/-- The loop of `searchWithAPI` over the items, from the results collected so
far. -/
def collectApiResults : List ApiItem → List ReferenceArticle → List ReferenceArticle
  | [], results => results
  | item :: rest, results =>
    if isArticleLink item.link then
      let results := results ++ [ReferenceArticle.mk (item.link.getD "") item.title]
      if results.length ≥ 2 then results else collectApiResults rest results
    else collectApiResults rest results

/-- The function `searchWithAPI(query)`. -/
def searchWithAPI (env : SearchEnv) (query : String) : List ReferenceArticle :=
  match env.customSearch query with
  | none => []
  | some none => []
  | some (some items) => collectApiResults items []

/-- The capture of `url.match(/url\?q=([^&]+)/)`: after the first `url?q=` that is
followed by a character other than `&`, the characters up to the next `&`. -/
def redirectCapture : List Char → Option (List Char)
  | [] => none
  | c :: cs =>
    if "url?q=".data.isPrefixOf (c :: cs) ∧
        ((c :: cs).drop 6).takeWhile (· != '&') ≠ [] then
      some (((c :: cs).drop 6).takeWhile (· != '&'))
    else redirectCapture cs

/-- The body of the `forEach` callback of the page script for one result
element, from the results collected so far; `none` when it throws. -/
def collectResultBlock (env : SearchEnv) (searchResults : List ReferenceArticle)
    (block : ResultBlock) : Option (List ReferenceArticle) :=
  if searchResults.length ≥ 2 then some searchResults
  else
    match block.href with
    | none => some searchResults
    | some href =>
      if href = "" then some searchResults
      else
        let title :=
          match block.title with
          | some text => trim text
          | none => ""
        let push := fun (url : String) =>
          if url ≠ "" ∧ title ≠ "" ∧ startsWith url "http" then
            searchResults ++ [⟨url, title⟩]
          else searchResults
        if startsWith href "/url" then
          match redirectCapture href.data with
          | none => some searchResults
          | some capture =>
            match env.decodeURIComponent (String.mk capture) with
            | none => none
            | some url => some (push url)
        else some (push href)

/-- The page script of `searchWithScraping`: the array `searchResults` it returns,
`none` when it throws. -/
def collectResultBlocks (env : SearchEnv) :
    List ResultBlock → List ReferenceArticle → Option (List ReferenceArticle)
  | [], searchResults => some searchResults
  | block :: rest, searchResults =>
    match collectResultBlock env searchResults block with
    | none => none
    | some searchResults => collectResultBlocks env rest searchResults

/-- The loop of `searchWithDuckDuckGo` over the anchors, from the results
collected so far. -/
def collectAnchors : List ResultAnchor → List ReferenceArticle → List ReferenceArticle
  | [], results => results
  | anchor :: rest, results =>
    if results.length ≥ 2 then results
    else if isArticleLink anchor.href ∧ trim anchor.text ≠ "" then
      collectAnchors rest (results ++ [⟨anchor.href.getD "", trim anchor.text⟩])
    else collectAnchors rest results

/-- The function `searchWithDuckDuckGo(query)`. -/
def searchWithDuckDuckGo (env : SearchEnv) (query : String) : List ReferenceArticle :=
  match env.duckDuckGo query with
  | none => []
  | some anchors => collectAnchors anchors []

/-- The function `searchWithScraping(query)`. -/
def searchWithScraping (env : SearchEnv) (query : String) : List ReferenceArticle :=
  match env.resultBlocks query with
  | none => searchWithDuckDuckGo env query
  | some blocks =>
    match collectResultBlocks env blocks [] with
    | none => searchWithDuckDuckGo env query
    | some results => (results.filter fun result => isArticleLink (some result.url)).take 2

/-- The function `searchGoogle(query)`. -/
def searchGoogle (env : SearchEnv) (query : String) : List ReferenceArticle :=
  if env.apiConfigured then searchWithAPI env query else searchWithScraping env query

/-! ## Names used in the statements -/

/-- The prompt of the model call that `enhanceArticleById` makes for `article`:
the branch of step 3 taken after steps 1 and 2. -/
def issuedPrompt (env : Env) (article : Article) : Prompt :=
  let referenceContents := scrapeStep env (searchStep env article.title)
  if referenceContents.length > 0 then
    Prompt.withReferences (rewriteSource article) referenceContents article.title
  else Prompt.withoutReferences (rewriteSource article) article.title

/-- The entry `searchWithAPI` builds from an item. -/
def apiEntry (item : ApiItem) : ReferenceArticle :=
  ReferenceArticle.mk (item.link.getD "") item.title

/-- The entry `searchWithDuckDuckGo` builds from an anchor. -/
def anchorEntry (anchor : ResultAnchor) : ReferenceArticle :=
  ReferenceArticle.mk (anchor.href.getD "") (trim anchor.text)

/-- The entry the page script of `searchWithScraping` builds from a result
element: the link's target (the decoded `q` parameter for a redirect link) and the
trimmed title, when both are non-empty and the target starts with `http`. -/
def blockEntry (env : SearchEnv) (block : ResultBlock) : Option ReferenceArticle :=
  match block.href with
  | none => none
  | some href =>
    if href = "" then none
    else
      let title :=
        match block.title with
        | some text => trim text
        | none => ""
      let entry := fun (url : String) =>
        if url ≠ "" ∧ title ≠ "" ∧ startsWith url "http" then
          some (ReferenceArticle.mk url title)
        else none
      if startsWith href "/url" then
        match redirectCapture href.data with
        | none => none
        | some capture =>
          match env.decodeURIComponent (String.mk capture) with
          | none => none
          | some url => entry url
      else entry href

/-- The entries of the structured API's answer, in its order. -/
def apiListing (env : SearchEnv) (query : String) : List ReferenceArticle :=
  match env.customSearch query with
  | some (some items) => items.map apiEntry
  | _ => []

/-- The entries of the rendered result page, in page order. -/
def blockListing (env : SearchEnv) (query : String) : List ReferenceArticle :=
  match env.resultBlocks query with
  | some blocks => blocks.filterMap (blockEntry env)
  | none => []

/-- The entries of the alternative engine's page, in page order. -/
def anchorListing (env : SearchEnv) (query : String) : List ReferenceArticle :=
  match env.duckDuckGo query with
  | some anchors => anchors.map anchorEntry
  | none => []

/-- ASCII letter. -/
def isAsciiLetter (c : Char) : Bool := isAsciiLower c || isAsciiUpper c

/-- The reading of "the text contains the word `word`, compared
case-insensitively", following the words of the specification: `word` occurs in
the lower-cased text with no letter directly before it and none directly after
it. -/
def containsWord (text word : String) : Bool :=
  let t := (toLowerCase text).data
  (List.range (t.length + 1)).any fun i =>
    word.data.isPrefixOf (t.drop i) &&
    (match (t.take i).getLast? with
      | some c => !isAsciiLetter c
      | none => true) &&
    (match (t.drop (i + word.data.length)).head? with
      | some c => !isAsciiLetter c
      | none => true)

/-! ## Discovery: `scrapeOldestArticles` (backend/scraper/beyondchats-scraper.js) -/

/-- An element of the list `scrapePage` returns. -/
structure ListedArticle where
  title : String
  link : String
  dateText : Option String
  author : String
deriving DecidableEq

/-- The outside world of the scraper.
* `findLastPage`, `scrapePage n`: what the listing pages show (both functions
  catch their own errors).
* `scrapeArticleContent url`: the HTML of the article page, `""` on failure.
* `parseDateText t`: the instant `new Date(t)` denotes, `none` for an invalid date.
* `now`: the reading of `new Date()`.
* `newObjectId store`: the id given to the next created document.
* `storeAccepts doc`: whether `save()` of `doc` resolves (it throws otherwise). -/
structure ScraperEnv where
  findLastPage : Nat
  scrapePage : Nat → List ListedArticle
  scrapeArticleContent : String → String
  parseDateText : String → Option Nat
  now : Nat
  newObjectId : Store → String
  storeAccepts : Article → Bool

/-- The state of one run of the scraper: the store, the list `savedArticles`, and
the URLs passed to `scrapeArticleContent` so far. -/
structure ScrapeRun where
  store : Store
  savedArticles : List Article
  fetched : List String
deriving DecidableEq

/-- The function `parseDate(dateText)`. -/
def parseDate (env : ScraperEnv) (dateText : Option String) : Nat :=
  match dateText with
  | none => env.now
  | some text =>
    if text = "" then env.now
    else
      match env.parseDateText text with
      | some date => date
      | none => env.now

/-- The document `new Article({...})` of the loop body, with the schema's setters
(`trim` on title and slug) and defaults (`isUpdated`, `referenceArticles`) applied;
`timestamps` stamps `updatedAt` at creation. -/
def newArticle (env : ScraperEnv) (store : Store) (article : ListedArticle) (slug content : String) :
    Article :=
  { id := env.newObjectId store
    title := trim article.title
    content := if content = "" then article.title else content
    originalContent := if content = "" then article.title else content
    slug := trim slug
    publishedDate := parseDate env article.dateText
    author := article.author
    sourceUrl := article.link
    isUpdated := false
    updatedAt := some env.now
    referenceArticles := [] }

/-- `newArticle.save()`: `none` when it throws, because of the unique index on
`slug` or because the store rejects the document. -/
def insertDocument (env : ScraperEnv) (store : Store) (doc : Article) : Option Store :=
  if store.any (fun a => decide (a.slug = doc.slug)) then none
  else if env.storeAccepts doc then some (store ++ [doc])
  else none

/-- One turn of the loop `for (const article of oldestArticles)`. -/
def processListedArticle (env : ScraperEnv) (run : ScrapeRun) (article : ListedArticle) :
    ScrapeRun :=
  let slug := generateSlug article.title
  match findOneBySlug run.store slug with
  | some existing => { run with savedArticles := run.savedArticles ++ [existing] }
  | none =>
    let content := env.scrapeArticleContent article.link
    let fetched := run.fetched ++ [article.link]
    let doc := newArticle env run.store article slug content
    match insertDocument env run.store doc with
    | none => { run with fetched := fetched }
    | some store =>
      { store := store, savedArticles := run.savedArticles ++ [doc], fetched := fetched }

/-- The list `articles` before the slice: the last page, preceded by the page
before it when the last page lists fewer than five, and page 1 when all that is
empty. -/
def listedArticles (env : ScraperEnv) : List ListedArticle :=
  let lastPage := env.findLastPage
  let articles := env.scrapePage lastPage
  let articles :=
    if articles.length < 5 ∧ lastPage > 1 then env.scrapePage (lastPage - 1) ++ articles
    else articles
  if articles.length = 0 then articles ++ env.scrapePage 1 else articles

/-- The candidates: `articles.slice(-5).reverse()`. -/
def oldestArticles (env : ScraperEnv) : List ListedArticle :=
  ((listedArticles env).drop ((listedArticles env).length - 5)).reverse

/-- The function `scrapeOldestArticles()`, run on a given store. -/
def scrapeOldestArticles (env : ScraperEnv) (store : Store) : ScrapeRun :=
  (oldestArticles env).foldl (processListedArticle env)
    { store := store, savedArticles := [], fetched := [] }

/-- The url ends with `ending`, letters compared case-insensitively. -/
def endsWithIgnoringCase (url ending : String) : Bool :=
  ending.data.isSuffixOf (asciiLowerChars url.data)

/-- The url matches one of the rejection patterns (`excludePatterns`). -/
def isRejected (url : String) : Bool := excludePatterns.any fun pattern => pattern.test url

/-- The character sequences named by the rejection claim. -/
def rejectedLiterals : List String :=
  [ "youtube.com", "youtu.be", "facebook.com", "twitter.com", "x.com", "linkedin.com",
    "instagram.com", "pinterest.com", "reddit.com", "beyondchats.com", "google.com/search",
    "google.com/url", "amazon.", "wikipedia.org", "play.google.com", "apps.apple.com",
    "chrome-extension", "mailto:", "tel:" ]

/-- The known article path patterns, the date segment apart. -/
def articlePathLiterals : List String :=
  ["/blog/", "/article/", "/post/", "/news/", "/guide/", "/tutorial/", "/how-to/"]

/-- The curated publishing domains. -/
def curatedDomains : List String :=
  [ "medium.com", "dev.to", "hashnode.com", "wordpress.com", "blogger.com", ".blog",
    "forbes.com", "techcrunch.com", "wired.com", "theverge.com", "mashable.com",
    "entrepreneur.com", "inc.com", "businessinsider.com", "hubspot.com", "marketingland.com",
    "searchengineland.com", "moz.com", "semrush.com", "ahrefs.com" ]

/-- The url has a `/YYYY/MM/` segment. -/
def hasDateSegment (url : String) : Bool := url.data.tails.any datePathAtHead

/-- The file extensions of the default branch, without the dot, as the claim
lists them. -/
def downloadExtensions : List String :=
  ["jpg", "jpeg", "png", "gif", "svg", "ico", "zip", "rar", "exe", "dmg"]

/-- The url contains a known article path pattern (one of `articlePathLiterals`
or a `/YYYY/MM/` segment) or a curated publishing domain. -/
def matchesAcceptPattern (url : String) : Bool :=
  (articlePathLiterals ++ curatedDomains).any (fun literal => includes url literal) ||
    hasDateSegment url

/-- The default acceptance: the url starts with `http://` or `https://`, is at
least 20 characters long and ends, case-insensitively, in none of `endings`. -/
def defaultAccepted (endings : List String) (url : String) : Bool :=
  (startsWith url "http://" || startsWith url "https://") && decide (jsLength url ≥ 20) &&
    !(endings.any fun ending => endsWithIgnoringCase url ending)

/-! ## Sample data -/

/-- A newly discovered article. -/
def sampleArticle : Article :=
  { id := "a1", title := "Intro to X", content := "Plain text about X.", originalContent := "",
    slug := "intro-to-x", publishedDate := 100, author := "",
    sourceUrl := "https://beyondchats.com/blogs/intro-to-x/", isUpdated := false,
    updatedAt := none, referenceArticles := [] }

/-- Two search results. -/
def sampleReferences : List ReferenceArticle :=
  [⟨"https://one.example/blog/x", "X explained"⟩, ⟨"https://two.example/blog/x", "A guide to X"⟩]

/-- What a page scrape returns in the samples. -/
def sampleScrape : ScrapedArticle :=
  { title := "A page", content := "Reference text", html := "<p>Reference text</p>",
    structureSignature := "p" }

/-- A world in which every call succeeds: two search results, both pages
scraped, the model answers inside a code fence. -/
def sampleEnv : Env :=
  { castObjectId := fun _ => true
    geminiApiKey := true
    searchGoogle := fun _ => some sampleReferences
    scrapeArticleContent := fun _ => some sampleScrape
    generateContent := fun _ => some "```html\n<h2>X</h2><p>Better text about X.</p>\n```"
    storeAccepts := fun _ => true
    now := 200 }

/-- The world of `sampleEnv` with a failing model call. -/
def failingModelEnv : Env := { sampleEnv with generateContent := fun _ => none }

/-- The world of `sampleEnv` with a search that finds nothing. -/
def emptySearchEnv : Env := { sampleEnv with searchGoogle := fun _ => some [] }

/-- The world of `sampleEnv` in which the first result's page cannot be scraped
and the second one's can. -/
def firstScrapeFailsEnv : Env :=
  { sampleEnv with
    scrapeArticleContent := fun url =>
      if url = "https://one.example/blog/x" then none else some sampleScrape }

/-- A listing page with three entries: two titles of the same slug and one whose
slug is that of `sampleArticle`. -/
def sampleListing : List ListedArticle :=
  [ { title := "Intro to X", link := "https://beyondchats.com/blogs/intro-to-x/",
      dateText := none, author := "" },
    { title := "Chatbots: a guide", link := "https://beyondchats.com/blogs/chatbots-a-guide/",
      dateText := some "2023-01-05", author := "Ann" },
    { title := "chatbots - A Guide!", link := "https://beyondchats.com/blogs/chatbots-2/",
      dateText := none, author := "" } ]

/-- A scraper world with one listing page. -/
def sampleScraperEnv : ScraperEnv :=
  { findLastPage := 1
    scrapePage := fun _ => sampleListing
    scrapeArticleContent := fun _ => "<p>Body</p>"
    parseDateText := fun _ => some 50
    now := 300
    newObjectId := fun store => "n" ++ toString store.length
    storeAccepts := fun _ => true }

/-- The world of `sampleScraperEnv` while the store rejects every write. -/
def rejectingScraperEnv : ScraperEnv :=
  { sampleScraperEnv with storeAccepts := fun _ => false }

/-- A result page with three result elements: a video link, a redirect link to
an article, and a direct link to an article. -/
def sampleBlocks : List ResultBlock :=
  [ ⟨some "https://www.youtube.com/watch?v=abc", some "X, the video"⟩,
    ⟨some "/url?q=https://one.example/blog/x&sa=U", some " X explained "⟩,
    ⟨some "https://two.example/blog/x", some "A guide to X"⟩ ]

/-- A search world without API credentials: the result page is `sampleBlocks`, the
alternative engine lists one article. -/
def sampleSearchEnv : SearchEnv :=
  { apiConfigured := false
    customSearch := fun _ => none
    resultBlocks := fun _ => some sampleBlocks
    decodeURIComponent := fun s => some s
    duckDuckGo := fun _ => some [⟨some "https://three.example/blog/x", "X in depth"⟩] }

/-- The world of `sampleSearchEnv` with API credentials and an API answer without
items. -/
def emptyApiSearchEnv : SearchEnv :=
  { sampleSearchEnv with apiConfigured := true, customSearch := fun _ => some none }

/-- The world of `sampleSearchEnv` with a result page that renders without any
result element. -/
def emptyPageSearchEnv : SearchEnv :=
  { sampleSearchEnv with resultBlocks := fun _ => some [] }

/-- The world of `sampleEnv` in which both pages are scraped without content. -/
def emptyScrapeEnv : Env :=
  { sampleEnv with
    scrapeArticleContent := fun _ => some { sampleScrape with content := "" } }

/-- The world of `sampleEnv` in which only the shortened title finds results. -/
def shortTitleEnv : Env :=
  { sampleEnv with
    searchGoogle := fun query =>
      if query = "Chatbots for support" then some sampleReferences else some [] }

/-- Eleven unenhanced articles `a0` .. `a10` in store order; each one was
published a day before the one stored before it, so `a10` is the oldest. -/
def elevenArticles : Store :=
  (List.range 11).map fun i =>
    { sampleArticle with
      id := "a" ++ toString i, slug := "article-" ++ toString i, publishedDate := 100 - i }

/-- An enhanced article that holds a reference from an earlier run. -/
def enhancedSample : Article :=
  { sampleArticle with
    content := "<p>Earlier rewrite.</p>", originalContent := "Plain text about X.",
    isUpdated := true, updatedAt := some 150,
    referenceArticles := [⟨"https://old.example/blog/x", "Earlier reference"⟩] }

/-- The original text of a prompt. -/
def Prompt.original : Prompt → String
  | .withReferences originalContent _ _ => originalContent
  | .withoutReferences originalContent _ => originalContent

/-- The world of `sampleEnv` with a model that answers only a prompt whose original
text is `Plain text about X.`, and throws on every other prompt. -/
def originalOnlyEnv : Env :=
  { sampleEnv with
    generateContent := fun prompt =>
      if prompt.original = "Plain text about X." then some "<p>Rewritten from the original.</p>"
      else none }

/-! ## Content extraction (scripts/utils/content-scraper.js, backend/scraper/beyondchats-scraper.js) -/

/-- A node of a page: a text node, or an element with its tag name (lower case),
the values of its `class` and `src` attributes (`""` when absent) and its child
nodes.  These are the parts of a node that the extraction code looks at. -/
inductive Dom where
  | text (content : String)
  | element (tag : String) (className : String) (src : String) (children : List Dom)

mutual
/-- The characters of `node.textContent`. -/
def Dom.textChars : Dom → List Char
  | .text content => content.data
  | .element _ _ _ children => textCharsOfNodes children
/-- The concatenated text of a list of sibling nodes. -/
def textCharsOfNodes : List Dom → List Char
  | [] => []
  | node :: rest => node.textChars ++ textCharsOfNodes rest
end

/-- The property `node.textContent` (cheerio: `$(node).text()`). -/
def Dom.textContent (node : Dom) : String := String.mk node.textChars

/-- The lower-case tag name of an element, `""` for a text node. -/
def Dom.tag : Dom → String
  | .text _ => ""
  | .element tag _ _ _ => tag

/-- Whether the node is a text node. -/
def Dom.isText : Dom → Bool
  | .text _ => true
  | .element _ _ _ _ => false

mutual
/-- An element followed by the elements inside it, in document order; nothing for
a text node. -/
def Dom.selfAndDescendants : Dom → List Dom
  | .text _ => []
  | .element tag className src children =>
    .element tag className src children :: elementsOfNodes children
/-- The elements among and inside a list of sibling nodes, in document order: for
the children of `contentEl` this is `contentEl.querySelectorAll('*')`. -/
def elementsOfNodes : List Dom → List Dom
  | [] => []
  | node :: rest => node.selfAndDescendants ++ elementsOfNodes rest
end

/-- The array `paragraphs`: the elements selected by the tag names of `selector`,
in document order, as pairs of tag name and trimmed text, those with a text of at
most 20 characters left out. -/
def paragraphsOf (selector : List String) (children : List Dom) : List (String × String) :=
  (((elementsOfNodes children).filter fun el => decide (el.tag ∈ selector)).map
    fun el => (el.tag, trim el.textContent)).filter fun item => decide (jsLength item.2 > 20)

/-- The value `structure`: `paragraphs.map(p => p.tag).join(', ')`. -/
def structureOf (selector : List String) (children : List Dom) : String :=
  ", ".intercalate ((paragraphsOf selector children).map fun item => item.1)

/-- The selector `'p, h2, h3, h4, ul, ol, blockquote'` of the rendered path. -/
def renderedSelector : List String := ["p", "h2", "h3", "h4", "ul", "ol", "blockquote"]

/-- The selector `'p, h2, h3, h4'` of the static-fetch fallback path. -/
def fallbackSelector : List String := ["p", "h2", "h3", "h4"]

/-- What distinguishes the three copies of the trailing-boilerplate cut.
* `trimsText`: the text is trimmed before the test (backend scraper).
* `hereCounts`: "follow us" together with "here" is a marker (backend scraper).
* `elementSiblingsOnly`: only the following sibling elements are removed
  (`nextElementSibling`, `nextAll()`), not the following text nodes.
* `parentSiblings`: the following sibling elements of the marker's parent are
  removed as well (backend scraper). -/
structure CutVariant where
  trimsText : Bool
  hereCounts : Bool
  elementSiblingsOnly : Bool
  parentSiblings : Bool

/-- The cut of the rendered path of scripts/utils/content-scraper.js. -/
def renderedCut : CutVariant :=
  { trimsText := false, hereCounts := false, elementSiblingsOnly := false,
    parentSiblings := false }

/-- The cut of the fallback path of scripts/utils/content-scraper.js. -/
def fallbackCut : CutVariant :=
  { trimsText := false, hereCounts := false, elementSiblingsOnly := true,
    parentSiblings := false }

/-- The cut of backend/scraper/beyondchats-scraper.js. -/
def backendCut : CutVariant :=
  { trimsText := true, hereCounts := true, elementSiblingsOnly := true,
    parentSiblings := true }

/-- The marker test on the text of an element. -/
def isFollowUsText (variant : CutVariant) (textContent : String) : Bool :=
  let text := if variant.trimsText then trim (toLowerCase textContent)
    else toLowerCase textContent
  includes text "follow us here" || includes text "follow us!" ||
    (includes text "follow us" &&
      (includes text "social" || includes text "icon" ||
        (variant.hereCounts && includes text "here")))

/-- The marker test on a node: an element whose text passes the test. -/
def isFollowUs (variant : CutVariant) (node : Dom) : Bool :=
  !node.isText && isFollowUsText variant node.textContent

/-- The siblings that stay after the marker element: none, or the text nodes
when only sibling elements are removed. -/
def keptFollowing (elementsOnly : Bool) (following : List Dom) : List Dom :=
  if elementsOnly then following.filter fun node => node.isText else []

mutual
/-- The cut inside a node that is not itself the marker element: the node after
the cut, and whether the marker element was one of its children; `none` when no
element inside it passes the test. -/
def cutInside (variant : CutVariant) : Dom → Option (Dom × Bool)
  | .text _ => none
  | .element tag className src children =>
    match cutSiblings variant children with
    | some (kept, direct) => some (.element tag className src kept, direct)
    | none => none
/-- The cut in a list of sibling nodes: the first element in document order that
passes the test is removed with its following siblings.  The result is the list
after the cut and whether the marker element was a member of the list; `none`
when no element passes the test. -/
def cutSiblings (variant : CutVariant) : List Dom → Option (List Dom × Bool)
  | [] => none
  | node :: following =>
    if isFollowUs variant node then
      some (keptFollowing variant.elementSiblingsOnly following, true)
    else
      match cutInside variant node with
      | some (cut, direct) =>
        some (cut :: (if variant.parentSiblings && direct then
          keptFollowing true following else following), false)
      | none =>
        match cutSiblings variant following with
        | some (kept, direct) => some (node :: kept, direct)
        | none => none
end

/-- The selector of the pass after the cut: an `img` whose `src` contains one of
the listed words, or an element whose `class` contains `social`, `share` or
`follow` (`.social-icon` and `.share-icon` select a subset of these). -/
def isSocialIcon : Dom → Bool
  | .text _ => false
  | .element tag className src _ =>
    (tag == "img" &&
      ["social", "icon", "facebook", "twitter", "linkedin", "instagram", "youtube"].any
        fun word => includes src word) ||
    ["social", "share", "follow"].any fun word => includes className word

mutual
/-- The pass after the cut inside a node that is kept. -/
def removeSocialIcons : Dom → Dom
  | .text content => .text content
  | .element tag className src children =>
    .element tag className src (removeSocialIconsOfNodes children)
/-- The pass after the cut: every element selected by `isSocialIcon` is removed
with what it contains. -/
def removeSocialIconsOfNodes : List Dom → List Dom
  | [] => []
  | node :: rest =>
    if isSocialIcon node then removeSocialIconsOfNodes rest
    else removeSocialIcons node :: removeSocialIconsOfNodes rest
end

/-- The children of `contentEl` after the trailing-boilerplate cut and the pass
that follows it, from its children before the cut.  Without a marker element the
content is left as it is. -/
def cutTrailingBoilerplate (variant : CutVariant) (children : List Dom) : List Dom :=
  match cutSiblings variant children with
  | some (kept, _) => removeSocialIconsOfNodes kept
  | none => children

/-- A content element with a paragraph and a list. -/
def sampleContent : List Dom :=
  [ .element "p" "" "" [.text "A first paragraph of the article."],
    .element "ul" "" "" [.element "li" "" "" [.text "A first point, in some words"],
      .element "li" "" "" [.text "A second point"]] ]

/-- A content element whose last paragraph is the marker; the paragraph before it
holds an image whose `src` contains `icon`. -/
def sampleMarkedContent : List Dom :=
  [ .element "p" "" "" [.text "Read the guide ", .element "img" "" "/assets/icon-pdf.png" []],
    .element "p" "" "" [.text "Follow us here!"],
    .element "div" "" "" [.text "Links"] ]

/-- A content element in which the marker paragraph and the paragraph before it
share a wrapper element. -/
def sampleWrappedContent : List Dom :=
  [ .element "h2" "" "" [.text "Heading"],
    .element "div" "" "" [.element "p" "" "" [.text "Body of the article."],
      .element "p" "" "" [.text "Follow us here!"]] ]

/-- A content element with a heading and a paragraph and no list or quotation. -/
def sampleProse : List Dom :=
  [ .element "h2" "" "" [.text "A heading of some length"],
    .element "p" "" "" [.text "A first paragraph of the article."] ]

/-- The children of a content element before its marker paragraph. -/
def sampleLeadingNodes : List Dom :=
  [ .element "h2" "" "" [.text "Heading"],
    .element "p" "" "" [.text "Body of the article."] ]

/-- A marker paragraph. -/
def sampleMarker : Dom := .element "p" "" "" [.text "Follow us here!"]

/-- The children of a content element after its marker paragraph. -/
def sampleFollowingNodes : List Dom :=
  [ .text " or ", .element "div" "" "" [.text "Links"] ]

/-! # Theorems -/

/-! ## Lemmas on characters -/

theorem toNat_hyphen {c : Char} : c.toNat = 45 ↔ c = '-' := by
  constructor
  · intro h
    have h2 := Char.ofNat_toNat c
    rw [h] at h2
    exact h2.symm
  · intro h
    subst h
    rfl

theorem toNat_underscore {c : Char} : c.toNat = 95 ↔ c = '_' := by
  constructor
  · intro h
    have h2 := Char.ofNat_toNat c
    rw [h] at h2
    exact h2.symm
  · intro h
    subst h
    rfl

theorem ofNat_add32_toNat (n : Nat) (h1 : 65 ≤ n) (h2 : n ≤ 90) :
    (Char.ofNat (n + 32)).toNat = n + 32 := by
  interval_cases n <;> rfl

theorem lowerCodePoint_not_upper (c d : Char) (h : d ∈ lowerCodePoint c) :
    isAsciiUpper d = false := by
  unfold lowerCodePoint at h
  split at h
  · rename_i hu
    simp only [List.mem_singleton] at h
    subst h
    simp only [isAsciiUpper, Bool.and_eq_true, decide_eq_true_eq] at hu
    have := ofNat_add32_toNat c.toNat hu.1 hu.2
    simp only [isAsciiUpper, this, Bool.and_eq_false_imp, decide_eq_true_eq, decide_eq_false_iff_not]
    omega
  · split at h
    · simp only [List.mem_cons, List.mem_singleton, List.not_mem_nil, or_false] at h
      rcases h with h | h <;> subst h <;> rfl
    · split at h
      · simp only [List.mem_singleton] at h
        subst h
        rfl
      · rename_i hu _ _
        simp only [List.mem_singleton] at h
        subst h
        simpa using hu

theorem isSlugChar_of_kept {c : Char} (hk : isSlugKept c = true) (hu : isAsciiUpper c = false)
    (hs : isSlugSeparator c = false) : isSlugChar c = true := by
  simp only [isSlugKept, isWordChar, isSlugSeparator, isSlugChar, Bool.or_eq_true,
    Bool.or_eq_false_iff, beq_iff_eq] at *
  rcases hk with ((((h | h) | h) | h) | h) | h
  · simp [hu] at h
  · simp [h]
  · simp [h]
  · simp [h] at hs
  · simp [h] at hs
  · simp [h] at hs

theorem lowerCodePoint_slugChar {c : Char} (h : isSlugChar c = true) : lowerCodePoint c = [c] := by
  have hb : c.toNat ≤ 122 := by
    simp only [isSlugChar, isAsciiLower, isAsciiDigit, Bool.or_eq_true, Bool.and_eq_true,
      decide_eq_true_eq, beq_iff_eq] at h
    rcases h with (h | h) | h
    · exact h.2
    · omega
    · rw [toNat_hyphen.mpr h]; omega
  have hu : isAsciiUpper c = false := by
    simp only [isSlugChar, isAsciiLower, isAsciiDigit, Bool.or_eq_true, Bool.and_eq_true,
      decide_eq_true_eq, beq_iff_eq] at h
    simp only [isAsciiUpper, Bool.and_eq_false_imp, decide_eq_true_eq, decide_eq_false_iff_not]
    rcases h with (h | h) | h
    · omega
    · omega
    · rw [toNat_hyphen.mpr h]; omega
  unfold lowerCodePoint
  rw [if_neg (by simp [hu]), if_neg (by omega), if_neg (by omega)]

theorem not_whiteSpace_of_slugChar {c : Char} (h : isSlugChar c = true) :
    isWhiteSpace c = false := by
  have hb : 45 ≤ c.toNat ∧ c.toNat ≤ 122 := by
    simp only [isSlugChar, isAsciiLower, isAsciiDigit, Bool.or_eq_true, Bool.and_eq_true,
      decide_eq_true_eq, beq_iff_eq] at h
    rcases h with (h | h) | h
    · omega
    · omega
    · rw [toNat_hyphen.mpr h]; omega
  simp only [isWhiteSpace, Bool.or_eq_false_iff, beq_eq_false_iff_ne, ne_eq,
    Bool.and_eq_false_imp, decide_eq_true_eq, decide_eq_false_iff_not]
  omega

theorem kept_of_slugChar {c : Char} (h : isSlugChar c = true) : isSlugKept c = true := by
  simp only [isSlugChar, Bool.or_eq_true, beq_iff_eq] at h
  simp only [isSlugKept, isWordChar, Bool.or_eq_true, beq_iff_eq]
  rcases h with (h | h) | h
  · simp [h]
  · simp [h]
  · simp [h]

theorem separator_of_slugChar {c : Char} (h : isSlugChar c = true) :
    isSlugSeparator c = true ↔ c = '-' := by
  have hw := not_whiteSpace_of_slugChar h
  simp only [isSlugSeparator, hw, Bool.false_or, Bool.or_eq_true, beq_iff_eq]
  constructor
  · rintro (h1 | h1)
    · exfalso
      simp only [isSlugChar, isAsciiLower, isAsciiDigit, Bool.or_eq_true, Bool.and_eq_true,
        decide_eq_true_eq, beq_iff_eq] at h
      have := toNat_underscore.mpr h1
      rcases h with (h | h) | h
      · omega
      · omega
      · subst h; cases h1
    · exact h1
  · intro h1; exact Or.inr h1

/-! ## Lemmas on `generateSlug` -/

/-- No two hyphens in a row. -/
theorem chain_of_collapse (b : Bool) (l : List Char) :
    List.Chain' (fun x y => ¬(x = '-' ∧ y = '-')) (collapseSeparators b l) ∧
      (b = true → (collapseSeparators b l).head? ≠ some '-') := by
  induction l generalizing b with
  | nil => simp [collapseSeparators]
  | cons c cs ih =>
    unfold collapseSeparators
    by_cases hs : isSlugSeparator c = true
    · rw [if_pos hs]
      cases b with
      | true =>
        simp only [if_true]
        exact ⟨(ih true).1, fun _ => (ih true).2 rfl⟩
      | false =>
        simp only [Bool.false_eq_true, if_false, List.chain'_cons', List.head?_cons]
        refine ⟨⟨?_, (ih true).1⟩, fun h => by cases h⟩
        intro y hy hxy
        have := (ih true).2 rfl
        rw [Option.mem_def] at hy
        rw [hy, hxy.2] at this
        exact this rfl
    · rw [if_neg hs]
      have hc : c ≠ '-' := by
        intro h
        subst h
        exact hs rfl
      simp only [List.chain'_cons', List.head?_cons]
      refine ⟨⟨?_, (ih false).1⟩, fun _ h => ?_⟩
      · intro y _ hxy
        exact hc hxy.1
      · simp only [Option.some.injEq] at h
        exact hc h

theorem mem_collapse (b : Bool) (l : List Char) (d : Char)
    (h : d ∈ collapseSeparators b l) : d = '-' ∨ (d ∈ l ∧ isSlugSeparator d = false) := by
  induction l generalizing b with
  | nil => simp [collapseSeparators] at h
  | cons c cs ih =>
    unfold collapseSeparators at h
    by_cases hs : isSlugSeparator c = true
    · rw [if_pos hs] at h
      cases b with
      | true =>
        simp only [if_true] at h
        rcases ih true h with h1 | h1
        · exact Or.inl h1
        · exact Or.inr ⟨List.mem_cons_of_mem _ h1.1, h1.2⟩
      | false =>
        simp only [Bool.false_eq_true, if_false, List.mem_cons] at h
        rcases h with h | h
        · exact Or.inl h
        · rcases ih true h with h1 | h1
          · exact Or.inl h1
          · exact Or.inr ⟨List.mem_cons_of_mem _ h1.1, h1.2⟩
    · rw [if_neg hs] at h
      simp only [List.mem_cons] at h
      rcases h with h | h
      · subst h
        exact Or.inr ⟨List.mem_cons_self _ _, by simpa using hs⟩
      · rcases ih false h with h1 | h1
        · exact Or.inl h1
        · exact Or.inr ⟨List.mem_cons_of_mem _ h1.1, h1.2⟩

theorem mem_toLowerCaseChars_not_upper (s : List Char) (d : Char)
    (h : d ∈ toLowerCaseChars s) : isAsciiUpper d = false := by
  simp only [toLowerCaseChars, List.mem_flatMap] at h
  obtain ⟨c, _, hd⟩ := h
  exact lowerCodePoint_not_upper c d hd

theorem mem_trimChars (s : List Char) (d : Char) (h : d ∈ trimChars s) : d ∈ s :=
  List.IsSuffix.subset (List.dropWhile_suffix _)
    (List.IsPrefix.subset ( List.rdropWhile_prefix _ _) h)

theorem mem_stripHyphens (s : List Char) (d : Char) (h : d ∈ stripHyphens s) : d ∈ s :=
  List.IsSuffix.subset (List.dropWhile_suffix _)
    (List.IsPrefix.subset ( List.rdropWhile_prefix _ _) h)

theorem slugChar_of_mem_generateSlugChars (t : List Char) (d : Char)
    (h : d ∈ generateSlugChars t) : isSlugChar d = true := by
  simp only [generateSlugChars] at h
  have h1 := mem_stripHyphens _ _ h
  rcases mem_collapse _ _ _ h1 with h2 | ⟨h2, h3⟩
  · subst h2; rfl
  · rw [List.mem_filter] at h2
    have h4 := mem_toLowerCaseChars_not_upper _ _ (mem_trimChars _ _ h2.1)
    exact isSlugChar_of_kept h2.2 h4 h3

theorem head_dropWhile_not {α : Type} (p : α → Bool) (l : List α) (a : α)
    (h : (l.dropWhile p).head? = some a) : p a = false := by
  induction l with
  | nil => simp at h
  | cons x xs ih =>
    rw [List.dropWhile_cons] at h
    by_cases hx : p x = true
    · rw [if_pos hx] at h
      exact ih h
    · rw [if_neg hx] at h
      simp only [List.head?_cons, Option.some.injEq] at h
      subst h
      simpa using hx

theorem head_of_initial_segment {α : Type} (l₁ l₂ : List α) (a : α) (hp : l₁ <+: l₂)
    (h : l₁.head? = some a) : l₂.head? = some a := by
  obtain ⟨r, rfl⟩ := hp
  cases l₁ with
  | nil => simp at h
  | cons x xs => simpa using h

theorem head_stripHyphens (s : List Char) : (stripHyphens s).head? ≠ some '-' := by
  intro h
  have h1 := head_of_initial_segment _ _ _ ( List.rdropWhile_prefix _ _) h
  have h2 := head_dropWhile_not _ _ _ h1
  simp at h2

theorem getLast_stripHyphens (s : List Char) : (stripHyphens s).getLast? ≠ some '-' := by
  intro h
  have hne : stripHyphens s ≠ [] := by
    intro h0
    rw [h0] at h
    simp at h
  have h1 := List.rdropWhile_last_not (· == '-') (s.dropWhile (· == '-')) hne
  rw [List.getLast?_eq_getLast _ hne] at h
  simp only [Option.some.injEq] at h
  apply h1
  simp only [stripHyphens] at h
  simp [h]

theorem chain_generateSlugChars (t : List Char) :
    List.Chain' (fun x y => ¬(x = '-' ∧ y = '-')) (generateSlugChars t) := by
  simp only [generateSlugChars, stripHyphens]
  exact List.Chain'.prefix
    (List.Chain'.suffix (chain_of_collapse false _).1 (List.dropWhile_suffix _))
    ( List.rdropWhile_prefix _ _)

theorem toLowerCaseChars_of_slugChars (l : List Char) (h : ∀ c ∈ l, isSlugChar c = true) :
    toLowerCaseChars l = l := by
  induction l with
  | nil => rfl
  | cons c cs ih =>
    have h1 := ih (fun d hd => h d (List.mem_cons_of_mem _ hd))
    simp only [toLowerCaseChars] at h1
    simp only [toLowerCaseChars, List.flatMap_cons, h1,
      lowerCodePoint_slugChar (h c (List.mem_cons_self _ _)), List.singleton_append]

theorem dropWhile_of_head {α : Type} (p : α → Bool) (l : List α)
    (h : ∀ a, l.head? = some a → p a = false) : l.dropWhile p = l := by
  cases l with
  | nil => rfl
  | cons x xs =>
    rw [List.dropWhile_cons, if_neg]
    simp [h x rfl]

theorem rdropWhile_of_getLast {α : Type} (p : α → Bool) (l : List α)
    (h : ∀ a, l.getLast? = some a → p a = false) : l.rdropWhile p = l := by
  rw [List.rdropWhile_eq_self_iff]
  intro hl
  simp [h _ (List.getLast?_eq_getLast l hl)]

theorem head_mem_of_head? {α : Type} (l : List α) (a : α) (h : l.head? = some a) : a ∈ l := by
  cases l with
  | nil => simp at h
  | cons x xs =>
    simp only [List.head?_cons, Option.some.injEq] at h
    subst h
    exact List.mem_cons_self _ _

theorem trimChars_of_slugChars (l : List Char) (h : ∀ c ∈ l, isSlugChar c = true) :
    trimChars l = l := by
  unfold trimChars
  rw [dropWhile_of_head _ _ (fun a ha =>
    not_whiteSpace_of_slugChar (h a (head_mem_of_head? _ _ ha)))]
  exact rdropWhile_of_getLast _ _ (fun a ha =>
    not_whiteSpace_of_slugChar (h a (List.mem_of_getLast?_eq_some ha)))

theorem collapseSeparators_of_slug (b : Bool) (l : List Char)
    (h : ∀ c ∈ l, isSlugChar c = true)
    (hc : List.Chain' (fun x y => ¬(x = '-' ∧ y = '-')) l)
    (hb : b = true → l.head? ≠ some '-') : collapseSeparators b l = l := by
  induction l generalizing b with
  | nil => rfl
  | cons c cs ih =>
    have hcs : ∀ d ∈ cs, isSlugChar d = true := fun d hd => h d (List.mem_cons_of_mem _ hd)
    rw [List.chain'_cons'] at hc
    unfold collapseSeparators
    by_cases hs : isSlugSeparator c = true
    · have hcd : c = '-' := (separator_of_slugChar (h c (List.mem_cons_self _ _))).mp hs
      have hbf : b = false := by
        cases b with
        | false => rfl
        | true =>
          exfalso
          apply hb rfl
          simp [hcd]
      subst hbf
      rw [if_pos hs]
      simp only [Bool.false_eq_true, if_false]
      rw [ih true hcs hc.2, hcd]
      intro _ hh
      exact hc.1 '-' (by simp [hh]) ⟨hcd, rfl⟩
    · rw [if_neg hs, ih false hcs hc.2 (fun hf => by cases hf)]

theorem stripHyphens_of_slug (l : List Char) (hh : l.head? ≠ some '-')
    (hl : l.getLast? ≠ some '-') : stripHyphens l = l := by
  unfold stripHyphens
  rw [dropWhile_of_head _ _ (fun a ha => by
    simp only [beq_eq_false_iff_ne, ne_eq]
    intro h
    subst h
    exact hh ha)]
  exact rdropWhile_of_getLast _ _ (fun a ha => by
    simp only [beq_eq_false_iff_ne, ne_eq]
    intro h
    subst h
    exact hl ha)

theorem generateSlugChars_of_slug (l : List Char)
    (h : ∀ c ∈ l, isSlugChar c = true)
    (hc : List.Chain' (fun x y => ¬(x = '-' ∧ y = '-')) l)
    (hh : l.head? ≠ some '-') (hl : l.getLast? ≠ some '-') : generateSlugChars l = l := by
  simp only [generateSlugChars]
  rw [toLowerCaseChars_of_slugChars l h, trimChars_of_slugChars l h,
    List.filter_eq_self.mpr (fun c hc => kept_of_slugChar (h c hc)),
    collapseSeparators_of_slug false l h hc (fun hf => by cases hf),
    stripHyphens_of_slug l hh hl]

/-! ## Lemmas on the store and the controllers -/

theorem findById_some (env : Env) (store : Store) (id : String) (article : Article)
    (h : findById env store id = some (some article)) :
    env.castObjectId id = true ∧ article.id = id ∧
      store.find? (fun a => decide (a.id = id)) = some article := by
  unfold findById at h
  by_cases hc : env.castObjectId id = true
  · rw [if_pos hc] at h
    simp only [Option.some.injEq] at h
    refine ⟨hc, ?_, h⟩
    have := List.find?_some h
    simpa using this
  · rw [if_neg hc] at h
    cases h

theorem find_replaceDocument (doc : Article) (store : Store) (a : Article)
    (h : store.find? (fun x => decide (x.id = doc.id)) = some a) :
    (replaceDocument doc store).find? (fun x => decide (x.id = doc.id)) = some doc := by
  induction store with
  | nil => simp at h
  | cons x xs ih =>
    unfold replaceDocument
    by_cases hx : x.id = doc.id
    · rw [if_pos hx]
      simp [List.find?_cons]
    · rw [if_neg hx]
      rw [List.find?_cons] at h ⊢
      simp only [hx, decide_False] at h ⊢
      exact ih h

theorem findById_replaceDocument (env : Env) (store : Store) (id : String)
    (article doc : Article) (h : findById env store id = some (some article))
    (hid : doc.id = id) : findById env (replaceDocument doc store) id = some (some doc) := by
  obtain ⟨hc, _, hf⟩ := findById_some env store id article h
  unfold findById
  rw [if_pos hc]
  subst hid
  rw [find_replaceDocument doc store article hf]

theorem preserveOriginal_id (article : Article) : (preserveOriginal article).id = article.id := by
  unfold preserveOriginal
  split <;> rfl

theorem preserveOriginal_referenceArticles (article : Article) :
    (preserveOriginal article).referenceArticles = article.referenceArticles := by
  unfold preserveOriginal
  split <;> rfl

theorem preserveOriginal_originalContent (article : Article) :
    (article.originalContent ≠ "" →
        (preserveOriginal article).originalContent = article.originalContent) ∧
      (article.originalContent = "" →
        (preserveOriginal article).originalContent = article.content) := by
  unfold preserveOriginal
  constructor
  · intro h
    rw [if_neg (fun hh => h hh.1)]
  · intro h
    by_cases hc : article.content = ""
    · rw [if_neg (fun hh => hh.2 hc), h, hc]
    · rw [if_pos ⟨h, hc⟩]

theorem enhancedDocument_id (env : Env) (article : Article) (sr : List ReferenceArticle)
    (rc : List ReferenceContent) (c : String) :
    (enhancedDocument env article sr rc c).id = article.id := by
  unfold enhancedDocument
  simp only
  split <;> exact preserveOriginal_id article

theorem enhancedDocument_originalContent (env : Env) (article : Article)
    (sr : List ReferenceArticle) (rc : List ReferenceContent) (c : String) :
    (enhancedDocument env article sr rc c).originalContent =
      (preserveOriginal article).originalContent := by
  unfold enhancedDocument
  simp only
  split <;> rfl

theorem updatedDocument_id (env : Env) (article : Article) (body : UpdateBody) :
    (updatedDocument env article body).id = article.id := by
  unfold updatedDocument
  simp only
  rw [← preserveOriginal_id article]
  cases body.content <;> cases body.referenceArticles <;> simp only <;> split <;> rfl

theorem updatedDocument_originalContent (env : Env) (article : Article) (body : UpdateBody) :
    (updatedDocument env article body).originalContent =
      (preserveOriginal article).originalContent := by
  unfold updatedDocument
  simp only
  cases body.content <;> cases body.referenceArticles <;> simp only <;> split <;> rfl

/-- What a call that got as far as the write answers. -/
theorem enhanceArticleById_of_enhanced (env : Env) (store : Store) (id : String)
    (article : Article) (c : String)
    (hfind : findById env store id = some (some article))
    (hkey : env.geminiApiKey = true)
    (henh : enhanceStep env article (searchStep env article.title)
      (scrapeStep env (searchStep env article.title)) = some c) :
    enhanceArticleById env store id =
      if env.storeAccepts (enhancedDocument env article (searchStep env article.title)
          (scrapeStep env (searchStep env article.title)) c) = true then
        ⟨{ status := 200, success := true, message := "Article enhanced successfully",
           data := some (enhancedDocument env article (searchStep env article.title)
            (scrapeStep env (searchStep env article.title)) c) },
          replaceDocument (enhancedDocument env article (searchStep env article.title)
            (scrapeStep env (searchStep env article.title)) c) store⟩
      else ⟨errorResponse 500 "Error enhancing article", store⟩ := by
  unfold enhanceArticleById
  simp only [hfind, hkey, Bool.true_eq_false, if_false, henh, saveDocument]
  by_cases hacc : env.storeAccepts (enhancedDocument env article (searchStep env article.title)
      (scrapeStep env (searchStep env article.title)) c) = true
  · simp only [hacc, if_true]
  · simp only [hacc, Bool.false_eq_true, if_false]

/-- A successful answer comes from a completed rewrite and an accepted write. -/
theorem enhanceArticleById_success (env : Env) (store : Store) (id : String)
    (article : Article) (hfind : findById env store id = some (some article))
    (hs : (enhanceArticleById env store id).response.success = true) :
    ∃ c, enhanceStep env article (searchStep env article.title)
          (scrapeStep env (searchStep env article.title)) = some c ∧
      (enhanceArticleById env store id).store =
        replaceDocument (enhancedDocument env article (searchStep env article.title)
          (scrapeStep env (searchStep env article.title)) c) store := by
  by_cases hkey : env.geminiApiKey = true
  · cases henh : enhanceStep env article (searchStep env article.title)
        (scrapeStep env (searchStep env article.title)) with
    | none =>
      exfalso
      unfold enhanceArticleById at hs
      simp [hfind, hkey, henh, errorResponse] at hs
    | some c =>
      refine ⟨c, rfl, ?_⟩
      rw [enhanceArticleById_of_enhanced env store id article c hfind hkey henh] at hs ⊢
      by_cases hacc : env.storeAccepts (enhancedDocument env article
          (searchStep env article.title) (scrapeStep env (searchStep env article.title)) c) = true
      · simp only [hacc, if_true]
      · simp [hacc, errorResponse] at hs
  · exfalso
    unfold enhanceArticleById at hs
    simp [hfind, hkey, errorResponse] at hs

theorem updateArticle_success (env : Env) (store : Store) (id : String) (body : UpdateBody)
    (article : Article) (hfind : findById env store id = some (some article))
    (hs : (updateArticle env store id body).response.success = true) :
    (updateArticle env store id body).store =
      replaceDocument (updatedDocument env article body) store := by
  unfold updateArticle at hs ⊢
  simp only [hfind, saveDocument] at hs ⊢
  by_cases hacc : env.storeAccepts (updatedDocument env article body) = true
  · simp only [hacc, if_true]
  · simp [hacc, errorResponse] at hs

/-! ## Single-article enhancement -/

/-- C1: after a successful `enhanceArticleById` or `updateArticle` call on a stored
article, a non-empty `originalContent` is what it was before the call, and an empty
one (with non-empty `content`) has become the content held before the call. -/
theorem originalContent_set_once (env : Env) (store : Store) (id : String)
    (article : Article) (body : UpdateBody)
    (hfind : findById env store id = some (some article)) :
    ((enhanceArticleById env store id).response.success = true →
      ∃ saved, findById env (enhanceArticleById env store id).store id = some (some saved) ∧
        (article.originalContent ≠ "" → saved.originalContent = article.originalContent) ∧
        (article.originalContent = "" → article.content ≠ "" →
          saved.originalContent = article.content)) ∧
    ((updateArticle env store id body).response.success = true →
      ∃ saved, findById env (updateArticle env store id body).store id = some (some saved) ∧
        (article.originalContent ≠ "" → saved.originalContent = article.originalContent) ∧
        (article.originalContent = "" → article.content ≠ "" →
          saved.originalContent = article.content)) := by
  have hid := (findById_some env store id article hfind).2.1
  constructor
  · intro hs
    obtain ⟨c, _, hstore⟩ := enhanceArticleById_success env store id article hfind hs
    refine ⟨enhancedDocument env article (searchStep env article.title)
      (scrapeStep env (searchStep env article.title)) c, ?_, ?_, ?_⟩
    · rw [hstore]
      exact findById_replaceDocument env store id article _ hfind
        ((enhancedDocument_id env article _ _ c).trans hid)
    · intro h
      rw [enhancedDocument_originalContent]
      exact (preserveOriginal_originalContent article).1 h
    · intro h _
      rw [enhancedDocument_originalContent]
      exact (preserveOriginal_originalContent article).2 h
  · intro hs
    have hstore := updateArticle_success env store id body article hfind hs
    refine ⟨updatedDocument env article body, ?_, ?_, ?_⟩
    · rw [hstore]
      exact findById_replaceDocument env store id article _ hfind
        ((updatedDocument_id env article body).trans hid)
    · intro h
      rw [updatedDocument_originalContent]
      exact (preserveOriginal_originalContent article).1 h
    · intro h _
      rw [updatedDocument_originalContent]
      exact (preserveOriginal_originalContent article).2 h

/-- Witness of C1: the first enhancement of the sample article captures its content,
and an update of an article that already has an original leaves the original. -/
theorem originalContent_set_once_witness :
    findById sampleEnv [sampleArticle] "a1" = some (some sampleArticle) ∧
      (∃ saved, findById sampleEnv (enhanceArticleById sampleEnv [sampleArticle] "a1").store "a1"
          = some (some saved) ∧ saved.originalContent = "Plain text about X.") ∧
      (∃ saved, findById sampleEnv
          (updateArticle sampleEnv [sampleArticle] "a1" ⟨some "New text", none⟩).store "a1"
          = some (some saved) ∧ saved.originalContent = "Plain text about X.") :=
  have h := originalContent_set_once sampleEnv [sampleArticle] "a1" sampleArticle
    ⟨some "New text", none⟩ (by decide)
  ⟨by decide,
    (h.1 (by decide)).imp fun _ hs => ⟨hs.1, hs.2.2 (by decide) (by decide)⟩,
    (h.2 (by decide)).imp fun _ hs => ⟨hs.1, hs.2.2 (by decide) (by decide)⟩⟩

/-- C2: when the model call that `enhanceArticleById` makes for a stored article
fails, whatever the search and the scrapes returned, the store is left as it was (so
the article keeps its content, originalContent, isUpdated, updatedAt and
referenceArticles) and the answer is an error with status 500. -/
theorem failed_rewrite_leaves_article (env : Env) (store : Store) (id : String)
    (article : Article) (hfind : findById env store id = some (some article))
    (hfail : env.generateContent (issuedPrompt env article) = none) :
    (enhanceArticleById env store id).store = store ∧
      findById env (enhanceArticleById env store id).store id = some (some article) ∧
      (enhanceArticleById env store id).response.success = false ∧
      (enhanceArticleById env store id).response.status = 500 := by
  have hout : enhanceArticleById env store id =
        ⟨errorResponse 500 "GEMINI_API_KEY is not configured", store⟩ ∨
      enhanceArticleById env store id =
        ⟨errorResponse 500 "Error enhancing article with Gemini API", store⟩ := by
    unfold enhanceArticleById
    simp only [hfind]
    by_cases hkey : env.geminiApiKey = false
    · left
      rw [if_pos hkey]
    · right
      rw [if_neg hkey]
      have henh : enhanceStep env article (searchStep env article.title)
          (scrapeStep env (searchStep env article.title)) = none := by
        unfold issuedPrompt at hfail
        unfold enhanceStep
        by_cases hlen : (scrapeStep env (searchStep env article.title)).length > 0
        · simp only [hlen, if_true] at hfail ⊢
          simp [enhanceArticle, hfail]
        · simp only [hlen, if_false] at hfail ⊢
          simp [enhanceArticleWithoutReferences, hfail]
      simp only [henh]
  rcases hout with h | h <;> rw [h] <;> exact ⟨rfl, hfind, rfl, rfl⟩

/-- Witness of C2: the sample article under a failing model call. -/
theorem failed_rewrite_leaves_article_witness :
    (enhanceArticleById failingModelEnv [sampleArticle] "a1").store = [sampleArticle] ∧
      findById failingModelEnv (enhanceArticleById failingModelEnv [sampleArticle] "a1").store
        "a1" = some (some sampleArticle) ∧
      (enhanceArticleById failingModelEnv [sampleArticle] "a1").response.success = false ∧
      (enhanceArticleById failingModelEnv [sampleArticle] "a1").response.status = 500 :=
  failed_rewrite_leaves_article failingModelEnv [sampleArticle] "a1" sampleArticle
    (by decide) (by decide)

theorem enhancedDocument_fields (env : Env) (article : Article) (sr : List ReferenceArticle)
    (rc : List ReferenceContent) (c : String) :
    (enhancedDocument env article sr rc c).content = c ∧
      (enhancedDocument env article sr rc c).isUpdated = true ∧
      (enhancedDocument env article sr rc c).updatedAt = some env.now := by
  unfold enhancedDocument
  simp only
  split <;> exact ⟨rfl, rfl, rfl⟩

/-- The references the code writes: the first `referenceContents.length` search
results, and nothing when the search found nothing. -/
theorem enhancedDocument_referenceArticles (env : Env) (article : Article)
    (sr : List ReferenceArticle) (rc : List ReferenceContent) (c : String) :
    (enhancedDocument env article sr rc c).referenceArticles =
      if sr.length > 0 then sr.take rc.length else article.referenceArticles := by
  unfold enhancedDocument
  simp only
  split
  · simp only [List.map_id']
  · exact preserveOriginal_referenceArticles article

theorem searchStep_of_results (env : Env) (title : String) (results : List ReferenceArticle)
    (h : env.searchGoogle title = some results) (hne : results ≠ []) :
    searchStep env title = results := by
  unfold searchStep
  rw [h]
  simp only
  rw [if_neg]
  intro h0
  exact hne (List.length_eq_zero.mp h0)

theorem searchStep_of_empty (env : Env) (title : String)
    (h1 : env.searchGoogle title = some [])
    (h2 : env.searchGoogle (shortTitle title) = some []) : searchStep env title = [] := by
  unfold searchStep
  rw [h1]
  simp only [List.length_nil, if_true, h2]
  split <;> rfl

theorem enhanceStep_without_references (env : Env) (article : Article)
    (sr : List ReferenceArticle) :
    enhanceStep env article sr [] =
      enhanceArticleWithoutReferences env (rewriteSource article) article.title := by
  unfold enhanceStep
  simp

/-- C3, what the code does: when the first of two results cannot be scraped and the
second can, the extract that reaches the rewrite is the second result's, while the
reference written to the article and cited in its content is the first result. -/
theorem stored_reference_not_consumed :
    (scrapeStep firstScrapeFailsEnv sampleReferences).map (fun rc => (rc.url, rc.title)) =
        [("https://two.example/blog/x", "A guide to X")] ∧
      (enhanceArticleById firstScrapeFailsEnv [sampleArticle] "a1").response.success = true ∧
      (enhanceArticleById firstScrapeFailsEnv [sampleArticle] "a1").response.data.map
          (fun a => a.referenceArticles) =
        some [⟨"https://one.example/blog/x", "X explained"⟩] ∧
      (enhanceArticleById firstScrapeFailsEnv [sampleArticle] "a1").response.data.map
          (fun a => a.content) =
        some ("<h2>X</h2><p>Better text about X.</p>" ++ "\n<h2>References</h2>\n<ul>\n" ++
          "  <li><a href=\"https://one.example/blog/x\" target=\"_blank\" " ++
          "rel=\"noopener noreferrer\">X explained</a></li>" ++ "\n</ul>") := by
  decide

/-- C4: when no non-empty extract was collected for a stored article, step 3 is
exactly `enhanceArticleWithoutReferences` (no `addCitations` around it), the prompt
is the one without references, and once the model answers and the store accepts the
write, the stored content is the cleaned model output, nothing appended. -/
theorem no_extract_no_citations (env : Env) (store : Store) (id : String) (article : Article)
    (hfind : findById env store id = some (some article))
    (hzero : scrapeStep env (searchStep env article.title) = []) :
    enhanceStep env article (searchStep env article.title)
        (scrapeStep env (searchStep env article.title)) =
      enhanceArticleWithoutReferences env (rewriteSource article) article.title ∧
    issuedPrompt env article = Prompt.withoutReferences (rewriteSource article) article.title ∧
    ∀ text, env.geminiApiKey = true →
      env.generateContent (Prompt.withoutReferences (rewriteSource article) article.title)
        = some text →
      env.storeAccepts (enhancedDocument env article (searchStep env article.title) []
        (cleanModelResponse text)) = true →
      (enhanceArticleById env store id).response.success = true ∧
      ∃ saved, findById env (enhanceArticleById env store id).store id = some (some saved) ∧
        saved.content = cleanModelResponse text := by
  have hid := (findById_some env store id article hfind).2.1
  refine ⟨?_, ?_, ?_⟩
  · rw [hzero]
    exact enhanceStep_without_references env article _
  · unfold issuedPrompt
    simp [hzero]
  · intro text hkey hgen hacc
    have henh : enhanceStep env article (searchStep env article.title)
        (scrapeStep env (searchStep env article.title)) = some (cleanModelResponse text) := by
      rw [hzero, enhanceStep_without_references]
      simp [enhanceArticleWithoutReferences, hkey, hgen]
    rw [enhanceArticleById_of_enhanced env store id article _ hfind hkey henh, hzero,
      if_pos hacc]
    refine ⟨rfl, enhancedDocument env article (searchStep env article.title) []
      (cleanModelResponse text), ?_, (enhancedDocument_fields env article _ _ _).1⟩
    exact findById_replaceDocument env store id article _ hfind
      ((enhancedDocument_id env article _ _ _).trans hid)

/-- Witness of C4: the sample article when the search finds nothing. -/
theorem no_extract_no_citations_witness :
    (enhanceArticleById emptySearchEnv [sampleArticle] "a1").response.success = true ∧
      ∃ saved, findById emptySearchEnv
          (enhanceArticleById emptySearchEnv [sampleArticle] "a1").store "a1"
          = some (some saved) ∧
        saved.content = "<h2>X</h2><p>Better text about X.</p>" :=
  (no_extract_no_citations emptySearchEnv [sampleArticle] "a1" sampleArticle
      (by decide) (by decide)).2.2
    "```html\n<h2>X</h2><p>Better text about X.</p>\n```" (by decide) (by decide) (by decide)

/-- C5: for a stored, not yet enhanced article whose originalContent is empty or
equal to its content: when the search returns two candidates, both pages give
non-empty content, the model answers and the store accepts the write, the stored
article has isUpdated true, updatedAt set, the two returned pairs as
referenceArticles, in order, and the content held before the call as
originalContent. -/
theorem enhance_with_two_references (env : Env) (store : Store) (id : String)
    (article : Article) (r₁ r₂ : ReferenceArticle) (s₁ s₂ : ScrapedArticle) (text : String)
    (hfind : findById env store id = some (some article))
    (hkey : env.geminiApiKey = true)
    (_hnew : article.isUpdated = false)
    (horig : article.originalContent = "" ∨ article.originalContent = article.content)
    (hsearch : env.searchGoogle article.title = some [r₁, r₂])
    (hs₁ : env.scrapeArticleContent r₁.url = some s₁) (hc₁ : s₁.content ≠ "")
    (hs₂ : env.scrapeArticleContent r₂.url = some s₂) (hc₂ : s₂.content ≠ "")
    (hgen : env.generateContent (issuedPrompt env article) = some text)
    (hacc : env.storeAccepts (enhancedDocument env article [r₁, r₂]
      (scrapeStep env [r₁, r₂])
      (addCitations (cleanModelResponse text) (some [r₁, r₂]))) = true) :
    (enhanceArticleById env store id).response.success = true ∧
      ∃ saved, findById env (enhanceArticleById env store id).store id = some (some saved) ∧
        saved.isUpdated = true ∧ saved.updatedAt = some env.now ∧
        saved.referenceArticles = [r₁, r₂] ∧
        saved.originalContent = article.content := by
  have hid := (findById_some env store id article hfind).2.1
  have hsr : searchStep env article.title = [r₁, r₂] :=
    searchStep_of_results env _ _ hsearch (by simp)
  have hrc : scrapeStep env [r₁, r₂] =
      [{ url := r₁.url, title := r₁.title, content := s₁.content,
         structureSignature := s₁.structureSignature, html := s₁.html },
       { url := r₂.url, title := r₂.title, content := s₂.content,
         structureSignature := s₂.structureSignature, html := s₂.html }] := by
    simp [scrapeStep, scrapeReference, hs₁, hs₂, hc₁, hc₂]
  have hlen : (scrapeStep env [r₁, r₂]).length = 2 := by rw [hrc]; rfl
  have henh : enhanceStep env article (searchStep env article.title)
      (scrapeStep env (searchStep env article.title)) =
      some (addCitations (cleanModelResponse text) (some [r₁, r₂])) := by
    unfold issuedPrompt at hgen
    rw [hsr] at hgen ⊢
    unfold enhanceStep
    simp only [hlen, Nat.ofNat_pos, gt_iff_lt, if_true] at hgen ⊢
    simp [enhanceArticle, hkey, hgen]
  rw [enhanceArticleById_of_enhanced env store id article _ hfind hkey henh, hsr, if_pos hacc]
  refine ⟨rfl, _, findById_replaceDocument env store id article _ hfind
    ((enhancedDocument_id env article _ _ _).trans hid), ?_, ?_, ?_, ?_⟩
  · exact (enhancedDocument_fields env article _ _ _).2.1
  · exact (enhancedDocument_fields env article _ _ _).2.2
  · rw [enhancedDocument_referenceArticles, hlen]
    simp
  · rw [enhancedDocument_originalContent]
    rcases horig with h | h
    · exact (preserveOriginal_originalContent article).2 h
    · by_cases h0 : article.originalContent = ""
      · exact (preserveOriginal_originalContent article).2 h0
      · rw [(preserveOriginal_originalContent article).1 h0, h]

/-- Witness of C5: the sample article in the world where every call succeeds. -/
theorem enhance_with_two_references_witness :
    (enhanceArticleById sampleEnv [sampleArticle] "a1").response.success = true ∧
      ∃ saved, findById sampleEnv (enhanceArticleById sampleEnv [sampleArticle] "a1").store "a1"
          = some (some saved) ∧
        saved.isUpdated = true ∧ saved.updatedAt = some 200 ∧
        saved.referenceArticles =
          [⟨"https://one.example/blog/x", "X explained"⟩,
           ⟨"https://two.example/blog/x", "A guide to X"⟩] ∧
        saved.originalContent = "Plain text about X." :=
  enhance_with_two_references sampleEnv [sampleArticle] "a1" sampleArticle
    ⟨"https://one.example/blog/x", "X explained"⟩ ⟨"https://two.example/blog/x", "A guide to X"⟩
    sampleScrape sampleScrape "```html\n<h2>X</h2><p>Better text about X.</p>\n```"
    (by decide) (by decide) (by decide) (by decide) (by decide) (by decide) (by decide)
    (by decide) (by decide) (by decide) (by decide)

/-- C6: when the search returns an empty list for the full title and for the
shortened title, the model answers and the store accepts the write, the rewrite of a
stored article is the one without references, and the stored article has isUpdated
true and the referenceArticles it had before. -/
theorem enhance_without_search_results (env : Env) (store : Store) (id : String)
    (article : Article) (text : String)
    (hfind : findById env store id = some (some article))
    (hkey : env.geminiApiKey = true)
    (hfull : env.searchGoogle article.title = some [])
    (hshort : env.searchGoogle (shortTitle article.title) = some [])
    (hgen : env.generateContent
      (Prompt.withoutReferences (rewriteSource article) article.title) = some text)
    (hacc : env.storeAccepts
      (enhancedDocument env article [] [] (cleanModelResponse text)) = true) :
    issuedPrompt env article = Prompt.withoutReferences (rewriteSource article) article.title ∧
      enhanceStep env article (searchStep env article.title)
        (scrapeStep env (searchStep env article.title)) =
        enhanceArticleWithoutReferences env (rewriteSource article) article.title ∧
      (enhanceArticleById env store id).response.success = true ∧
      ∃ saved, findById env (enhanceArticleById env store id).store id = some (some saved) ∧
        saved.isUpdated = true ∧ saved.referenceArticles = article.referenceArticles ∧
        saved.content = cleanModelResponse text := by
  have hid := (findById_some env store id article hfind).2.1
  have hsr : searchStep env article.title = [] := searchStep_of_empty env _ hfull hshort
  have hrc : scrapeStep env [] = [] := rfl
  have henh : enhanceStep env article (searchStep env article.title)
      (scrapeStep env (searchStep env article.title)) = some (cleanModelResponse text) := by
    rw [hsr, hrc, enhanceStep_without_references]
    simp [enhanceArticleWithoutReferences, hkey, hgen]
  refine ⟨?_, ?_, ?_⟩
  · unfold issuedPrompt
    simp [hsr, hrc]
  · rw [hsr, hrc]
    exact enhanceStep_without_references env article _
  · rw [enhanceArticleById_of_enhanced env store id article _ hfind hkey henh, hsr, hrc,
      if_pos hacc]
    refine ⟨rfl, _, findById_replaceDocument env store id article _ hfind
      ((enhancedDocument_id env article _ _ _).trans hid), ?_, ?_, ?_⟩
    · exact (enhancedDocument_fields env article _ _ _).2.1
    · rw [enhancedDocument_referenceArticles]
      simp
    · exact (enhancedDocument_fields env article _ _ _).1

/-- Witness of C6: the sample article when the search finds nothing. -/
theorem enhance_without_search_results_witness :
    (enhanceArticleById emptySearchEnv [sampleArticle] "a1").response.success = true ∧
      ∃ saved, findById emptySearchEnv
          (enhanceArticleById emptySearchEnv [sampleArticle] "a1").store "a1"
          = some (some saved) ∧
        saved.isUpdated = true ∧ saved.referenceArticles = [] ∧
        saved.content = "<h2>X</h2><p>Better text about X.</p>" :=
  (enhance_without_search_results emptySearchEnv [sampleArticle] "a1" sampleArticle
    "```html\n<h2>X</h2><p>Better text about X.</p>\n```"
    (by decide) (by decide) (by decide) (by decide) (by decide) (by decide)).2.2

/-! ## Slug derivation -/

/-- C7: `generateSlug` is idempotent: applying it to a slug it produced gives the
same slug, for every title. -/
theorem generateSlug_idempotent (t : String) :
    generateSlug (generateSlug t) = generateSlug t := by
  simp only [generateSlug]
  rw [generateSlugChars_of_slug (generateSlugChars t.data)
    (slugChar_of_mem_generateSlugChars t.data) (chain_generateSlugChars t.data)
    (head_stripHyphens _) (getLast_stripHyphens _)]

/-- C8: for every title, the slug consists of lower-case ASCII letters, digits and
hyphens only, does not start with a hyphen, does not end with a hyphen, and holds
no two hyphens in a row. -/
theorem generateSlug_shape (t : String) :
    (∀ c ∈ (generateSlug t).data,
        isAsciiLower c = true ∨ isAsciiDigit c = true ∨ c = '-') ∧
      (generateSlug t).data.head? ≠ some '-' ∧
      (generateSlug t).data.getLast? ≠ some '-' ∧
      ¬ (['-', '-'] <:+: (generateSlug t).data) := by
  refine ⟨?_, head_stripHyphens _, getLast_stripHyphens _, ?_⟩
  · intro c hc
    have := slugChar_of_mem_generateSlugChars t.data c hc
    simpa [isSlugChar, or_assoc] using this
  · intro hinf
    have := List.Chain'.infix (chain_generateSlugChars t.data) hinf
    simp at this

/-! ## Discovery -/

theorem trim_generateSlug (t : String) : trim (generateSlug t) = generateSlug t := by
  simp only [trim, generateSlug]
  rw [trimChars_of_slugChars _ (slugChar_of_mem_generateSlugChars t.data)]

theorem newArticle_slug (env : ScraperEnv) (store : Store) (article : ListedArticle)
    (content : String) :
    (newArticle env store article (generateSlug article.title) content).slug =
      generateSlug article.title :=
  trim_generateSlug article.title

theorem findOneBySlug_some (store : Store) (slug : String) (a : Article)
    (h : findOneBySlug store slug = some a) : a ∈ store ∧ a.slug = slug := by
  unfold findOneBySlug at h
  refine ⟨List.mem_of_find?_eq_some h, ?_⟩
  have := List.find?_some h
  simpa using this

theorem findOneBySlug_none (store : Store) (slug : String)
    (h : findOneBySlug store slug = none) : ∀ a ∈ store, a.slug ≠ slug := by
  unfold findOneBySlug at h
  rw [List.find?_eq_none] at h
  intro a ha
  simpa using h a ha

theorem findOneBySlug_isSome (store : Store) (slug : String) (a : Article)
    (ha : a ∈ store) (hs : a.slug = slug) : (findOneBySlug store slug).isSome = true := by
  cases h : findOneBySlug store slug with
  | none => exact absurd hs (findOneBySlug_none store slug h a ha)
  | some _ => rfl

/-- The lookup by slug that precedes a creation keeps the unique index on `slug`
from ever rejecting it: what `insertDocument` does then is decided by the store's
acceptance alone. -/
theorem insertDocument_after_lookup (env : ScraperEnv) (store : Store)
    (article : ListedArticle) (content : String)
    (h : findOneBySlug store (generateSlug article.title) = none) :
    insertDocument env store (newArticle env store article (generateSlug article.title) content)
      = if env.storeAccepts
            (newArticle env store article (generateSlug article.title) content) = true
        then some (store ++ [newArticle env store article (generateSlug article.title) content])
        else none := by
  unfold insertDocument
  rw [if_neg]
  rw [newArticle_slug]
  simp only [List.any_eq_true, decide_eq_true_eq, not_exists, not_and]
  exact findOneBySlug_none store _ h

theorem processListedArticle_found (env : ScraperEnv) (run : ScrapeRun)
    (article : ListedArticle) (existing : Article)
    (h : findOneBySlug run.store (generateSlug article.title) = some existing) :
    processListedArticle env run article =
      { run with savedArticles := run.savedArticles ++ [existing] } := by
  unfold processListedArticle
  simp only [h]

theorem processListedArticle_store (env : ScraperEnv) (run : ScrapeRun)
    (article : ListedArticle) :
    (processListedArticle env run article).store = run.store ∨
      (findOneBySlug run.store (generateSlug article.title) = none ∧
        (processListedArticle env run article).store = run.store ++
          [newArticle env run.store article (generateSlug article.title)
            (env.scrapeArticleContent article.link)]) := by
  cases h : findOneBySlug run.store (generateSlug article.title) with
  | some existing =>
    left
    rw [processListedArticle_found env run article existing h]
  | none =>
    unfold processListedArticle
    simp only [h, insertDocument_after_lookup env run.store article _ h]
    by_cases hacc : env.storeAccepts (newArticle env run.store article
        (generateSlug article.title) (env.scrapeArticleContent article.link)) = true
    · right
      simp only [hacc, if_true, true_and]
    · left
      simp only [hacc, Bool.false_eq_true, if_false]

theorem processListedArticle_nodup (env : ScraperEnv) (run : ScrapeRun)
    (article : ListedArticle) (h : (run.store.map fun a => a.slug).Nodup) :
    ((processListedArticle env run article).store.map fun a => a.slug).Nodup := by
  rcases processListedArticle_store env run article with hs | ⟨hnone, hs⟩
  · rw [hs]
    exact h
  · rw [hs, List.map_append, List.map_singleton, newArticle_slug]
    refine List.Nodup.append h (List.nodup_singleton _) ?_
    rw [List.disjoint_singleton]
    intro hmem
    rw [List.mem_map] at hmem
    obtain ⟨a, ha, hslug⟩ := hmem
    exact findOneBySlug_none run.store _ hnone a ha hslug

theorem foldl_processListedArticle_nodup (env : ScraperEnv) (candidates : List ListedArticle)
    (run : ScrapeRun) (h : (run.store.map fun a => a.slug).Nodup) :
    (((candidates.foldl (processListedArticle env) run).store).map fun a => a.slug).Nodup := by
  induction candidates generalizing run with
  | nil => exact h
  | cons c cs ih =>
    rw [List.foldl_cons]
    exact ih _ (processListedArticle_nodup env run c h)

/-- C9: slug uniqueness is an invariant of discovery.  From a store whose slugs are
pairwise distinct, processing any list of candidates (titles may share a slug with
each other or with a stored article), and so any run of `scrapeOldestArticles`,
leaves a store whose slugs are pairwise distinct. -/
theorem discovery_keeps_slugs_distinct (env : ScraperEnv) (store : Store)
    (h : (store.map fun a => a.slug).Nodup) :
    (∀ candidates : List ListedArticle,
        (((candidates.foldl (processListedArticle env)
          { store := store, savedArticles := [], fetched := [] }).store).map
            fun a => a.slug).Nodup) ∧
      ((scrapeOldestArticles env store).store.map fun a => a.slug).Nodup :=
  ⟨fun candidates => foldl_processListedArticle_nodup env candidates _ h,
    foldl_processListedArticle_nodup env _ _ h⟩

/-- Witness of C9: the sample listing, in which two titles give the same slug and a
third gives the slug of the stored article. -/
theorem discovery_keeps_slugs_distinct_witness :
    ([sampleArticle].map fun a => a.slug).Nodup ∧
      (oldestArticles sampleScraperEnv).map (fun c => generateSlug c.title) =
        ["chatbots-a-guide", "chatbots-a-guide", "intro-to-x"] ∧
      ((scrapeOldestArticles sampleScraperEnv [sampleArticle]).store.map fun a => a.slug).Nodup :=
  ⟨by decide, by decide,
    (discovery_keeps_slugs_distinct sampleScraperEnv [sampleArticle] (by decide)).2⟩

theorem foldl_processListedArticle_found (env : ScraperEnv) (candidates : List ListedArticle)
    (run : ScrapeRun)
    (h : ∀ c ∈ candidates, (findOneBySlug run.store (generateSlug c.title)).isSome = true) :
    candidates.foldl (processListedArticle env) run =
      { run with
        savedArticles := run.savedArticles ++
          candidates.filterMap fun c => findOneBySlug run.store (generateSlug c.title) } := by
  induction candidates generalizing run with
  | nil => simp
  | cons c cs ih =>
    have hc := h c (List.mem_cons_self _ _)
    obtain ⟨existing, hex⟩ := Option.isSome_iff_exists.mp hc
    rw [List.foldl_cons, processListedArticle_found env run c existing hex]
    rw [ih { run with savedArticles := run.savedArticles ++ [existing] }
      (fun d hd => h d (List.mem_cons_of_mem _ hd))]
    simp [List.filterMap_cons, hex]

theorem mem_processListedArticle_store (env : ScraperEnv) (run : ScrapeRun)
    (article : ListedArticle) (a : Article) (ha : a ∈ run.store) :
    a ∈ (processListedArticle env run article).store := by
  rcases processListedArticle_store env run article with hs | ⟨_, hs⟩
  · rw [hs]
    exact ha
  · rw [hs]
    exact List.mem_append_left _ ha

theorem mem_foldl_processListedArticle_store (env : ScraperEnv)
    (candidates : List ListedArticle) (run : ScrapeRun) (a : Article) (ha : a ∈ run.store) :
    a ∈ (candidates.foldl (processListedArticle env) run).store := by
  induction candidates generalizing run with
  | nil => exact ha
  | cons c cs ih =>
    rw [List.foldl_cons]
    exact ih _ (mem_processListedArticle_store env run c a ha)

theorem stored_after_processListedArticle (env : ScraperEnv) (run : ScrapeRun)
    (article : ListedArticle)
    (hacc : ∀ store content, env.storeAccepts
      (newArticle env store article (generateSlug article.title) content) = true) :
    ∃ a ∈ (processListedArticle env run article).store,
      a.slug = generateSlug article.title := by
  cases h : findOneBySlug run.store (generateSlug article.title) with
  | some existing =>
    rw [processListedArticle_found env run article existing h]
    exact ⟨existing, (findOneBySlug_some _ _ _ h).1, (findOneBySlug_some _ _ _ h).2⟩
  | none =>
    refine ⟨newArticle env run.store article (generateSlug article.title)
      (env.scrapeArticleContent article.link), ?_, newArticle_slug env _ article _⟩
    unfold processListedArticle
    simp only [h, insertDocument_after_lookup env run.store article _ h, hacc, if_true]
    exact List.mem_append_right _ (List.mem_singleton_self _)

theorem stored_after_foldl (env : ScraperEnv) (candidates : List ListedArticle)
    (run : ScrapeRun)
    (hacc : ∀ c ∈ candidates, ∀ store content, env.storeAccepts
      (newArticle env store c (generateSlug c.title) content) = true) :
    ∀ c ∈ candidates, ∃ a ∈ (candidates.foldl (processListedArticle env) run).store,
      a.slug = generateSlug c.title := by
  induction candidates generalizing run with
  | nil => intro c hc; cases hc
  | cons d ds ih =>
    intro c hc
    rw [List.foldl_cons]
    rcases List.mem_cons.mp hc with h | h
    · subst h
      obtain ⟨a, ha, hs⟩ := stored_after_processListedArticle env run c
        (hacc c (List.mem_cons_self _ _))
      exact ⟨a, mem_foldl_processListedArticle_store env ds _ a ha, hs⟩
    · exact ih _ (fun e he => hacc e (List.mem_cons_of_mem _ he)) c h

/-- One turn of the loop reports at most one article, and when it reports one the
slug of the candidate is stored afterwards. -/
theorem savedArticles_processListedArticle (env : ScraperEnv) (run : ScrapeRun)
    (article : ListedArticle) :
    (processListedArticle env run article).savedArticles.length ≤
        run.savedArticles.length + 1 ∧
      ((processListedArticle env run article).savedArticles.length =
          run.savedArticles.length + 1 →
        ∃ a ∈ (processListedArticle env run article).store,
          a.slug = generateSlug article.title) := by
  cases h : findOneBySlug run.store (generateSlug article.title) with
  | some existing =>
    rw [processListedArticle_found env run article existing h]
    refine ⟨by simp, fun _ => ?_⟩
    exact ⟨existing, (findOneBySlug_some _ _ _ h).1, (findOneBySlug_some _ _ _ h).2⟩
  | none =>
    unfold processListedArticle
    simp only [h, insertDocument_after_lookup env run.store article _ h]
    by_cases hacc : env.storeAccepts (newArticle env run.store article
        (generateSlug article.title) (env.scrapeArticleContent article.link)) = true
    · simp only [hacc, if_true]
      refine ⟨by simp, fun _ => ?_⟩
      exact ⟨_, List.mem_append_right _ (List.mem_singleton_self _),
        newArticle_slug env _ article _⟩
    · simp only [hacc, Bool.false_eq_true, if_false]
      exact ⟨by omega, fun hlen => by omega⟩

/-- A run reports at most one article per candidate, and when it reports one for
each, the slug of every candidate is stored afterwards. -/
theorem savedArticles_foldl (env : ScraperEnv) (candidates : List ListedArticle)
    (run : ScrapeRun) :
    (candidates.foldl (processListedArticle env) run).savedArticles.length ≤
        run.savedArticles.length + candidates.length ∧
      ((candidates.foldl (processListedArticle env) run).savedArticles.length =
          run.savedArticles.length + candidates.length →
        ∀ c ∈ candidates, ∃ a ∈ (candidates.foldl (processListedArticle env) run).store,
          a.slug = generateSlug c.title) := by
  induction candidates generalizing run with
  | nil => exact ⟨by simp, fun _ c hc => by cases hc⟩
  | cons d ds ih =>
    rw [List.foldl_cons]
    have hstep := savedArticles_processListedArticle env run d
    have hrest := ih (processListedArticle env run d)
    simp only [List.length_cons]
    refine ⟨by omega, fun hlen c hc => ?_⟩
    rcases List.mem_cons.mp hc with h | h
    · subst h
      obtain ⟨a, ha, hs⟩ := hstep.2 (by omega)
      exact ⟨a, mem_foldl_processListedArticle_store env ds _ a ha, hs⟩
    · exact hrest.2 (by omega) c h

/-- C10, as the claim states it, fails: in a first run during which the store
rejects every write nothing is created; a second run on the same candidates, the
store accepting writes again, fetches a page and creates an article, so it does not
leave the store as the first run left it. -/
theorem discovery_second_run_counterexample :
    oldestArticles sampleScraperEnv = oldestArticles rejectingScraperEnv ∧
      (scrapeOldestArticles rejectingScraperEnv [sampleArticle]).store = [sampleArticle] ∧
      (scrapeOldestArticles sampleScraperEnv
          (scrapeOldestArticles rejectingScraperEnv [sampleArticle]).store).store.length = 2 ∧
      (scrapeOldestArticles sampleScraperEnv
          (scrapeOldestArticles rejectingScraperEnv [sampleArticle]).store).fetched =
        ["https://beyondchats.com/blogs/chatbots-2/"] ∧
      (scrapeOldestArticles sampleScraperEnv
          (scrapeOldestArticles rejectingScraperEnv [sampleArticle]).store).store ≠
        (scrapeOldestArticles rejectingScraperEnv [sampleArticle]).store := by
  decide

/-- C10 amended: discovery is idempotent on the store when no save fails.
(1) A candidate whose slug is that of a stored article changes neither the store nor
the list of fetched URLs, and the stored record is appended to the results.
(2) A run in which every candidate's slug is already stored leaves the store as it
is, fetches nothing and reports exactly the stored records, in candidate order.
(3) Hence, when the first run reported an article for every candidate (each was
found or its save succeeded), a second run on the same candidates, whatever the
pages, the clock and the store's acceptance then are, leaves the store exactly as
the first run left it and fetches nothing.
(4) The first run reports an article for every candidate when the store accepts
the documents it creates; then the conclusion of (3) holds. -/
theorem discovery_idempotent (env env₂ : ScraperEnv) (store : Store) :
    (∀ (run : ScrapeRun) (article : ListedArticle) (existing : Article),
        findOneBySlug run.store (generateSlug article.title) = some existing →
        (processListedArticle env run article).store = run.store ∧
        (processListedArticle env run article).fetched = run.fetched ∧
        (processListedArticle env run article).savedArticles =
          run.savedArticles ++ [existing]) ∧
    ((∀ c ∈ oldestArticles env,
          (findOneBySlug store (generateSlug c.title)).isSome = true) →
        scrapeOldestArticles env store =
          { store := store
            savedArticles := (oldestArticles env).filterMap
              fun c => findOneBySlug store (generateSlug c.title)
            fetched := [] }) ∧
    (oldestArticles env₂ = oldestArticles env →
      (scrapeOldestArticles env store).savedArticles.length = (oldestArticles env).length →
      (scrapeOldestArticles env₂ (scrapeOldestArticles env store).store).store =
          (scrapeOldestArticles env store).store ∧
        (scrapeOldestArticles env₂ (scrapeOldestArticles env store).store).fetched = []) ∧
    (oldestArticles env₂ = oldestArticles env →
      (∀ c ∈ oldestArticles env, ∀ st content, env.storeAccepts
        (newArticle env st c (generateSlug c.title) content) = true) →
      (scrapeOldestArticles env₂ (scrapeOldestArticles env store).store).store =
          (scrapeOldestArticles env store).store ∧
        (scrapeOldestArticles env₂ (scrapeOldestArticles env store).store).fetched = []) := by
  have hsecond : oldestArticles env₂ = oldestArticles env →
      (∀ c ∈ oldestArticles env, ∃ a ∈ (scrapeOldestArticles env store).store,
        a.slug = generateSlug c.title) →
      (scrapeOldestArticles env₂ (scrapeOldestArticles env store).store).store =
          (scrapeOldestArticles env store).store ∧
        (scrapeOldestArticles env₂ (scrapeOldestArticles env store).store).fetched = [] := by
    intro hsame hstored
    have hall : ∀ c ∈ oldestArticles env₂,
        (findOneBySlug (scrapeOldestArticles env store).store
          (generateSlug c.title)).isSome = true := by
      intro c hc
      rw [hsame] at hc
      obtain ⟨a, ha, hs⟩ := hstored c hc
      exact findOneBySlug_isSome _ _ a ha hs
    have hrun : scrapeOldestArticles env₂ (scrapeOldestArticles env store).store = _ :=
      foldl_processListedArticle_found env₂ (oldestArticles env₂)
        { store := (scrapeOldestArticles env store).store, savedArticles := [],
          fetched := [] } hall
    rw [hrun]
    exact ⟨rfl, rfl⟩
  refine ⟨?_, ?_, ?_, ?_⟩
  · intro run article existing h
    rw [processListedArticle_found env run article existing h]
    exact ⟨rfl, rfl, rfl⟩
  · intro h
    unfold scrapeOldestArticles
    rw [foldl_processListedArticle_found env _ _ h]
    simp
  · intro hsame hlen
    refine hsecond hsame ?_
    have h := (savedArticles_foldl env (oldestArticles env)
      { store := store, savedArticles := [], fetched := [] }).2
    exact h (by simpa [scrapeOldestArticles] using hlen)
  · intro hsame hacc
    exact hsecond hsame (stored_after_foldl env (oldestArticles env)
      { store := store, savedArticles := [], fetched := [] } hacc)

/-- Witness of C10: two runs on the sample listing.  The first run reports three
articles for its three candidates, creates one article and fetches one page; the
second creates nothing and fetches nothing. -/
theorem discovery_idempotent_witness :
    (scrapeOldestArticles sampleScraperEnv [sampleArticle]).savedArticles.length =
        (oldestArticles sampleScraperEnv).length ∧
      (scrapeOldestArticles sampleScraperEnv [sampleArticle]).store.length = 2 ∧
      (scrapeOldestArticles sampleScraperEnv [sampleArticle]).fetched =
        ["https://beyondchats.com/blogs/chatbots-2/"] ∧
      (scrapeOldestArticles sampleScraperEnv
          (scrapeOldestArticles sampleScraperEnv [sampleArticle]).store).store =
        (scrapeOldestArticles sampleScraperEnv [sampleArticle]).store ∧
      (scrapeOldestArticles sampleScraperEnv
          (scrapeOldestArticles sampleScraperEnv [sampleArticle]).store).fetched = [] :=
  ⟨by decide, by decide, by decide,
    (discovery_idempotent sampleScraperEnv sampleScraperEnv [sampleArticle]).2.2.1 rfl
      (by decide)⟩

/-! ## Articles created by discovery -/

theorem newArticle_fields (env : ScraperEnv) (store : Store) (c : ListedArticle) :
    (newArticle env store c (generateSlug c.title) (env.scrapeArticleContent c.link)).isUpdated
        = false ∧
      (newArticle env store c (generateSlug c.title)
        (env.scrapeArticleContent c.link)).referenceArticles = [] ∧
      (env.scrapeArticleContent c.link ≠ "" →
        (newArticle env store c (generateSlug c.title) (env.scrapeArticleContent c.link)).content
            = env.scrapeArticleContent c.link ∧
          (newArticle env store c (generateSlug c.title)
            (env.scrapeArticleContent c.link)).originalContent
            = env.scrapeArticleContent c.link) ∧
      (env.scrapeArticleContent c.link = "" →
        (newArticle env store c (generateSlug c.title) (env.scrapeArticleContent c.link)).content
            = c.title ∧
          (newArticle env store c (generateSlug c.title)
            (env.scrapeArticleContent c.link)).originalContent = c.title) := by
  refine ⟨rfl, rfl, ?_, ?_⟩
  · intro h
    simp [newArticle, h]
  · intro h
    simp [newArticle, h]

theorem created_by_foldl (env : ScraperEnv) (candidates : List ListedArticle)
    (run : ScrapeRun) (a : Article)
    (ha : a ∈ (candidates.foldl (processListedArticle env) run).store) :
    a ∈ run.store ∨ ∃ c ∈ candidates, ∃ st : Store,
      a = newArticle env st c (generateSlug c.title) (env.scrapeArticleContent c.link) := by
  induction candidates generalizing run with
  | nil => exact Or.inl ha
  | cons d ds ih =>
    rw [List.foldl_cons] at ha
    rcases ih _ ha with h | ⟨c, hc, st, hst⟩
    · rcases processListedArticle_store env run d with hs | ⟨_, hs⟩
      · rw [hs] at h
        exact Or.inl h
      · rw [hs, List.mem_append, List.mem_singleton] at h
        rcases h with h | h
        · exact Or.inl h
        · exact Or.inr ⟨d, List.mem_cons_self _ _, run.store, h⟩
    · exact Or.inr ⟨c, List.mem_cons_of_mem _ hc, st, hst⟩

/-- C11: every article that `scrapeOldestArticles` adds to the store comes from a
candidate and has isUpdated false, no referenceArticles, and content and
originalContent both equal to the scraped page content when that is non-empty and
both equal to the candidate's title when the scrape returned nothing.  A candidate
whose slug is not stored and whose document the store accepts is so created. -/
theorem created_article_fields (env : ScraperEnv) (store : Store) :
    (∀ a ∈ (scrapeOldestArticles env store).store, a ∈ store ∨
      ∃ c ∈ oldestArticles env,
        a.isUpdated = false ∧ a.referenceArticles = [] ∧
        (env.scrapeArticleContent c.link ≠ "" →
          a.content = env.scrapeArticleContent c.link ∧
          a.originalContent = env.scrapeArticleContent c.link) ∧
        (env.scrapeArticleContent c.link = "" →
          a.content = c.title ∧ a.originalContent = c.title)) ∧
    (∀ (run : ScrapeRun) (c : ListedArticle),
      findOneBySlug run.store (generateSlug c.title) = none →
      env.storeAccepts (newArticle env run.store c (generateSlug c.title)
        (env.scrapeArticleContent c.link)) = true →
      (processListedArticle env run c).store = run.store ++
        [newArticle env run.store c (generateSlug c.title)
          (env.scrapeArticleContent c.link)]) := by
  constructor
  · intro a ha
    rcases created_by_foldl env (oldestArticles env) _ a ha with h | ⟨c, hc, st, hst⟩
    · exact Or.inl h
    · right
      refine ⟨c, hc, ?_⟩
      rw [hst]
      exact newArticle_fields env st c
  · intro run c hnone hacc
    unfold processListedArticle
    simp only [hnone, insertDocument_after_lookup env run.store c _ hnone, hacc, if_true]

/-- Witness of C11: the sample run creates one article, from the candidate
`chatbots - A Guide!`, and another world where the page scrape returns nothing
stores the title as content. -/
theorem created_article_fields_witness :
    (scrapeOldestArticles sampleScraperEnv [sampleArticle]).store.map
        (fun a => (a.title, a.content, a.originalContent, a.isUpdated, a.referenceArticles)) =
      [("Intro to X", "Plain text about X.", "", false, []),
       ("chatbots - A Guide!", "<p>Body</p>", "<p>Body</p>", false, [])] ∧
    (scrapeOldestArticles { sampleScraperEnv with scrapeArticleContent := fun _ => "" }
        []).store.map (fun a => (a.title, a.content, a.originalContent)) =
      [("chatbots - A Guide!", "chatbots - A Guide!", "chatbots - A Guide!"),
       ("Intro to X", "Intro to X", "Intro to X")] ∧
    (processListedArticle sampleScraperEnv ⟨[], [], []⟩
        ⟨"Intro to X", "https://beyondchats.com/blogs/intro-to-x/", none, ""⟩).store =
      [] ++ [newArticle sampleScraperEnv [] ⟨"Intro to X",
        "https://beyondchats.com/blogs/intro-to-x/", none, ""⟩ (generateSlug "Intro to X")
        (sampleScraperEnv.scrapeArticleContent "https://beyondchats.com/blogs/intro-to-x/")] :=
  ⟨by decide, by decide,
    (created_article_fields sampleScraperEnv []).2 ⟨[], [], []⟩
      ⟨"Intro to X", "https://beyondchats.com/blogs/intro-to-x/", none, ""⟩
      (by decide) (by decide)⟩

/-! ## Citation injection -/

theorem toLowerCase_append (a b : String) :
    toLowerCase (a ++ b) = toLowerCase a ++ toLowerCase b := by
  apply String.ext
  simp [toLowerCase, toLowerCaseChars, String.data_append]

theorem includes_iff (s pattern : String) :
    includes s pattern = true ↔ ∃ u v, u ++ pattern.data ++ v = s.data := by
  simp [includes, List.IsInfix]

theorem includes_append_right (a b pattern : String) (h : includes b pattern = true) :
    includes (a ++ b) pattern = true := by
  rw [includes_iff] at h ⊢
  obtain ⟨u, v, huv⟩ := h
  exact ⟨a.data ++ u, v, by simp [String.data_append, ← huv]⟩

theorem includes_append_left (a b pattern : String) (h : includes a pattern = true) :
    includes (a ++ b) pattern = true := by
  rw [includes_iff] at h ⊢
  obtain ⟨u, v, huv⟩ := h
  exact ⟨u, v ++ b.data, by simp [String.data_append, ← huv]⟩

theorem referencesHtml_includes (refs : List ReferenceArticle) :
    includes (toLowerCase (referencesHtml refs)) "references" = true := by
  unfold referencesHtml
  rw [toLowerCase_append, toLowerCase_append]
  apply includes_append_left
  apply includes_append_left
  decide

theorem referencesHtml_ne_empty (refs : List ReferenceArticle) :
    (referencesHtml refs).data ≠ [] := by
  unfold referencesHtml
  simp [String.data_append]

theorem append_referencesHtml_ne (content : String) (refs : List ReferenceArticle) :
    content ++ referencesHtml refs ≠ content := by
  intro h
  have h2 := congrArg String.data h
  rw [String.data_append] at h2
  exact referencesHtml_ne_empty refs (List.append_right_eq_self.mp h2)

theorem addCitations_of_due (content : String) (refs : List ReferenceArticle)
    (hne : refs ≠ [])
    (h1 : includes (toLowerCase content) "references" = false)
    (h2 : includes (toLowerCase content) "sources" = false) :
    addCitations content (some refs) = content ++ referencesHtml refs := by
  unfold addCitations
  simp [hne, h1, h2]

/-- C12: `addCitations` is idempotent, for every content and every reference list,
also an empty or a missing one. -/
theorem addCitations_idempotent (content : String)
    (referenceArticles : Option (List ReferenceArticle)) :
    addCitations (addCitations content referenceArticles) referenceArticles =
      addCitations content referenceArticles := by
  cases referenceArticles with
  | none => rfl
  | some refs =>
    by_cases hlen : refs.length = 0
    · simp [addCitations, hlen]
    · by_cases hc : (includes (toLowerCase content) "references" ||
          includes (toLowerCase content) "sources") = true
      · have h1 : addCitations content (some refs) = content := by
          simp only [addCitations, hlen, if_false, hc, if_true]
        rw [h1, h1]
      · have h1 : addCitations content (some refs) = content ++ referencesHtml refs := by
          simp only [addCitations, hlen, if_false, hc]
          simp
        rw [h1]
        have h2 : includes (toLowerCase (content ++ referencesHtml refs)) "references"
            = true := by
          rw [toLowerCase_append]
          exact includes_append_right _ _ _ (referencesHtml_includes refs)
        simp only [addCitations, hlen, if_false, h2, Bool.true_or, if_true]

/-- C13, what the code does: the content below does not contain the word
"references" nor the word "sources" (it contains "resources") and the list has one
reference, yet the guard that looks for an existing references section returns the
content without the section. -/
theorem addCitations_word_counterexample :
    containsWord "<p>Useful resources for support teams.</p>" "references" = false ∧
      containsWord "<p>Useful resources for support teams.</p>" "sources" = false ∧
      ¬ (addCitations "<p>Useful resources for support teams.</p>"
            (some [⟨"https://one.example/blog/x", "X explained"⟩]) =
          "<p>Useful resources for support teams.</p>" ++
            referencesHtml [⟨"https://one.example/blog/x", "X explained"⟩] ↔
        ([(⟨"https://one.example/blog/x", "X explained"⟩ : ReferenceArticle)] ≠ [] ∧
          containsWord "<p>Useful resources for support teams.</p>" "references" = false ∧
          containsWord "<p>Useful resources for support teams.</p>" "sources" = false)) := by
  decide

/-- The guard of `addCitations` as the code has it: the References section is
appended if and only if the list is present and non-empty and the lower-cased
content contains neither the character sequence "references" nor the character
sequence "sources" anywhere, also inside a longer word; in every other case the
content is returned unchanged. -/
theorem addCitations_appends_iff (content : String)
    (referenceArticles : Option (List ReferenceArticle)) :
    ((∃ refs, referenceArticles = some refs ∧
        addCitations content referenceArticles = content ++ referencesHtml refs ∧
        addCitations content referenceArticles ≠ content) ↔
      (∃ refs, referenceArticles = some refs ∧ refs ≠ [] ∧
        includes (toLowerCase content) "references" = false ∧
        includes (toLowerCase content) "sources" = false)) ∧
    ((¬ ∃ refs, referenceArticles = some refs ∧ refs ≠ [] ∧
        includes (toLowerCase content) "references" = false ∧
        includes (toLowerCase content) "sources" = false) →
      addCitations content referenceArticles = content) := by
  have hkeep : (¬ ∃ refs, referenceArticles = some refs ∧ refs ≠ [] ∧
        includes (toLowerCase content) "references" = false ∧
        includes (toLowerCase content) "sources" = false) →
      addCitations content referenceArticles = content := by
    intro h
    cases referenceArticles with
    | none => rfl
    | some refs =>
      by_cases hlen : refs.length = 0
      · simp [addCitations, hlen]
      · by_cases hc : (includes (toLowerCase content) "references" ||
            includes (toLowerCase content) "sources") = true
        · simp only [addCitations, hlen, if_false, hc, if_true]
        · exfalso
          apply h
          refine ⟨refs, rfl, fun h0 => hlen (by rw [h0]; rfl), ?_, ?_⟩
          · cases h1 : includes (toLowerCase content) "references" with
            | false => rfl
            | true => simp [h1] at hc
          · cases h2 : includes (toLowerCase content) "sources" with
            | false => rfl
            | true => simp [h2] at hc
  refine ⟨⟨?_, ?_⟩, hkeep⟩
  · rintro ⟨refs, hr, _, hne⟩
    by_contra hcon
    exact hne (hkeep hcon)
  · rintro ⟨refs, hr, hne, h1, h2⟩
    subst hr
    have := addCitations_of_due content refs hne h1 h2
    exact ⟨refs, rfl, this, by rw [this]; exact append_referencesHtml_ne content refs⟩

/-- The guard at two contents: content without either character sequence gets the
section, content with "resources" is returned as it is. -/
theorem addCitations_appends_iff_witness :
    addCitations "<p>Text</p>" (some [⟨"https://one.example/blog/x", "X explained"⟩]) ≠
        "<p>Text</p>" ∧
      addCitations "<p>Useful resources for support teams.</p>"
        (some [⟨"https://one.example/blog/x", "X explained"⟩]) =
        "<p>Useful resources for support teams.</p>" :=
  ⟨((addCitations_appends_iff "<p>Text</p>"
      (some [⟨"https://one.example/blog/x", "X explained"⟩])).1.2
      ⟨_, rfl, by decide, by decide, by decide⟩).elim fun _ h => h.2.2,
    (addCitations_appends_iff "<p>Useful resources for support teams.</p>"
      (some [⟨"https://one.example/blog/x", "X explained"⟩])).2 (by decide)⟩

/-- C14: when the list is non-empty and the content triggers the injection, the
result is the content, unchanged, followed by the References heading and a list
with one item per reference, in the order supplied; the i-th item is the link with
href `refs[i].url` and text `refs[i].title`. -/
theorem addCitations_section (content : String) (refs : List ReferenceArticle)
    (hne : refs ≠ [])
    (h1 : includes (toLowerCase content) "references" = false)
    (h2 : includes (toLowerCase content) "sources" = false) :
    addCitations content (some refs) =
        content ++ ("\n<h2>References</h2>\n<ul>\n" ++
          "\n".intercalate (refs.map referenceItemHtml) ++ "\n</ul>") ∧
      (refs.map referenceItemHtml).length = refs.length ∧
      ∀ i (h : i < refs.length), (refs.map referenceItemHtml)[i]? =
        some ("  <li><a href=\"" ++ (refs.get ⟨i, h⟩).url ++
          "\" target=\"_blank\" rel=\"noopener noreferrer\">" ++
          (refs.get ⟨i, h⟩).title ++ "</a></li>") := by
  refine ⟨addCitations_of_due content refs hne h1 h2, List.length_map _ _, ?_⟩
  intro i h
  simp [referenceItemHtml, List.getElem?_eq_getElem h]

/-- Witness of C14: two references after a paragraph. -/
theorem addCitations_section_witness :
    addCitations "<p>Text</p>" (some sampleReferences) =
      "<p>Text</p>" ++ ("\n<h2>References</h2>\n<ul>\n" ++
        "\n".intercalate (sampleReferences.map referenceItemHtml) ++ "\n</ul>") :=
  (addCitations_section "<p>Text</p>" sampleReferences (by decide) (by decide)
    (by decide)).1

/-! ## Clean-up of the model's answer -/

theorem fence_data : "```".data = [Char.ofNat 96, Char.ofNat 96, Char.ofNat 96] := rfl

theorem htmlFence_data :
    "```html".data = [Char.ofNat 96, Char.ofNat 96, Char.ofNat 96, 'h', 't', 'm', 'l'] := rfl

theorem stripClosingFence_fenced (body : List Char) :
    stripClosingFence (body ++ '\n' :: "```".data) = body := by
  unfold stripClosingFence
  have hrev : (body ++ '\n' :: "```".data).reverse =
      Char.ofNat 96 :: Char.ofNat 96 :: Char.ofNat 96 :: '\n' :: body.reverse := by
    simp [fence_data]
  have hsuf : "```".data.isSuffixOf (body ++ '\n' :: "```".data) = true := by
    simp [List.isSuffixOf, hrev, fence_data, List.isPrefixOf]
  rw [if_pos hsuf, hrev]
  simp

theorem cleanModelResponseChars_plain_fence (text body : List Char)
    (hform : trimChars text = "```".data ++ '\n' :: body ++ '\n' :: "```".data) :
    cleanModelResponseChars text = body := by
  unfold cleanModelResponseChars
  simp only [hform]
  have h1 : "```html".data.isPrefixOf ("```".data ++ '\n' :: body ++ '\n' :: "```".data)
      = false := by
    simp [fence_data, htmlFence_data, List.isPrefixOf]
  have h2 : "```".data.isPrefixOf ("```".data ++ '\n' :: body ++ '\n' :: "```".data)
      = true := by
    simp [fence_data, List.isPrefixOf]
  have h3 : stripOpeningFence "```".data ("```".data ++ '\n' :: body ++ '\n' :: "```".data)
      = body ++ '\n' :: "```".data := by
    unfold stripOpeningFence
    rw [if_pos h2]
    simp [fence_data]
  rw [h1, h2]
  simp only [Bool.false_eq_true, if_false, if_true, h3]
  exact stripClosingFence_fenced body

theorem cleanModelResponseChars_html_fence (text body : List Char)
    (hform : trimChars text = "```html".data ++ '\n' :: body ++ '\n' :: "```".data) :
    cleanModelResponseChars text = body := by
  unfold cleanModelResponseChars
  simp only [hform]
  have h1 : "```html".data.isPrefixOf ("```html".data ++ '\n' :: body ++ '\n' :: "```".data)
      = true := by
    simp [htmlFence_data, List.isPrefixOf]
  have h3 : stripOpeningFence "```html".data
      ("```html".data ++ '\n' :: body ++ '\n' :: "```".data) = body ++ '\n' :: "```".data := by
    unfold stripOpeningFence
    rw [if_pos h1]
    simp [htmlFence_data]
  rw [h1]
  simp only [if_true, h3]
  exact stripClosingFence_fenced body

/-- C15, as the claim states it, fails: for a fence with a language tag other than
`html` the tag stays in front of the body. -/
theorem cleanModelResponse_tag_counterexample :
    trim "```xml\n<p>Hi</p>\n```" = "```" ++ "xml" ++ "\n" ++ "<p>Hi</p>" ++ "\n" ++ "```" ∧
      cleanModelResponse "```xml\n<p>Hi</p>\n```" = "xml\n<p>Hi</p>" ∧
      cleanModelResponse "```xml\n<p>Hi</p>\n```" ≠ "<p>Hi</p>" ∧
      cleanModelResponse "```HTML\n<p>Hi</p>\n```" = "HTML\n<p>Hi</p>" := by
  decide

/-- C15 amended: for every model response that, after trimming, has the form:
triple backtick, either no language tag or the tag `html`, a newline, a body, a
newline, triple backtick, the clean-up of `enhanceArticle` and
`enhanceArticleWithoutReferences` returns exactly the body. -/
theorem cleanModelResponse_fenced (text tag body : String)
    (htag : tag = "" ∨ tag = "html")
    (hform : trim text = "```" ++ tag ++ "\n" ++ body ++ "\n" ++ "```") :
    cleanModelResponse text = body ∧
      (∀ env oc t, env.geminiApiKey = true →
        env.generateContent (Prompt.withoutReferences oc t) = some text →
        enhanceArticleWithoutReferences env oc t = some body) ∧
      (∀ env oc refs t, env.geminiApiKey = true →
        env.generateContent (Prompt.withReferences oc refs t) = some text →
        enhanceArticle env oc refs t = some body) := by
  have hclean : cleanModelResponse text = body := by
    apply String.ext
    have hdata := congrArg String.data hform
    simp only [trim, String.data_append] at hdata
    simp only [cleanModelResponse]
    rcases htag with h | h
    · subst h
      apply cleanModelResponseChars_plain_fence
      rw [hdata]
      simp [fence_data]
    · subst h
      apply cleanModelResponseChars_html_fence
      rw [hdata]
      simp [fence_data, htmlFence_data]
  refine ⟨hclean, ?_, ?_⟩
  · intro env oc t hkey hgen
    simp [enhanceArticleWithoutReferences, hkey, hgen, hclean]
  · intro env oc refs t hkey hgen
    simp [enhanceArticle, hkey, hgen, hclean]

/-- Witness of the amended C15: the fenced answer of the sample world. -/
theorem cleanModelResponse_fenced_witness :
    cleanModelResponse "  ```html\n<h2>X</h2><p>Better text about X.</p>\n```\n" =
      "<h2>X</h2><p>Better text about X.</p>" :=
  (cleanModelResponse_fenced "  ```html\n<h2>X</h2><p>Better text about X.</p>\n```\n" "html"
    "<h2>X</h2><p>Better text about X.</p>" (Or.inr rfl) (by decide)).1

/-! ## Reference search -/

theorem isArticleLink_getD (url : Option String) (h : isArticleLink url = true) :
    isArticleLink (some (url.getD "")) = true := by
  cases url with
  | none => simp [isArticleLink] at h
  | some u => exact h

theorem collectApiResults_spec (items : List ApiItem) (results : List ReferenceArticle)
    (hlen : results.length < 2) :
    ∃ l, collectApiResults items results = results ++ l ∧ List.Sublist l (items.map apiEntry) ∧
      (results ++ l).length ≤ 2 ∧ ∀ r ∈ l, isArticleLink (some r.url) = true := by
  induction items generalizing results with
  | nil =>
    exact ⟨[], by simp [collectApiResults], List.Sublist.slnil, by simp; omega,
      fun r hr => by cases hr⟩
  | cons item rest ih =>
    unfold collectApiResults
    by_cases hacc : isArticleLink item.link = true
    · rw [if_pos hacc]
      simp only
      by_cases hfull : (results ++ [ReferenceArticle.mk (item.link.getD "") item.title]).length ≥ 2
      · rw [if_pos hfull]
        refine ⟨[apiEntry item], rfl, ?_, ?_, ?_⟩
        · rw [List.map_cons]
          exact List.Sublist.cons₂ _ (List.nil_sublist _)
        · simp
          omega
        · intro r hr
          rw [List.mem_singleton] at hr
          subst hr
          exact isArticleLink_getD _ hacc
      · rw [if_neg hfull]
        obtain ⟨l, hl, hsub, hle, hall⟩ := ih
          (results ++ [ReferenceArticle.mk (item.link.getD "") item.title]) (by omega)
        refine ⟨apiEntry item :: l, ?_, ?_, ?_, ?_⟩
        · rw [hl]
          simp [apiEntry]
        · rw [List.map_cons]
          exact List.Sublist.cons₂ _ hsub
        · simpa [apiEntry] using hle
        · intro r hr
          rcases List.mem_cons.mp hr with h | h
          · subst h
            exact isArticleLink_getD _ hacc
          · exact hall r h
    · rw [if_neg hacc]
      obtain ⟨l, hl, hsub, hle, hall⟩ := ih results hlen
      exact ⟨l, hl, by rw [List.map_cons]; exact List.Sublist.cons _ hsub, hle, hall⟩

theorem collectAnchors_spec (anchors : List ResultAnchor) (results : List ReferenceArticle)
    (hlen : results.length ≤ 2) :
    ∃ l, collectAnchors anchors results = results ++ l ∧ List.Sublist l (anchors.map anchorEntry) ∧
      (results ++ l).length ≤ 2 ∧ ∀ r ∈ l, isArticleLink (some r.url) = true := by
  induction anchors generalizing results with
  | nil =>
    exact ⟨[], by simp [collectAnchors], List.Sublist.slnil, by simpa using hlen,
      fun r hr => by cases hr⟩
  | cons anchor rest ih =>
    unfold collectAnchors
    by_cases hfull : results.length ≥ 2
    · rw [if_pos hfull]
      exact ⟨[], by simp, List.nil_sublist _, by simpa using hlen, fun r hr => by cases hr⟩
    · rw [if_neg hfull]
      by_cases hacc : isArticleLink anchor.href = true ∧ trim anchor.text ≠ ""
      · rw [if_pos hacc]
        obtain ⟨l, hl, hsub, hle, hall⟩ := ih
          (results ++ [ReferenceArticle.mk (anchor.href.getD "") (trim anchor.text)])
          (by simp; omega)
        refine ⟨anchorEntry anchor :: l, ?_, ?_, ?_, ?_⟩
        · rw [hl]
          simp [anchorEntry]
        · rw [List.map_cons]
          exact List.Sublist.cons₂ _ hsub
        · simpa [anchorEntry] using hle
        · intro r hr
          rcases List.mem_cons.mp hr with h | h
          · subst h
            exact isArticleLink_getD _ hacc.1
          · exact hall r h
      · rw [if_neg hacc]
        obtain ⟨l, hl, hsub, hle, hall⟩ := ih results hlen
        exact ⟨l, hl, by rw [List.map_cons]; exact List.Sublist.cons _ hsub, hle, hall⟩

/-- One result element either leaves the collected results as they are or adds its
entry at the end. -/
theorem collectResultBlock_spec (env : SearchEnv) (sr sr' : List ReferenceArticle)
    (block : ResultBlock) (h : collectResultBlock env sr block = some sr') :
    sr' = sr ∨ (sr.length < 2 ∧ ∃ e, blockEntry env block = some e ∧ sr' = sr ++ [e]) := by
  unfold collectResultBlock at h
  by_cases hfull : sr.length ≥ 2
  · rw [if_pos hfull] at h
    exact Or.inl (Option.some.inj h).symm
  · rw [if_neg hfull] at h
    have hlt : sr.length < 2 := by omega
    unfold blockEntry
    cases hhref : block.href with
    | none =>
      rw [hhref] at h
      exact Or.inl (Option.some.inj h).symm
    | some href =>
      rw [hhref] at h
      simp only at h ⊢
      by_cases hempty : href = ""
      · rw [if_pos hempty] at h
        exact Or.inl (Option.some.inj h).symm
      · rw [if_neg hempty] at h ⊢
        by_cases hredirect : startsWith href "/url" = true
        · rw [if_pos hredirect] at h ⊢
          cases hcap : redirectCapture href.data with
          | none =>
            rw [hcap] at h
            exact Or.inl (Option.some.inj h).symm
          | some capture =>
            rw [hcap] at h
            simp only at h ⊢
            cases hdec : env.decodeURIComponent (String.mk capture) with
            | none =>
              rw [hdec] at h
              cases h
            | some url =>
              rw [hdec] at h
              simp only [Option.some.injEq] at h ⊢
              split at h
              · rename_i hc
                right
                refine ⟨hlt, _, ?_, h.symm⟩
                rw [if_pos hc]
              · exact Or.inl h.symm
        · rw [if_neg hredirect] at h ⊢
          simp only [Option.some.injEq] at h
          split at h
          · rename_i hc
            right
            refine ⟨hlt, _, ?_, h.symm⟩
            rw [if_pos hc]
          · exact Or.inl h.symm

theorem collectResultBlocks_spec (env : SearchEnv) (blocks : List ResultBlock)
    (sr sr' : List ReferenceArticle) (h : collectResultBlocks env blocks sr = some sr')
    (hlen : sr.length ≤ 2) :
    ∃ l, sr' = sr ++ l ∧ List.Sublist l (blocks.filterMap (blockEntry env)) ∧ sr'.length ≤ 2 := by
  induction blocks generalizing sr with
  | nil =>
    simp only [collectResultBlocks, Option.some.injEq] at h
    exact ⟨[], by simp [h], List.Sublist.slnil, by rw [← h]; exact hlen⟩
  | cons block rest ih =>
    unfold collectResultBlocks at h
    cases hb : collectResultBlock env sr block with
    | none =>
      rw [hb] at h
      cases h
    | some mid =>
      rw [hb] at h
      simp only at h
      rcases collectResultBlock_spec env sr mid block hb with hm | ⟨hlt, e, he, hm⟩
      · subst hm
        obtain ⟨l, hl, hsub, hle⟩ := ih mid h hlen
        refine ⟨l, hl, ?_, hle⟩
        cases hbe : blockEntry env block with
        | none => simpa [List.filterMap_cons, hbe] using hsub
        | some e' =>
          rw [List.filterMap_cons, hbe]
          exact List.Sublist.cons _ hsub
      · subst hm
        obtain ⟨l, hl, hsub, hle⟩ := ih (sr ++ [e]) h (by simp; omega)
        refine ⟨e :: l, by rw [hl]; simp, ?_, hle⟩
        rw [List.filterMap_cons, he]
        exact List.Sublist.cons₂ _ hsub

theorem searchWithAPI_spec (env : SearchEnv) (query : String) :
    (searchWithAPI env query).length ≤ 2 ∧
      (∀ r ∈ searchWithAPI env query, isArticleLink (some r.url) = true) ∧
      List.Sublist (searchWithAPI env query) (apiListing env query) := by
  unfold searchWithAPI apiListing
  cases h : env.customSearch query with
  | none => simp
  | some answer =>
    cases answer with
    | none => simp
    | some items =>
      obtain ⟨l, hl, hsub, hle, hall⟩ := collectApiResults_spec items [] (by simp)
      simp only [List.nil_append] at hl hle
      simp only [hl]
      exact ⟨hle, hall, hsub⟩

theorem searchWithDuckDuckGo_spec (env : SearchEnv) (query : String) :
    (searchWithDuckDuckGo env query).length ≤ 2 ∧
      (∀ r ∈ searchWithDuckDuckGo env query, isArticleLink (some r.url) = true) ∧
      List.Sublist (searchWithDuckDuckGo env query) (anchorListing env query) := by
  unfold searchWithDuckDuckGo anchorListing
  cases h : env.duckDuckGo query with
  | none => simp
  | some anchors =>
    obtain ⟨l, hl, hsub, hle, hall⟩ := collectAnchors_spec anchors [] (by simp)
    simp only [List.nil_append] at hl hle
    simp only [hl]
    exact ⟨hle, hall, hsub⟩

theorem searchWithScraping_spec (env : SearchEnv) (query : String) :
    (searchWithScraping env query).length ≤ 2 ∧
      (∀ r ∈ searchWithScraping env query, isArticleLink (some r.url) = true) ∧
      (List.Sublist (searchWithScraping env query) (blockListing env query) ∨
        List.Sublist (searchWithScraping env query) (anchorListing env query)) := by
  have hd := searchWithDuckDuckGo_spec env query
  unfold searchWithScraping blockListing
  cases h : env.resultBlocks query with
  | none => exact ⟨hd.1, hd.2.1, Or.inr hd.2.2⟩
  | some blocks =>
    simp only
    cases hc : collectResultBlocks env blocks [] with
    | none => exact ⟨hd.1, hd.2.1, Or.inr hd.2.2⟩
    | some results =>
      simp only
      obtain ⟨l, hl, hsub, _⟩ := collectResultBlocks_spec env blocks [] results hc (by simp)
      simp only [List.nil_append] at hl
      subst hl
      refine ⟨?_, ?_, Or.inl ?_⟩
      · exact (List.length_take_le _ _)
      · intro r hr
        have := List.mem_of_mem_take hr
        rw [List.mem_filter] at this
        exact this.2
      · exact ((List.take_sublist _ _).trans (List.filter_sublist _)).trans hsub

/-- C16: for every query and every backend response, `searchWithAPI`,
`searchWithScraping`, `searchWithDuckDuckGo` and `searchGoogle` return at most two
entries, each with a url that `isArticleLink` accepts, in the order in which the
backend that supplied them lists them. -/
theorem search_results_bounded (env : SearchEnv) (query : String) :
    ((searchWithAPI env query).length ≤ 2 ∧
      (∀ r ∈ searchWithAPI env query, isArticleLink (some r.url) = true) ∧
      List.Sublist (searchWithAPI env query) (apiListing env query)) ∧
    ((searchWithScraping env query).length ≤ 2 ∧
      (∀ r ∈ searchWithScraping env query, isArticleLink (some r.url) = true) ∧
      (List.Sublist (searchWithScraping env query) (blockListing env query) ∨
        List.Sublist (searchWithScraping env query) (anchorListing env query))) ∧
    ((searchWithDuckDuckGo env query).length ≤ 2 ∧
      (∀ r ∈ searchWithDuckDuckGo env query, isArticleLink (some r.url) = true) ∧
      List.Sublist (searchWithDuckDuckGo env query) (anchorListing env query)) ∧
    ((searchGoogle env query).length ≤ 2 ∧
      (∀ r ∈ searchGoogle env query, isArticleLink (some r.url) = true) ∧
      (List.Sublist (searchGoogle env query) (apiListing env query) ∨
        List.Sublist (searchGoogle env query) (blockListing env query) ∨
        List.Sublist (searchGoogle env query) (anchorListing env query))) := by
  refine ⟨searchWithAPI_spec env query, searchWithScraping_spec env query,
    searchWithDuckDuckGo_spec env query, ?_⟩
  unfold searchGoogle
  by_cases hcfg : env.apiConfigured = true
  · rw [if_pos hcfg]
    have h := searchWithAPI_spec env query
    exact ⟨h.1, h.2.1, Or.inl h.2.2⟩
  · rw [if_neg hcfg]
    have h := searchWithScraping_spec env query
    exact ⟨h.1, h.2.1, Or.inr h.2.2⟩

/-- C17, as the claim states it, fails.  With credentials configured and an API
answer without items, `searchGoogle` returns nothing although the interactive scrape
has a result; without credentials and with a rendered page that has no result
element, it returns nothing although the alternative engine has a result. -/
theorem searchGoogle_fallback_counterexample :
    (searchWithAPI emptyApiSearchEnv "Intro to X" = [] ∧
        searchWithScraping emptyApiSearchEnv "Intro to X" ≠ [] ∧
        searchGoogle emptyApiSearchEnv "Intro to X" = []) ∧
      (emptyPageSearchEnv.apiConfigured = false ∧
        emptyPageSearchEnv.resultBlocks "Intro to X" = some [] ∧
        searchWithDuckDuckGo emptyPageSearchEnv "Intro to X" =
          [⟨"https://three.example/blog/x", "X in depth"⟩] ∧
        searchGoogle emptyPageSearchEnv "Intro to X" = []) := by
  decide

theorem collectResultBlock_congr (env env₂ : SearchEnv)
    (h : env₂.decodeURIComponent = env.decodeURIComponent) (sr : List ReferenceArticle)
    (block : ResultBlock) :
    collectResultBlock env₂ sr block = collectResultBlock env sr block := by
  unfold collectResultBlock
  rw [h]

theorem collectResultBlocks_congr (env env₂ : SearchEnv)
    (h : env₂.decodeURIComponent = env.decodeURIComponent) (blocks : List ResultBlock)
    (sr : List ReferenceArticle) :
    collectResultBlocks env₂ blocks sr = collectResultBlocks env blocks sr := by
  induction blocks generalizing sr with
  | nil => rfl
  | cons block rest ih =>
    unfold collectResultBlocks
    rw [collectResultBlock_congr env env₂ h]
    cases collectResultBlock env sr block with
    | none => rfl
    | some mid => exact ih mid

theorem searchGoogle_of_scraped (env : SearchEnv) (query : String)
    (hcfg : env.apiConfigured = false) (blocks : List ResultBlock)
    (results : List ReferenceArticle) (hb : env.resultBlocks query = some blocks)
    (hc : collectResultBlocks env blocks [] = some results) :
    searchGoogle env query =
      (results.filter fun result => isArticleLink (some result.url)).take 2 := by
  simp [searchGoogle, hcfg, searchWithScraping, hb, hc]

/-- C17 amended: `searchGoogle` uses one primary backend, chosen by configuration.
With credentials its result is that of the structured API, final also when empty,
whatever the other two backends would return.  Without credentials its result is
that of the interactive scrape whenever the page script completes, final also when
empty; the alternative engine is consulted exactly when rendering or the page script
throws, and its result is then the result. -/
theorem searchGoogle_backend_choice (env : SearchEnv) (query : String) :
    (env.apiConfigured = true →
      searchGoogle env query = searchWithAPI env query ∧
      ∀ blocks anchors, searchGoogle
        { env with resultBlocks := blocks, duckDuckGo := anchors } query =
          searchGoogle env query) ∧
    (env.apiConfigured = false →
      (∀ blocks results, env.resultBlocks query = some blocks →
        collectResultBlocks env blocks [] = some results →
        searchGoogle env query =
          (results.filter fun result => isArticleLink (some result.url)).take 2 ∧
        ∀ anchors, searchGoogle { env with duckDuckGo := anchors } query =
          searchGoogle env query) ∧
      ((env.resultBlocks query = none ∨
          ∃ blocks, env.resultBlocks query = some blocks ∧
            collectResultBlocks env blocks [] = none) →
        searchGoogle env query = searchWithDuckDuckGo env query)) := by
  constructor
  · intro hcfg
    constructor
    · simp [searchGoogle, hcfg]
    · intro blocks anchors
      simp [searchGoogle, hcfg, searchWithAPI]
  · intro hcfg
    constructor
    · intro blocks results hb hc
      constructor
      · exact searchGoogle_of_scraped env query hcfg blocks results hb hc
      · intro anchors
        rw [searchGoogle_of_scraped env query hcfg blocks results hb hc]
        exact searchGoogle_of_scraped { env with duckDuckGo := anchors } query hcfg blocks
          results hb
          ((collectResultBlocks_congr env { env with duckDuckGo := anchors } rfl blocks
            []).trans hc)
    · rintro (hnone | ⟨blocks, hb, hc⟩)
      · simp [searchGoogle, hcfg, searchWithScraping, hnone]
      · simp [searchGoogle, hcfg, searchWithScraping, hb, hc]

/-- Witness of the amended C17: the three sample search worlds. -/
theorem searchGoogle_backend_choice_witness :
    searchGoogle emptyApiSearchEnv "Intro to X" = searchWithAPI emptyApiSearchEnv "Intro to X" ∧
      searchGoogle emptyPageSearchEnv "Intro to X" = [] ∧
      searchGoogle { sampleSearchEnv with resultBlocks := fun _ => none } "Intro to X" =
        searchWithDuckDuckGo { sampleSearchEnv with resultBlocks := fun _ => none }
          "Intro to X" :=
  ⟨((searchGoogle_backend_choice emptyApiSearchEnv "Intro to X").1 rfl).1,
    ((searchGoogle_backend_choice emptyPageSearchEnv "Intro to X").2 rfl).1 [] [] rfl rfl
      |>.1,
    ((searchGoogle_backend_choice { sampleSearchEnv with resultBlocks := fun _ => none }
      "Intro to X").2 rfl).2 (Or.inl rfl)⟩

/-- C18, what the code does: on a page whose first element is a video link and whose
second and third elements are articles that pass the filter, the page script stops
collecting after the first two elements, the filter then drops the video, and
`searchWithScraping` returns one entry although the page holds two accepted
ones. -/
theorem searchWithScraping_caps_before_filter :
    (blockListing sampleSearchEnv "Intro to X").filter
        (fun result => isArticleLink (some result.url)) =
      [⟨"https://one.example/blog/x", "X explained"⟩,
       ⟨"https://two.example/blog/x", "A guide to X"⟩] ∧
    collectResultBlocks sampleSearchEnv sampleBlocks [] =
      some [⟨"https://www.youtube.com/watch?v=abc", "X, the video"⟩,
            ⟨"https://one.example/blog/x", "X explained"⟩] ∧
    searchWithScraping sampleSearchEnv "Intro to X" =
      [⟨"https://one.example/blog/x", "X explained"⟩] := by
  decide

/-! ## The shortened topic and the command-line flow -/

theorem takeWhile_takeWhile_separators (l : List Char) :
    (l.takeWhile (· != ':')).takeWhile (· != '-') =
      l.takeWhile (fun c => c != ':' && c != '-') := by
  induction l with
  | nil => rfl
  | cons c cs ih =>
    by_cases h1 : c = ':'
    · subst h1
      simp [List.takeWhile_cons]
    · by_cases h2 : c = '-'
      · subst h2
        simp [List.takeWhile_cons]
      · simp [List.takeWhile_cons, h1, h2, ih]

theorem trimChars_length_le (l : List Char) : (trimChars l).length ≤ l.length := by
  unfold trimChars
  exact (List.IsPrefix.length_le ( List.rdropWhile_prefix _ _)).trans
    (List.IsSuffix.length_le (List.dropWhile_suffix _))

theorem shortTitle_length_le (title : String) :
    (shortTitle title).data.length ≤ title.data.length := by
  simp only [shortTitle, trim]
  refine (trimChars_length_le _).trans ?_
  exact ((List.takeWhile_sublist _).trans (List.takeWhile_sublist _)).length_le

theorem shortTitle_ne_guide (title : String) :
    shortTitle title ≠ title ++ " guide article" := by
  intro h
  have h1 := shortTitle_length_le title
  rw [h] at h1
  simp [String.data_append] at h1

theorem cliSearch_queries (env : Env) (title : String) :
    ∃ rest, (rest = [] ∨ rest = [title ++ " guide article"]) ∧
      (cliSearch env title).1 =
        (if env.searchGoogle title = some [] ∧ jsLength (shortTitle title) > 10 ∧
            shortTitle title ≠ title then [title, shortTitle title]
          else [title]) ++ rest := by
  unfold cliSearch
  cases h : env.searchGoogle title with
  | none => exact ⟨[], Or.inl rfl, by simp⟩
  | some first =>
    by_cases hc : jsLength (shortTitle title) > 10 ∧ shortTitle title ≠ title
    · obtain ⟨hlen, hne⟩ := hc
      cases first with
      | nil =>
        cases h2 : env.searchGoogle (shortTitle title) with
        | none => exact ⟨[], Or.inl rfl, by simp [hlen, hne, h2]⟩
        | some second =>
          cases second with
          | nil => exact ⟨[title ++ " guide article"], Or.inr rfl, by simp [hlen, hne, h2]⟩
          | cons r rs => exact ⟨[], Or.inl rfl, by simp [hlen, hne, h2]⟩
      | cons r rs =>
        exact ⟨[], Or.inl rfl, by simp⟩
    · cases first with
      | nil =>
        refine ⟨[title ++ " guide article"], Or.inr rfl, ?_⟩
        simp only [List.length_nil, true_and, hc, if_false, and_false]
        simp
      | cons r rs =>
        exact ⟨[], Or.inl rfl, by simp⟩

/-- The search block of `enhanceArticleById` when the retry is due: its result is
the answer of the search for the shortened title. -/
theorem searchStep_of_retry (env : Env) (title : String)
    (h : env.searchGoogle title = some [] ∧ jsLength (shortTitle title) > 10 ∧
      shortTitle title ≠ title) :
    searchStep env title = (env.searchGoogle (shortTitle title)).getD [] := by
  obtain ⟨h1, h2, h3⟩ := h
  unfold searchStep
  rw [h1]
  simp only [List.length_nil, if_true, h2, h3, ne_eq, not_false_eq_true, and_self]
  cases env.searchGoogle (shortTitle title) <;> rfl

/-- The search block of `enhanceArticleById` when the retry is not due: its result
is the answer of the search for the title. -/
theorem searchStep_of_no_retry (env : Env) (title : String)
    (h : ¬ (env.searchGoogle title = some [] ∧ jsLength (shortTitle title) > 10 ∧
      shortTitle title ≠ title)) :
    searchStep env title = (env.searchGoogle title).getD [] := by
  unfold searchStep
  cases h1 : env.searchGoogle title with
  | none => rfl
  | some first =>
    cases first with
    | nil =>
      have hc : ¬ (jsLength (shortTitle title) > 10 ∧ shortTitle title ≠ title) :=
        fun hc => h ⟨h1, hc.1, hc.2⟩
      simp only [List.length_nil, if_true, hc, if_false]
      rfl
    | cons r rs => simp

/-- The handler reads the search backend through `searchStep` only. -/
theorem enhanceArticleById_search_congr (env : Env)
    (search₂ : String → Option (List ReferenceArticle)) (store : Store) (id : String)
    (article : Article) (hfind : findById env store id = some (some article))
    (h : searchStep { env with searchGoogle := search₂ } article.title =
      searchStep env article.title) :
    enhanceArticleById { env with searchGoogle := search₂ } store id =
      enhanceArticleById env store id := by
  have hf : findById { env with searchGoogle := search₂ } store id = some (some article) :=
    hfind
  unfold enhanceArticleById
  rw [hf, hfind]
  simp only []
  rw [h]
  rfl

/-- The result of step 1 of the command-line flow when the retry is due. -/
theorem cliSearch_of_retry (env : Env) (title : String)
    (h : env.searchGoogle title = some [] ∧ jsLength (shortTitle title) > 10 ∧
      shortTitle title ≠ title) :
    (cliSearch env title).2 =
      match env.searchGoogle (shortTitle title) with
      | none => none
      | some second =>
        if second.length = 0 then env.searchGoogle (title ++ " guide article")
        else some second := by
  obtain ⟨h1, h2, h3⟩ := h
  unfold cliSearch
  rw [h1]
  simp only [List.length_nil, true_and, h2, h3, ne_eq, not_false_eq_true, and_self, if_true]
  cases env.searchGoogle (shortTitle title) with
  | none => rfl
  | some second =>
    simp only
    split <;> rfl

/-- The result of step 1 of the command-line flow when the retry is not due. -/
theorem cliSearch_of_no_retry (env : Env) (title : String)
    (h : ¬ (env.searchGoogle title = some [] ∧ jsLength (shortTitle title) > 10 ∧
      shortTitle title ≠ title)) :
    (cliSearch env title).2 =
      match env.searchGoogle title with
      | none => none
      | some first =>
        if first.length = 0 then env.searchGoogle (title ++ " guide article")
        else some first := by
  unfold cliSearch
  cases h1 : env.searchGoogle title with
  | none => rfl
  | some first =>
    have hc : ¬ (first.length = 0 ∧ jsLength (shortTitle title) > 10 ∧
        shortTitle title ≠ title) := by
      rintro ⟨hlen, h2, h3⟩
      exact h ⟨by rw [h1, List.length_eq_zero.mp hlen], h2, h3⟩
    simp only [hc, if_false]
    split <;> rfl

/-- C19: the shortened topic is the trimmed text of the title before the first
colon or hyphen (the whole title, trimmed, when it has neither), and in both
single-article flows a second search, with the shortened topic, is issued if and
only if the first search returned an empty list, the shortened topic is longer
than 10 characters and it differs from the title.  For `enhanceArticleById`: when
the condition holds, the search block goes on with the answer of the search for
the shortened topic, and the handler answers as in a world whose search gives
that answer; when it does not hold, the search block goes on with the answer of
the first search; the handler's answer depends on no other query.  For
`enhanceSingleArticle`: the queries, in order, are the title, then the shortened
topic exactly under the condition, then possibly the title followed by
" guide article" (which is never the shortened topic), and the search result is
computed from the answers to these queries alone. -/
theorem shortened_topic_retry (env : Env) (title : String) :
    (∃ before rest, title.data = before ++ rest ∧
        (∀ c ∈ before, c ≠ ':' ∧ c ≠ '-') ∧
        (rest = [] ∨ rest.head? = some ':' ∨ rest.head? = some '-') ∧
        shortTitle title = trim (String.mk before)) ∧
      ((∀ c ∈ title.data, c ≠ ':' ∧ c ≠ '-') → shortTitle title = trim title) ∧
      ((env.searchGoogle title = some [] ∧ jsLength (shortTitle title) > 10 ∧
          shortTitle title ≠ title) →
        searchStep env title = (env.searchGoogle (shortTitle title)).getD []) ∧
      (¬ (env.searchGoogle title = some [] ∧ jsLength (shortTitle title) > 10 ∧
          shortTitle title ≠ title) →
        searchStep env title = (env.searchGoogle title).getD []) ∧
      (∀ (store : Store) (id : String) (article : Article),
        findById env store id = some (some article) → article.title = title →
        (∀ search₂ : String → Option (List ReferenceArticle),
          search₂ title = env.searchGoogle title →
          ((env.searchGoogle title = some [] ∧ jsLength (shortTitle title) > 10 ∧
              shortTitle title ≠ title) →
            search₂ (shortTitle title) = env.searchGoogle (shortTitle title)) →
          enhanceArticleById { env with searchGoogle := search₂ } store id =
            enhanceArticleById env store id) ∧
        ((env.searchGoogle title = some [] ∧ jsLength (shortTitle title) > 10 ∧
            shortTitle title ≠ title) →
          enhanceArticleById env store id =
            enhanceArticleById
              { env with searchGoogle := fun _ => env.searchGoogle (shortTitle title) }
              store id)) ∧
      (∃ rest, (rest = [] ∨ rest = [title ++ " guide article"]) ∧
        (cliSearch env title).1 =
          (if env.searchGoogle title = some [] ∧ jsLength (shortTitle title) > 10 ∧
              shortTitle title ≠ title then [title, shortTitle title]
            else [title]) ++ rest) ∧
      ((env.searchGoogle title = some [] ∧ jsLength (shortTitle title) > 10 ∧
          shortTitle title ≠ title) →
        (cliSearch env title).2 =
          match env.searchGoogle (shortTitle title) with
          | none => none
          | some second =>
            if second.length = 0 then env.searchGoogle (title ++ " guide article")
            else some second) ∧
      (¬ (env.searchGoogle title = some [] ∧ jsLength (shortTitle title) > 10 ∧
          shortTitle title ≠ title) →
        (cliSearch env title).2 =
          match env.searchGoogle title with
          | none => none
          | some first =>
            if first.length = 0 then env.searchGoogle (title ++ " guide article")
            else some first) ∧
      shortTitle title ≠ title ++ " guide article" := by
  refine ⟨?_, ?_, searchStep_of_retry env title, searchStep_of_no_retry env title, ?_,
    cliSearch_queries env title, cliSearch_of_retry env title,
    cliSearch_of_no_retry env title, shortTitle_ne_guide title⟩
  · refine ⟨title.data.takeWhile (fun c => c != ':' && c != '-'),
      title.data.dropWhile (fun c => c != ':' && c != '-'),
      (List.takeWhile_append_dropWhile _ _).symm, ?_, ?_, ?_⟩
    · intro c hc
      have := List.mem_takeWhile_imp hc
      simpa using this
    · cases hd : title.data.dropWhile (fun c => c != ':' && c != '-') with
      | nil => exact Or.inl rfl
      | cons x xs =>
        right
        have hx := head_dropWhile_not (fun c => c != ':' && c != '-') title.data x
          (by rw [hd]; rfl)
        simp only [List.head?_cons, Option.some.injEq]
        by_cases h1 : x = ':'
        · exact Or.inl h1
        · by_cases h2 : x = '-'
          · exact Or.inr h2
          · simp [h1, h2] at hx
    · simp only [shortTitle, takeWhile_takeWhile_separators]
  · intro h
    simp only [shortTitle, takeWhile_takeWhile_separators]
    rw [List.takeWhile_eq_self_iff.mpr]
    intro c hc
    have := h c hc
    simp [this.1, this.2]
  · intro store id article hfind htitle
    subst htitle
    constructor
    · intro search₂ hfirst hsecond
      apply enhanceArticleById_search_congr env search₂ store id article hfind
      by_cases hc : env.searchGoogle article.title = some [] ∧
          jsLength (shortTitle article.title) > 10 ∧ shortTitle article.title ≠ article.title
      · rw [searchStep_of_retry env _ hc,
          searchStep_of_retry { env with searchGoogle := search₂ } _
            ⟨hfirst.trans hc.1, hc.2.1, hc.2.2⟩]
        exact congrArg (fun r => r.getD []) (hsecond hc)
      · rw [searchStep_of_no_retry env _ hc,
          searchStep_of_no_retry { env with searchGoogle := search₂ } _
            (fun hc₂ => hc ⟨hfirst.symm.trans hc₂.1, hc₂.2.1, hc₂.2.2⟩)]
        exact congrArg (fun r => r.getD []) hfirst
    · intro hc
      symm
      apply enhanceArticleById_search_congr env _ store id article hfind
      rw [searchStep_of_retry env _ hc]
      cases h2 : env.searchGoogle (shortTitle article.title) with
      | none =>
        unfold searchStep
        simp only [h2]
        rfl
      | some second =>
        cases second with
        | nil =>
          rw [searchStep_of_retry _ article.title ⟨rfl, hc.2.1, hc.2.2⟩]
        | cons r rs =>
          unfold searchStep
          simp only [h2]
          simp

/-- Witness of C19: a world in which only the shortened title finds results. -/
theorem shortened_topic_retry_witness :
    shortTitle "Chatbots for support: a guide" = "Chatbots for support" ∧
      shortTitleEnv.searchGoogle "Chatbots for support: a guide" = some [] ∧
      searchStep shortTitleEnv "Chatbots for support: a guide" = sampleReferences ∧
      searchStep emptySearchEnv "Intro to X" = [] :=
  ⟨by decide, by decide,
    ((shortened_topic_retry shortTitleEnv "Chatbots for support: a guide").2.2.1
      (by decide)).trans (by decide),
    ((shortened_topic_retry emptySearchEnv "Intro to X").2.2.2.1 (by decide)).trans
      (by decide)⟩

/-- C20, as the claim states it, fails: when every search attempt returns an empty
list, the command-line flow returns false, sends no prompt to the model and
publishes nothing. -/
theorem cli_empty_search_counterexample :
    (∀ q ∈ (enhanceSingleArticle emptySearchEnv [sampleArticle] sampleArticle).queries,
        emptySearchEnv.searchGoogle q = some []) ∧
      (enhanceSingleArticle emptySearchEnv [sampleArticle] sampleArticle).queries =
        ["Intro to X", "Intro to X guide article"] ∧
      (enhanceSingleArticle emptySearchEnv [sampleArticle] sampleArticle).success = false ∧
      (enhanceSingleArticle emptySearchEnv [sampleArticle] sampleArticle).prompts = [] ∧
      (enhanceSingleArticle emptySearchEnv [sampleArticle] sampleArticle).published = none ∧
      (enhanceSingleArticle emptySearchEnv [sampleArticle] sampleArticle).store =
        [sampleArticle] := by
  decide

theorem cliSearch_of_empty (env : Env) (title : String)
    (h1 : env.searchGoogle title = some [])
    (h2 : env.searchGoogle (shortTitle title) = some [])
    (h3 : env.searchGoogle (title ++ " guide article") = some []) :
    (cliSearch env title).2 = some [] := by
  unfold cliSearch
  rw [h1]
  by_cases hc : jsLength (shortTitle title) > 10 ∧ shortTitle title ≠ title
  · simp [hc, h2, h3]
  · simp only [List.length_nil, true_and, hc, if_false]
    simp [h3]

/-- C20 amended: in the command-line flow, when every search attempt (the title,
the shortened title, the title followed by " guide article") returns an empty list,
the article is skipped: `enhanceSingleArticle` returns false, sends no prompt to the
model, publishes nothing and leaves the store as it is.  The rewrite without
references is used in this flow when the search found candidates and no extract
with content was collected; its cleaned output is then what is published. -/
theorem cli_skips_without_results (env : Env) (store : Store) (article : Article)
    (h1 : env.searchGoogle article.title = some [])
    (h2 : env.searchGoogle (shortTitle article.title) = some [])
    (h3 : env.searchGoogle (article.title ++ " guide article") = some []) :
    ((enhanceSingleArticle env store article).success = false ∧
      (enhanceSingleArticle env store article).prompts = [] ∧
      (enhanceSingleArticle env store article).published = none ∧
      (enhanceSingleArticle env store article).store = store) ∧
    (∀ (env₂ : Env) (searchResults : List ReferenceArticle) (text : String),
      (cliSearch env₂ article.title).2 = some searchResults → searchResults ≠ [] →
      cliScrape env₂ searchResults = some [] → env₂.geminiApiKey = true →
      env₂.generateContent
        (Prompt.withoutReferences (rewriteSource article) article.title) = some text →
      (enhanceSingleArticle env₂ store article).prompts =
          [Prompt.withoutReferences (rewriteSource article) article.title] ∧
        (enhanceSingleArticle env₂ store article).published =
          some ⟨some (cleanModelResponse text), some []⟩) := by
  constructor
  · have hs := cliSearch_of_empty env article.title h1 h2 h3
    unfold enhanceSingleArticle
    cases hcs : cliSearch env article.title with
    | mk queries results =>
      rw [hcs] at hs
      simp only at hs
      subst hs
      simp
  · intro env₂ searchResults text hsr hne hscrape hkey hgen
    have hlen : ¬ searchResults.length = 0 := fun h => hne (List.length_eq_zero.mp h)
    have henh : enhanceStep env₂ article searchResults [] =
        some (cleanModelResponse text) := by
      rw [enhanceStep_without_references]
      simp [enhanceArticleWithoutReferences, hkey, hgen]
    unfold enhanceSingleArticle
    cases hcs : cliSearch env₂ article.title with
    | mk queries results =>
      rw [hcs] at hsr
      simp only at hsr
      subst hsr
      simp only [hlen, if_false, hscrape, henh, hkey, if_true]
      simp [rewritePrompt]

/-- Witness of the amended C20: the sample article with a search that finds
nothing, and with a search that finds two pages without content. -/
theorem cli_skips_without_results_witness :
    (enhanceSingleArticle emptySearchEnv [sampleArticle] sampleArticle).success = false ∧
      (enhanceSingleArticle emptyScrapeEnv [sampleArticle] sampleArticle).published =
        some ⟨some "<h2>X</h2><p>Better text about X.</p>", some []⟩ :=
  have h := cli_skips_without_results emptySearchEnv [sampleArticle] sampleArticle
    (by decide) (by decide) (by decide)
  ⟨h.1.1,
    (h.2 emptyScrapeEnv sampleReferences "```html\n<h2>X</h2><p>Better text about X.</p>\n```"
      (by decide) (by decide) (by decide) (by decide) (by decide)).2⟩

/-! ## The article-link filter -/

theorem isArticleLink_of_rejected (url : String) (h : isRejected url = true) :
    isArticleLink (some url) = false := by
  unfold isRejected at h
  unfold isArticleLink
  simp only [h, if_true]
  split <;> rfl

theorem rejectedLiterals_excluded :
    ∀ literal ∈ rejectedLiterals, UrlPattern.containing literal ∈ excludePatterns := by
  decide

theorem isRejected_of_pattern (url : String) (pattern : UrlPattern)
    (hp : pattern ∈ excludePatterns) (ht : pattern.test url = true) : isRejected url = true := by
  unfold isRejected
  rw [List.any_eq_true]
  exact ⟨pattern, hp, ht⟩

/-- C21: rejection takes precedence in `isArticleLink`.  A url that contains one of
the listed character sequences anywhere, or that ends case-insensitively in `.pdf`,
`.doc` or `.docx`, is rejected, whatever accept pattern it also matches; so is an
empty or a missing url. -/
theorem rejection_takes_precedence (url : String)
    (h : (∃ literal ∈ rejectedLiterals, includes url literal = true) ∨
      endsWithIgnoringCase url ".pdf" = true ∨ endsWithIgnoringCase url ".doc" = true ∨
      endsWithIgnoringCase url ".docx" = true) :
    isArticleLink (some url) = false ∧ isArticleLink (some "") = false ∧
      isArticleLink none = false := by
  refine ⟨isArticleLink_of_rejected url ?_, rfl, rfl⟩
  rcases h with ⟨literal, hl, hi⟩ | h | h | h
  · exact isRejected_of_pattern url (.containing literal)
      (rejectedLiterals_excluded literal hl) hi
  · refine isRejected_of_pattern url (.endingIgnoreCase [".pdf"]) (by decide) ?_
    simp only [UrlPattern.test, List.any_cons, List.any_nil, Bool.or_false]
    exact h
  · refine isRejected_of_pattern url (.endingIgnoreCase [".doc", ".docx"]) (by decide) ?_
    simp only [UrlPattern.test, List.any_cons, List.any_nil, Bool.or_false]
    unfold endsWithIgnoringCase at h
    rw [h]
    rfl
  · refine isRejected_of_pattern url (.endingIgnoreCase [".doc", ".docx"]) (by decide) ?_
    simp only [UrlPattern.test, List.any_cons, List.any_nil, Bool.or_false]
    unfold endsWithIgnoringCase at h
    rw [h]
    exact Bool.or_true _

/-- Witness of C21: a video url under `/blog/`, and a document on a curated
publishing domain. -/
theorem rejection_takes_precedence_witness :
    includePatterns.any (fun pattern => pattern.test "https://www.youtube.com/blog/post-1")
        = true ∧
      isArticleLink (some "https://www.youtube.com/blog/post-1") = false ∧
      isArticleLink (some "https://medium.com/files/report.PDF") = false :=
  ⟨by decide,
    (rejection_takes_precedence "https://www.youtube.com/blog/post-1"
      (Or.inl ⟨"youtube.com", by decide, by decide⟩)).1,
    (rejection_takes_precedence "https://medium.com/files/report.PDF"
      (Or.inr (Or.inl (by decide)))).1⟩

/-- C22, what the code does: a government url without anything after the host and an
education url with a path are accepted; only urls that contain `.gov/` or end in
`.edu/` are rejected. -/
theorem gov_edu_urls_accepted :
    isArticleLink (some "https://www.whitehouse.gov") = true ∧
      isArticleLink (some "https://www.stanford.edu/research/overview") = true ∧
      isArticleLink (some "https://www.whitehouse.gov/briefing-room/") = false ∧
      isArticleLink (some "https://www.stanford.edu/") = false := by
  decide

theorem includePatterns_any (url : String) :
    includePatterns.any (fun pattern => pattern.test url) = matchesAcceptPattern url := by
  simp only [includePatterns, matchesAcceptPattern, articlePathLiterals, curatedDomains,
    List.any_cons, List.any_nil, List.cons_append, List.nil_append, UrlPattern.test,
    hasDateSegment, Bool.or_false]
  generalize url.data.tails.any datePathAtHead = d
  cases d <;> simp

theorem downloadPattern_test (url : String) :
    downloadPattern.test url =
      (downloadExtensions.map fun extension => "." ++ extension).any
        fun ending => endsWithIgnoringCase url ending := by
  rfl

/-- C23, as the claim states it, fails: the url below matches no rejection pattern
and no accept pattern, starts with `https://`, has 30 characters and ends in `zip`
(not in `.zip`); it is accepted. -/
theorem default_accept_counterexample :
    isRejected "https://example.org/tips/unzip" = false ∧
      isArticleLink (some "https://example.org/tips/unzip") = true ∧
      endsWithIgnoringCase "https://example.org/tips/unzip" "zip" = true ∧
      ¬ (isArticleLink (some "https://example.org/tips/unzip") = true ↔
        (matchesAcceptPattern "https://example.org/tips/unzip" = true ∨
          defaultAccepted downloadExtensions "https://example.org/tips/unzip" = true)) := by
  decide

/-- C23 amended: for every url string that matches none of the rejection patterns,
`isArticleLink` returns true if and only if either the url contains a known article
path pattern or a curated publishing domain, regardless of its scheme, length or
file extension, or else the url starts with `http://` or `https://`, is at least 20
characters long and does not end case-insensitively in one of the extensions with
its dot: `.jpg`, `.jpeg`, `.png`, `.gif`, `.svg`, `.ico`, `.zip`, `.rar`, `.exe`,
`.dmg`. -/
theorem default_accept_iff (url : String) (h : isRejected url = false) :
    isArticleLink (some url) = true ↔
      (matchesAcceptPattern url = true ∨
        defaultAccepted (downloadExtensions.map fun extension => "." ++ extension) url
          = true) := by
  unfold isRejected at h
  by_cases hempty : url = ""
  · subst hempty
    decide
  · unfold isArticleLink
    simp only [hempty, if_false, h, Bool.false_eq_true, includePatterns_any]
    by_cases hacc : matchesAcceptPattern url = true
    · simp [hacc]
    · simp only [hacc, if_false, false_or, Bool.false_eq_true]
      unfold defaultAccepted
      rw [← downloadPattern_test]
      by_cases hhttp : (startsWith url "http://" || startsWith url "https://") = true
      · rw [if_pos hhttp, hhttp]
        by_cases hlen : jsLength url < 20
        · have : ¬ jsLength url ≥ 20 := by omega
          simp [hlen, this]
        · have : jsLength url ≥ 20 := by omega
          simp only [hlen, if_false, this, decide_True, Bool.true_and]
          cases downloadPattern.test url <;> simp
      · rw [if_neg hhttp]
        simp only [Bool.not_eq_true] at hhttp
        rw [hhttp]
        simp

/-- Witness of the amended C23: a url that ends in `zip` without the dot is
accepted by default. -/
theorem default_accept_iff_witness :
    isArticleLink (some "https://example.org/tips/unzip") = true :=
  (default_accept_iff "https://example.org/tips/unzip" (by decide)).mpr
    (Or.inr (by decide))

/-! ## The batch flow -/

theorem processEnhancements_attempted (env : Env) (articles : List Article) (run : BatchRun) :
    (articles.foldl
      (fun run article =>
        let outcome := enhanceArticleById env run.store article.id
        ({ store := outcome.store, attempted := run.attempted ++ [article.id],
           answers := run.answers ++ [outcome.response] } : BatchRun))
      run).attempted = run.attempted ++ articles.map fun a => a.id := by
  induction articles generalizing run with
  | nil => simp
  | cons a rest ih =>
    rw [List.foldl_cons, ih]
    simp

theorem findUnenhanced_sublist (store : Store) : List.Sublist (findUnenhanced store) store :=
  (List.take_sublist _ _).trans (List.filter_sublist _)

/-- A loop that adds one id and one answer per article may be started from the
store alone: what was recorded before stays in front. -/
theorem foldl_batch_shift (step : BatchRun → Article → BatchRun)
    (next : Store → Article → Store) (answer : Store → Article → Response)
    (hs : ∀ run article, step run article =
      { store := next run.store article, attempted := run.attempted ++ [article.id],
        answers := run.answers ++ [answer run.store article] })
    (articles : List Article) (run : BatchRun) :
    articles.foldl step run =
      { store := (articles.foldl step
          { store := run.store, attempted := [], answers := [] }).store
        attempted := run.attempted ++ (articles.foldl step
          { store := run.store, attempted := [], answers := [] }).attempted
        answers := run.answers ++ (articles.foldl step
          { store := run.store, attempted := [], answers := [] }).answers } := by
  induction articles generalizing run with
  | nil => simp
  | cons a rest ih =>
    simp only [List.foldl_cons]
    rw [ih (step run a), ih (step { store := run.store, attempted := [], answers := [] } a)]
    simp only [hs, List.nil_append, List.append_assoc]

/-- The loop of `processEnhancements`, one article at a time: the first article is
posted to `enhanceArticleById` on the store as it is, and the other articles are
handled on the store that call leaves, whatever it answered. -/
theorem processEnhancements_cons (env : Env) (store : Store) (article : Article)
    (rest : List Article) :
    processEnhancements env store (article :: rest) =
      { store :=
          (processEnhancements env (enhanceArticleById env store article.id).store rest).store
        attempted := article.id ::
          (processEnhancements env (enhanceArticleById env store article.id).store
            rest).attempted
        answers := (enhanceArticleById env store article.id).response ::
          (processEnhancements env (enhanceArticleById env store article.id).store
            rest).answers } := by
  have key := foldl_batch_shift
    (fun run article =>
      let outcome := enhanceArticleById env run.store article.id
      ({ store := outcome.store, attempted := run.attempted ++ [article.id],
         answers := run.answers ++ [outcome.response] } : BatchRun))
    (fun current article => (enhanceArticleById env current article.id).store)
    (fun current article => (enhanceArticleById env current article.id).response)
    (fun _ _ => rfl) rest
    { store := (enhanceArticleById env store article.id).store, attempted := [article.id],
      answers := [(enhanceArticleById env store article.id).response] }
  unfold processEnhancements
  rw [List.foldl_cons]
  exact key

/-- One answer per article. -/
theorem processEnhancements_answers_length (env : Env) (articles : List Article)
    (store : Store) :
    (processEnhancements env store articles).answers.length = articles.length := by
  induction articles generalizing store with
  | nil => rfl
  | cons a rest ih =>
    rw [processEnhancements_cons]
    simp [ih]

/-- The background run of `enhanceAllArticles` is `processEnhancements` on the
selection. -/
theorem enhanceAllArticles_run (env : Env) (store : Store) :
    (enhanceAllArticles env store).2 =
      processEnhancements env store (findUnenhanced store) := by
  unfold enhanceAllArticles
  simp only
  by_cases h : (findUnenhanced store).length = 0
  · rw [if_pos h, List.length_eq_zero.mp h]
    rfl
  · rw [if_neg h]

/-- The ids posted by the background run are those of the selection, in order. -/
theorem enhanceAllArticles_attempted (env : Env) (store : Store) :
    (enhanceAllArticles env store).2.attempted =
      (findUnenhanced store).map (fun a => a.id) := by
  rw [enhanceAllArticles_run]
  unfold processEnhancements
  rw [processEnhancements_attempted]
  simp

/-- C24: for every store, `enhanceAllArticles` selects min(10, number of articles
with isUpdated false) articles, all with isUpdated false, reports their number as
count (0, with nothing started, when there is none), and the background run is
`processEnhancements` on the selection: it handles the selected articles one
after the other in selection order, each by one call of `enhanceArticleById` on
the store that the calls before it left, records the answer and goes on with the
next article whatever that answer is; so there is one attempt and one answer per
selected article. -/
theorem batch_selection_and_attempts (env : Env) (store : Store) :
    (findUnenhanced store).length =
        min 10 (store.filter fun article => !article.isUpdated).length ∧
      (∀ a ∈ findUnenhanced store, a.isUpdated = false) ∧
      (enhanceAllArticles env store).1.count = (findUnenhanced store).length ∧
      (findUnenhanced store = [] →
        (enhanceAllArticles env store).1.processing = false ∧
        (enhanceAllArticles env store).2.attempted = [] ∧
        (enhanceAllArticles env store).2.answers = [] ∧
        (enhanceAllArticles env store).2.store = store) ∧
      (enhanceAllArticles env store).2 = processEnhancements env store (findUnenhanced store) ∧
      (∀ (current : Store) (article : Article) (rest : List Article),
        processEnhancements env current [] =
            { store := current, attempted := [], answers := [] } ∧
          processEnhancements env current (article :: rest) =
            { store := (processEnhancements env
                (enhanceArticleById env current article.id).store rest).store
              attempted := article.id :: (processEnhancements env
                (enhanceArticleById env current article.id).store rest).attempted
              answers := (enhanceArticleById env current article.id).response ::
                (processEnhancements env
                  (enhanceArticleById env current article.id).store rest).answers }) ∧
      (enhanceAllArticles env store).2.attempted = (findUnenhanced store).map (fun a => a.id) ∧
      (enhanceAllArticles env store).2.answers.length = (findUnenhanced store).length ∧
      ((store.map fun a => a.id).Nodup → (enhanceAllArticles env store).2.attempted.Nodup) := by
  have hrun := enhanceAllArticles_run env store
  have hatt := enhanceAllArticles_attempted env store
  refine ⟨?_, ?_, ?_, ?_, hrun, ?_, hatt, ?_, ?_⟩
  · simp [findUnenhanced, List.length_take]
  · intro a ha
    have := (List.mem_filter.mp (List.mem_of_mem_take ha)).2
    simpa using this
  · unfold enhanceAllArticles
    simp only
    by_cases h : (findUnenhanced store).length = 0
    · rw [if_pos h, h]
    · rw [if_neg h]
  · intro h
    unfold enhanceAllArticles
    simp [h]
  · intro current article rest
    exact ⟨rfl, processEnhancements_cons env current article rest⟩
  · rw [hrun]
    exact processEnhancements_answers_length env _ store
  · intro hnodup
    rw [hatt]
    exact hnodup.sublist ((findUnenhanced_sublist store).map _)

/-- Witness of C24: of eleven unenhanced articles ten are selected and attempted
in store order, each attempt failing at the model call; a single article in a
world where every call succeeds is enhanced by the run. -/
theorem batch_selection_and_attempts_witness :
    (enhanceAllArticles failingModelEnv elevenArticles).1.count = 10 ∧
      (enhanceAllArticles failingModelEnv elevenArticles).2.attempted =
        ["a0", "a1", "a2", "a3", "a4", "a5", "a6", "a7", "a8", "a9"] ∧
      (enhanceAllArticles failingModelEnv elevenArticles).2.attempted.Nodup ∧
      (enhanceAllArticles failingModelEnv elevenArticles).2.answers.map (fun r => r.status) =
        [500, 500, 500, 500, 500, 500, 500, 500, 500, 500] ∧
      (enhanceAllArticles sampleEnv [sampleArticle]).2.answers.map (fun r => r.status) =
        [200] ∧
      (enhanceAllArticles sampleEnv [sampleArticle]).2.store.map (fun a => a.isUpdated) =
        [true] :=
  have h := batch_selection_and_attempts failingModelEnv elevenArticles
  have h₂ := batch_selection_and_attempts sampleEnv [sampleArticle]
  ⟨h.2.2.1.trans (by decide), h.2.2.2.2.2.2.1.trans (by decide),
    h.2.2.2.2.2.2.2.2 (by decide),
    (congrArg (fun run => run.answers.map fun r => r.status) h.2.2.2.2.1).trans (by decide),
    (congrArg (fun run => run.answers.map fun r => r.status) h₂.2.2.2.2.1).trans (by decide),
    (congrArg (fun run => run.store.map fun a => a.isUpdated) h₂.2.2.2.2.1).trans
      (by decide)⟩

/-- C25, as the claim states it, fails: of the eleven unenhanced articles of
`elevenArticles` the batch leaves out the oldest one, `a10`, takes ten newer ones,
and handles them newest first. -/
theorem batch_order_counterexample :
    (elevenArticles.filter fun article => !article.isUpdated).length = 11 ∧
      (findUnenhanced elevenArticles).map (fun a => (a.id, a.publishedDate)) =
        [("a0", 100), ("a1", 99), ("a2", 98), ("a3", 97), ("a4", 96), ("a5", 95),
         ("a6", 94), ("a7", 93), ("a8", 92), ("a9", 91)] ∧
      ¬ (∀ a ∈ findUnenhanced elevenArticles, ∀ b ∈ elevenArticles,
          b.isUpdated = false → b ∉ findUnenhanced elevenArticles →
          a.publishedDate ≤ b.publishedDate) ∧
      ¬ ((findUnenhanced elevenArticles).map fun a => a.publishedDate).Pairwise (· ≤ ·) := by
  decide

/-- C25 amended: for every store holding more than ten unenhanced articles, the
batch consists of the first ten unenhanced articles in the order of the store (the
query sorts by nothing, publication dates play no part), and they are processed in
that order. -/
theorem batch_is_first_ten (env : Env) (store : Store)
    (h : (store.filter fun article => !article.isUpdated).length > 10) :
    (findUnenhanced store).length = 10 ∧
      (∃ rest, (store.filter fun article => !article.isUpdated) =
        findUnenhanced store ++ rest) ∧
      (enhanceAllArticles env store).2.attempted =
        (findUnenhanced store).map (fun a => a.id) ∧
      ∀ publishedDate : Article → Nat,
        findUnenhanced (store.map fun a => { a with publishedDate := publishedDate a }) =
          (findUnenhanced store).map fun a => { a with publishedDate := publishedDate a } := by
  refine ⟨?_, ⟨_, (List.take_append_drop 10 _).symm⟩,
    enhanceAllArticles_attempted env store, ?_⟩
  · simp only [findUnenhanced, List.length_take]
    omega
  · intro publishedDate
    simp only [findUnenhanced, List.filter_map, List.map_take]
    rfl

/-- Witness of the amended C25: the eleven sample articles. -/
theorem batch_is_first_ten_witness :
    (findUnenhanced elevenArticles).length = 10 ∧
      (enhanceAllArticles failingModelEnv elevenArticles).2.attempted =
        (findUnenhanced elevenArticles).map (fun a => a.id) :=
  have h := batch_is_first_ten failingModelEnv elevenArticles (by decide)
  ⟨h.1, h.2.2.1⟩

/-! ## Early failures, reference bookkeeping and the rewrite input -/

theorem findById_congr (env env₂ : Env) (h : env₂.castObjectId = env.castObjectId)
    (store : Store) (id : String) : findById env₂ store id = findById env store id := by
  unfold findById
  rw [h]

/-- C26: when the lookup of the id finds no article, `enhanceArticleById` answers
404 `Article not found`; when it finds one and no credential of the generative
service is configured, it answers 500 `GEMINI_API_KEY is not configured`.  In both
cases the store is unchanged and neither the search, nor the extraction, nor the
model, nor the store's write is consulted: the outcome is the same in every world
with the same lookup and the same credential setting.  (A lookup that throws,
because the id cannot be cast, is answered 500 by the outer catch, the store
unchanged as well.) -/
theorem early_failure_no_effects (env : Env) (store : Store) (id : String) :
    (findById env store id = some none →
      enhanceArticleById env store id = ⟨errorResponse 404 "Article not found", store⟩) ∧
    (∀ article, findById env store id = some (some article) → env.geminiApiKey = false →
      enhanceArticleById env store id =
        ⟨errorResponse 500 "GEMINI_API_KEY is not configured", store⟩) ∧
    (findById env store id = none →
      enhanceArticleById env store id = ⟨errorResponse 500 "Error enhancing article", store⟩) ∧
    (∀ env₂ : Env, env₂.castObjectId = env.castObjectId →
      env₂.geminiApiKey = env.geminiApiKey →
      (findById env store id = some none ∨ findById env store id = none ∨
        ∃ article, findById env store id = some (some article) ∧ env.geminiApiKey = false) →
      enhanceArticleById env₂ store id = enhanceArticleById env store id) := by
  have h1 : findById env store id = some none →
      enhanceArticleById env store id = ⟨errorResponse 404 "Article not found", store⟩ := by
    intro h
    unfold enhanceArticleById
    rw [h]
  have h2 : ∀ (e : Env) article, findById e store id = some (some article) →
      e.geminiApiKey = false →
      enhanceArticleById e store id =
        ⟨errorResponse 500 "GEMINI_API_KEY is not configured", store⟩ := by
    intro e article h hkey
    unfold enhanceArticleById
    rw [h]
    simp only [hkey, if_true]
  have h3 : ∀ e : Env, findById e store id = none →
      enhanceArticleById e store id = ⟨errorResponse 500 "Error enhancing article", store⟩ := by
    intro e h
    unfold enhanceArticleById
    rw [h]
  refine ⟨h1, h2 env, h3 env, ?_⟩
  intro env₂ hcast hkey hearly
  have hf := findById_congr env env₂ hcast store id
  rcases hearly with h | h | ⟨article, h, hk⟩
  · rw [h1 h]
    unfold enhanceArticleById
    rw [hf, h]
  · rw [h3 env h, h3 env₂ (hf.trans h)]
  · rw [h2 env article h hk, h2 env₂ article (hf.trans h) (hkey.trans hk)]

/-- Witness of C26: an unknown id, and the sample article without credential. -/
theorem early_failure_no_effects_witness :
    enhanceArticleById sampleEnv [sampleArticle] "zz" =
        ⟨errorResponse 404 "Article not found", [sampleArticle]⟩ ∧
      enhanceArticleById { sampleEnv with geminiApiKey := false } [sampleArticle] "a1" =
        ⟨errorResponse 500 "GEMINI_API_KEY is not configured", [sampleArticle]⟩ ∧
      enhanceArticleById { failingModelEnv with searchGoogle := fun _ => none } [sampleArticle]
        "zz" = enhanceArticleById sampleEnv [sampleArticle] "zz" :=
  have h := early_failure_no_effects sampleEnv [sampleArticle] "zz"
  ⟨h.1 (by decide),
    (early_failure_no_effects { sampleEnv with geminiApiKey := false } [sampleArticle]
      "a1").2.1 sampleArticle (by decide) rfl,
    h.2.2.2 { failingModelEnv with searchGoogle := fun _ => none } rfl rfl
      (Or.inl (by decide))⟩

/-- C29, what the code does: for an enhanced article that holds a reference from
an earlier run, a run in which the search finds candidates and no page gives
content ends in success and leaves the article without references. -/
theorem references_cleared_without_extracts :
    scrapeStep emptyScrapeEnv (searchStep emptyScrapeEnv enhancedSample.title) = [] ∧
      (enhanceArticleById emptyScrapeEnv [enhancedSample] "a1").response.success = true ∧
      enhancedSample.referenceArticles =
        [⟨"https://old.example/blog/x", "Earlier reference"⟩] ∧
      (enhanceArticleById emptyScrapeEnv [enhancedSample] "a1").store.map
        (fun a => a.referenceArticles) = [[]] := by
  decide

theorem rewriteSource_congr (a b : Article) (ho : a.originalContent = b.originalContent)
    (hne : a.originalContent ≠ "") : rewriteSource a = rewriteSource b := by
  unfold rewriteSource
  rw [if_neg hne, if_neg (ho ▸ hne), ho]

theorem enhanceStep_congr (env : Env) (a b : Article) (sr : List ReferenceArticle)
    (rc : List ReferenceContent) (hs : rewriteSource a = rewriteSource b)
    (ht : a.title = b.title) : enhanceStep env a sr rc = enhanceStep env b sr rc := by
  unfold enhanceStep
  rw [hs, ht]

/-- Step 3 as a function of the model's answer: with a credential, the rewrite is
the model's answer to one prompt, cleaned, with the citations added when extracts
were collected. -/
theorem enhanceStep_eq (env : Env) (article : Article) (sr : List ReferenceArticle)
    (rc : List ReferenceContent) (hkey : env.geminiApiKey = true) :
    enhanceStep env article sr rc =
      if rc.length > 0 then
        (env.generateContent
          (Prompt.withReferences (rewriteSource article) rc article.title)).map
            fun text => addCitations (cleanModelResponse text) (some (sr.take rc.length))
      else
        (env.generateContent
          (Prompt.withoutReferences (rewriteSource article) article.title)).map
            cleanModelResponse := by
  unfold enhanceStep enhanceArticle enhanceArticleWithoutReferences
  simp only [hkey, if_true]
  by_cases h : rc.length > 0
  · simp only [h, if_true]
    cases env.generateContent (Prompt.withReferences (rewriteSource article) rc article.title)
      <;> rfl
  · simp only [h, if_false]
    cases env.generateContent (Prompt.withoutReferences (rewriteSource article) article.title)
      <;> rfl

/-- The document handed to `save()` does not depend on the current content of an
article that has an original. -/
theorem enhancedDocument_content_congr (env : Env) (article : Article) (content : String)
    (sr : List ReferenceArticle) (rc : List ReferenceContent) (enhancedContent : String)
    (h : article.originalContent ≠ "") :
    enhancedDocument env { article with content := content } sr rc enhancedContent =
      enhancedDocument env article sr rc enhancedContent := by
  unfold enhancedDocument preserveOriginal
  simp only [h, false_and, if_false]

/-- C30: the text sent for rewriting is `originalContent` whenever that is
non-empty, and the current content only when it is empty.
(1), (2) Step 3 of both single-article flows, `enhanceStep`, returns what the model
answers to the prompt built from `originalContent` (from the current content when
`originalContent` is empty), cleaned, with the citations when extracts were
collected.
(3) Replacing the current content of an article with non-empty `originalContent`
changes neither the result of step 3, nor the answer of `enhanceArticleById`, nor
the run of `enhanceSingleArticle`.
(4) `enhanceArticleById` answers with the model error exactly when the model
throws on the prompt built from `originalContent`. -/
theorem rewrite_input_is_original (env : Env) (article : Article) :
    (article.originalContent ≠ "" → env.geminiApiKey = true →
      (∀ sr, enhanceStep env article sr [] =
        (env.generateContent
          (Prompt.withoutReferences article.originalContent article.title)).map
            cleanModelResponse) ∧
      (∀ sr rc, rc ≠ [] → enhanceStep env article sr rc =
        (env.generateContent
          (Prompt.withReferences article.originalContent rc article.title)).map
            fun text => addCitations (cleanModelResponse text) (some (sr.take rc.length)))) ∧
    (article.originalContent = "" → env.geminiApiKey = true →
      (∀ sr, enhanceStep env article sr [] =
        (env.generateContent
          (Prompt.withoutReferences article.content article.title)).map
            cleanModelResponse) ∧
      (∀ sr rc, rc ≠ [] → enhanceStep env article sr rc =
        (env.generateContent
          (Prompt.withReferences article.content rc article.title)).map
            fun text => addCitations (cleanModelResponse text) (some (sr.take rc.length)))) ∧
    (∀ content : String, article.originalContent ≠ "" →
      (∀ sr rc, enhanceStep env { article with content := content } sr rc =
        enhanceStep env article sr rc) ∧
      (∀ (store store₂ : Store) (id : String),
        findById env store id = some (some article) →
        findById env store₂ id = some (some { article with content := content }) →
        (enhanceArticleById env store₂ id).response =
          (enhanceArticleById env store id).response) ∧
      (∀ store, enhanceSingleArticle env store { article with content := content } =
        enhanceSingleArticle env store article)) ∧
    (∀ (store : Store) (id : String), findById env store id = some (some article) →
      env.geminiApiKey = true → article.originalContent ≠ "" →
      ((enhanceArticleById env store id).response =
          errorResponse 500 "Error enhancing article with Gemini API" ↔
        env.generateContent
          (if (scrapeStep env (searchStep env article.title)).length > 0 then
            Prompt.withReferences article.originalContent
              (scrapeStep env (searchStep env article.title)) article.title
          else Prompt.withoutReferences article.originalContent article.title) = none)) := by
  have hsrc : article.originalContent ≠ "" → rewriteSource article = article.originalContent :=
    fun h => by unfold rewriteSource; rw [if_neg h]
  have hcur : article.originalContent = "" → rewriteSource article = article.content :=
    fun h => by unfold rewriteSource; rw [if_pos h]
  have hsteps : ∀ source, rewriteSource article = source → env.geminiApiKey = true →
      (∀ sr, enhanceStep env article sr [] =
        (env.generateContent (Prompt.withoutReferences source article.title)).map
          cleanModelResponse) ∧
      (∀ sr rc, rc ≠ [] → enhanceStep env article sr rc =
        (env.generateContent (Prompt.withReferences source rc article.title)).map
          fun text => addCitations (cleanModelResponse text) (some (sr.take rc.length))) := by
    intro source hs hkey
    constructor
    · intro sr
      rw [enhanceStep_eq env article sr [] hkey, hs]
      rfl
    · intro sr rc hne
      have hlen : rc.length > 0 := List.length_pos.mpr hne
      rw [enhanceStep_eq env article sr rc hkey, hs, if_pos hlen]
  refine ⟨fun h => hsteps _ (hsrc h), fun h => hsteps _ (hcur h), ?_, ?_⟩
  · intro content hne
    have hs : rewriteSource { article with content := content } = rewriteSource article :=
      rewriteSource_congr _ _ rfl hne
    have hstep : ∀ sr rc, enhanceStep env { article with content := content } sr rc =
        enhanceStep env article sr rc :=
      fun sr rc => enhanceStep_congr env _ article sr rc hs rfl
    refine ⟨hstep, ?_, ?_⟩
    · intro store store₂ id h1 h2
      unfold enhanceArticleById
      rw [h1, h2]
      by_cases hkey : env.geminiApiKey = false
      · simp only [hkey, if_true]
      · have hk : env.geminiApiKey = true := by simpa using hkey
        simp only [hk, Bool.true_eq_false, if_false, hstep]
        cases enhanceStep env article (searchStep env article.title)
            (scrapeStep env (searchStep env article.title)) with
        | none => rfl
        | some enhancedContent =>
          simp only [enhancedDocument_content_congr env article content _ _ _ hne,
            saveDocument]
          by_cases hacc : env.storeAccepts (enhancedDocument env article
              (searchStep env article.title) (scrapeStep env (searchStep env article.title))
              enhancedContent) = true
          · simp only [hacc, if_true]
          · simp only [hacc, Bool.false_eq_true, if_false]
    · intro store
      unfold enhanceSingleArticle
      simp only [hstep, rewritePrompt, hs]
  · intro store id hfind hkey hne
    have hstep := enhanceStep_eq env article (searchStep env article.title)
      (scrapeStep env (searchStep env article.title)) hkey
    rw [hsrc hne] at hstep
    constructor
    · intro hresp
      cases henh : enhanceStep env article (searchStep env article.title)
          (scrapeStep env (searchStep env article.title)) with
      | none =>
        rw [henh] at hstep
        by_cases hlen : (scrapeStep env (searchStep env article.title)).length > 0
        · simp only [hlen, if_true] at hstep ⊢
          exact Option.map_eq_none'.mp hstep.symm
        · simp only [hlen, if_false] at hstep ⊢
          exact Option.map_eq_none'.mp hstep.symm
      | some enhancedContent =>
        exfalso
        rw [enhanceArticleById_of_enhanced env store id article enhancedContent hfind hkey
          henh] at hresp
        split at hresp
        · have hstatus : (200 : Nat) = 500 := congrArg Response.status hresp
          exact absurd hstatus (by decide)
        · have hmessage : "Error enhancing article" =
              "Error enhancing article with Gemini API" := congrArg Response.message hresp
          exact absurd hmessage (by decide)
    · intro hgen
      have henh : enhanceStep env article (searchStep env article.title)
          (scrapeStep env (searchStep env article.title)) = none := by
        rw [hstep]
        by_cases hlen : (scrapeStep env (searchStep env article.title)).length > 0
        · simp only [hlen, if_true] at hgen ⊢
          rw [hgen]
          rfl
        · simp only [hlen, if_false] at hgen ⊢
          rw [hgen]
          rfl
      unfold enhanceArticleById
      simp only [hfind, hkey, Bool.true_eq_false, if_false, henh]

/-- Witness of C30: the enhanced sample, whose current content is an earlier
rewrite, in a world whose model answers only a prompt built from the original
text: the handler succeeds and stores the model's answer with the citations. -/
theorem rewrite_input_is_original_witness :
    enhancedSample.content = "<p>Earlier rewrite.</p>" ∧
      enhancedSample.originalContent = "Plain text about X." ∧
      enhanceStep originalOnlyEnv enhancedSample [] [] =
        some "<p>Rewritten from the original.</p>" ∧
      (enhanceArticleById originalOnlyEnv [enhancedSample] "a1").response.status = 200 ∧
      (enhanceSingleArticle originalOnlyEnv [enhancedSample]
          { enhancedSample with content := "<p>Another rewrite.</p>" }).success = true :=
  have h := rewrite_input_is_original originalOnlyEnv enhancedSample
  ⟨rfl, rfl, ((h.1 (by decide) rfl).1 []).trans (by decide), by decide,
    (congrArg CliRun.success
      ((h.2.2.1 "<p>Another rewrite.</p>" (by decide)).2.2 [enhancedSample])).trans
      (by decide)⟩

/-! ## Content extraction -/

/-- The tag names of `paragraphs` are the tag names of the selected elements with
a long enough text, in document order. -/
theorem paragraphs_tags (selector : List String) (elements : List Dom) :
    ((((elements.filter fun el => decide (el.tag ∈ selector)).map
        fun el => (el.tag, trim el.textContent)).filter
          fun item => decide (jsLength item.2 > 20)).map fun item => item.1) =
      (elements.filter fun el =>
        decide (el.tag ∈ selector) && decide (jsLength (trim el.textContent) > 20)).map
          Dom.tag := by
  rw [List.filter_map, List.filter_filter, List.map_map]
  have hf : ((fun item : String × String => item.1) ∘
      fun el : Dom => (el.tag, trim el.textContent)) = Dom.tag := rfl
  rw [hf]
  congr 1
  apply List.filter_congr
  intro el _
  simp [Bool.and_comm]

/-- A tag name of the fallback selector belongs to the rendered selector. -/
theorem fallbackSelector_subset (tag : String) (h : tag ∈ fallbackSelector) :
    tag ∈ renderedSelector := by
  simp only [fallbackSelector, List.mem_cons, List.mem_singleton, List.not_mem_nil,
    or_false] at h
  simp only [renderedSelector, List.mem_cons, List.mem_singleton]
  tauto

/-- The paragraphs of the fallback selector are those of the rendered selector
whose tag name is in the fallback selector. -/
theorem paragraphs_fallback (elements : List Dom) :
    (((elements.filter fun el => decide (el.tag ∈ fallbackSelector)).map
        fun el => (el.tag, trim el.textContent)).filter
          fun item => decide (jsLength item.2 > 20)) =
      ((((elements.filter fun el => decide (el.tag ∈ renderedSelector)).map
        fun el => (el.tag, trim el.textContent)).filter
          fun item => decide (jsLength item.2 > 20)).filter
            fun item => decide (item.1 ∈ fallbackSelector)) := by
  rw [List.filter_filter, List.filter_map, List.filter_map, List.filter_filter,
    List.filter_filter]
  congr 1
  apply List.filter_congr
  intro el _
  by_cases h1 : el.tag ∈ fallbackSelector
  · simp [h1, fallbackSelector_subset _ h1]
  · simp [h1]

/-- The length of a joined list, with the part joined so far. -/
theorem intercalate_go_length (separator : String) (items : List String) (acc : String) :
    (String.intercalate.go acc separator items).length =
      acc.length + (items.map fun item => separator.length + item.length).sum := by
  induction items generalizing acc with
  | nil => simp [String.intercalate.go]
  | cons item rest ih =>
    simp only [String.intercalate.go, ih, String.length_append, List.map_cons, List.sum_cons]
    omega

/-- The length of a joined list. -/
theorem intercalate_length (separator : String) (items : List String) :
    (separator.intercalate items).length =
      (items.map fun item => separator.length + item.length).sum - separator.length := by
  cases items with
  | nil => simp [String.intercalate]
  | cons item rest =>
    simp only [String.intercalate, intercalate_go_length, List.map_cons, List.sum_cons]
    omega

/-- Leaving out an item makes the joined list shorter by at least that item and a
separator. -/
theorem sum_filter_add_le (separator : String) (keep : String → Bool) (items : List String)
    (item : String) (hmem : item ∈ items) (hkeep : keep item = false) :
    ((items.filter keep).map fun a => separator.length + a.length).sum +
        (separator.length + item.length) ≤
      (items.map fun a => separator.length + a.length).sum := by
  induction items with
  | nil => simp at hmem
  | cons first rest ih =>
    rcases List.mem_cons.mp hmem with h | h
    · subst h
      have hle : ((rest.filter keep).map fun a => separator.length + a.length).sum ≤
          (rest.map fun a => separator.length + a.length).sum :=
        List.Sublist.sum_le_sum ((List.filter_sublist _).map _) (fun _ _ => Nat.zero_le _)
      simp only [List.filter_cons, hkeep, List.map_cons, List.sum_cons]
      simp only [Bool.false_eq_true, if_false]
      omega
    · have := ih h
      by_cases hf : keep first = true
      · simp only [List.filter_cons, hf, if_true, List.map_cons, List.sum_cons]
        omega
      · simp only [List.filter_cons, hf, Bool.false_eq_true, if_false, List.map_cons,
          List.sum_cons]
        omega

/-- C27, counterexample: on a content element with a paragraph and a list, both
with more than 20 characters of text, the rendered path gives the signature
`p, ul` and the fallback path gives `p`. -/
theorem structure_signature_counterexample :
    structureOf renderedSelector sampleContent = "p, ul" ∧
      structureOf fallbackSelector sampleContent = "p" := by
  decide

/-- C27, amended: on every content element the rendered path derives the signature
from the `p`, `h2`, `h3`, `h4`, `ul`, `ol` and `blockquote` elements whose trimmed
text is longer than 20 characters, in document order, and the fallback path from the
`p`, `h2`, `h3` and `h4` elements among them only; the paragraphs of the fallback
path are those of the rendered path with the lists and quotations left out, and
the two signatures agree if and only if no list or quotation has a text longer
than 20 characters. -/
theorem structure_signature_by_path (children : List Dom) :
    structureOf renderedSelector children =
        ", ".intercalate (((elementsOfNodes children).filter fun el =>
          decide (el.tag ∈ renderedSelector) &&
            decide (jsLength (trim el.textContent) > 20)).map Dom.tag) ∧
      structureOf fallbackSelector children =
        ", ".intercalate (((elementsOfNodes children).filter fun el =>
          decide (el.tag ∈ fallbackSelector) &&
            decide (jsLength (trim el.textContent) > 20)).map Dom.tag) ∧
      paragraphsOf fallbackSelector children =
        (paragraphsOf renderedSelector children).filter
          (fun item => decide (item.1 ∈ fallbackSelector)) ∧
      (structureOf fallbackSelector children = structureOf renderedSelector children ↔
        ∀ el ∈ elementsOfNodes children, el.tag ∈ ["ul", "ol", "blockquote"] →
          ¬ jsLength (trim el.textContent) > 20) := by
  have h3 : paragraphsOf fallbackSelector children =
      (paragraphsOf renderedSelector children).filter
        (fun item => decide (item.1 ∈ fallbackSelector)) :=
    paragraphs_fallback (elementsOfNodes children)
  refine ⟨?_, ?_, h3, ?_, ?_⟩
  · unfold structureOf paragraphsOf
    rw [paragraphs_tags]
  · unfold structureOf paragraphsOf
    rw [paragraphs_tags]
  · intro heq el hel htag hlen
    have hitem : (el.tag, trim el.textContent) ∈ paragraphsOf renderedSelector children := by
      unfold paragraphsOf
      simp only [List.mem_filter, List.mem_map, decide_eq_true_eq]
      refine ⟨⟨el, ⟨hel, ?_⟩, rfl⟩, hlen⟩
      simp only [List.mem_cons, List.mem_singleton, List.not_mem_nil, or_false] at htag
      simp only [renderedSelector, List.mem_cons, List.mem_singleton]
      tauto
    have hnot : decide (el.tag ∈ fallbackSelector) = false := by
      simp only [List.mem_cons, List.mem_singleton, List.not_mem_nil, or_false] at htag
      rcases htag with h | h | h <;> rw [h] <;> decide
    have htaglen : 1 ≤ el.tag.length := by
      simp only [List.mem_cons, List.mem_singleton, List.not_mem_nil, or_false] at htag
      rcases htag with h | h | h <;> rw [h] <;> decide
    have hmap : (paragraphsOf fallbackSelector children).map (fun item => item.1) =
        ((paragraphsOf renderedSelector children).map fun item => item.1).filter
          fun tag => decide (tag ∈ fallbackSelector) := by
      rw [h3, List.filter_map]
      rfl
    have hsum := sum_filter_add_le ", " (fun tag => decide (tag ∈ fallbackSelector))
      ((paragraphsOf renderedSelector children).map fun item => item.1) el.tag
      (List.mem_map.mpr ⟨_, hitem, rfl⟩) hnot
    have hlength := congrArg String.length heq
    unfold structureOf at hlength
    rw [intercalate_length, intercalate_length, hmap] at hlength
    have hsep : ", ".length = 2 := by decide
    rw [hsep] at hlength hsum
    omega
  · intro h
    unfold structureOf
    rw [h3]
    congr 2
    apply List.filter_eq_self.mpr
    intro item hitem
    unfold paragraphsOf at hitem
    simp only [List.mem_filter, List.mem_map, decide_eq_true_eq] at hitem
    obtain ⟨⟨el, ⟨hel, htag⟩, rfl⟩, hlen⟩ := hitem
    have hnot := fun hmem => h el hel hmem hlen
    simp only [renderedSelector, List.mem_cons, List.mem_singleton, List.not_mem_nil,
      or_false] at htag
    simp only [List.mem_cons, List.mem_singleton, List.not_mem_nil, or_false] at hnot
    simp only [fallbackSelector, List.mem_cons, List.mem_singleton, List.not_mem_nil,
      or_false, decide_eq_true_eq]
    tauto

/-- Witness of C27: a content element with a heading and a paragraph, on which the
signatures agree, and one with a paragraph and a list, on which they differ. -/
theorem structure_signature_by_path_witness :
    (∀ el ∈ elementsOfNodes sampleProse, el.tag ∈ ["ul", "ol", "blockquote"] →
        ¬ jsLength (trim el.textContent) > 20) ∧
      structureOf fallbackSelector sampleProse = structureOf renderedSelector sampleProse ∧
      ¬ (∀ el ∈ elementsOfNodes sampleContent, el.tag ∈ ["ul", "ol", "blockquote"] →
        ¬ jsLength (trim el.textContent) > 20) ∧
      structureOf fallbackSelector sampleContent ≠ structureOf renderedSelector sampleContent :=
  ⟨by decide, (structure_signature_by_path sampleProse).2.2.2.mpr (by decide), by decide,
    fun h => absurd ((structure_signature_by_path sampleContent).2.2.2.mp h) (by decide)⟩

/-! ## The trailing-boilerplate cut -/

theorem toLowerCaseChars_append (a b : List Char) :
    toLowerCaseChars (a ++ b) = toLowerCaseChars a ++ toLowerCaseChars b := by
  simp [toLowerCaseChars]

/-- Lower-casing keeps a part of a text a part of the text. -/
theorem toLowerCaseChars_infix_mono (a b : List Char) (h : a <:+: b) :
    toLowerCaseChars a <:+: toLowerCaseChars b := by
  obtain ⟨u, w, rfl⟩ := h
  exact ⟨toLowerCaseChars u, toLowerCaseChars w, by simp [toLowerCaseChars_append]⟩

/-- A pattern that starts with a kept character survives the removal of a leading
run of dropped characters. -/
theorem infix_dropWhile (f : Char → Bool) (c : Char) (r s : List Char) (hc : f c = false)
    (h : (c :: r) <:+: s) : (c :: r) <:+: s.dropWhile f := by
  obtain ⟨u, w, rfl⟩ := h
  induction u with
  | nil =>
    simp only [List.nil_append, List.cons_append, List.dropWhile_cons, hc]
    exact ⟨[], w, by simp⟩
  | cons x u ih =>
    by_cases hx : f x = true
    · simpa [List.dropWhile_cons, hx] using ih
    · simp only [List.cons_append, List.append_assoc, List.dropWhile_cons, hx]
      exact ⟨x :: u, w, by simp⟩

/-- A pattern that ends with a kept character survives the removal of a trailing
run of dropped characters. -/
theorem infix_rdropWhile (f : Char → Bool) (c : Char) (r p s : List Char)
    (hp : p.reverse = c :: r) (hc : f c = false) (h : p <:+: s) :
    p <:+: s.rdropWhile f := by
  have h1 : (c :: r) <:+: s.reverse := by
    rw [← hp]; exact List.reverse_infix.mpr h
  have h2 := infix_dropWhile f c r s.reverse hc h1
  rw [← hp] at h2
  have h3 := List.reverse_infix.mpr h2
  simpa [List.rdropWhile] using h3

/-- A pattern without white space at its ends occurs in the trimmed text exactly
when it occurs in the text. -/
theorem infix_trimChars (p s : List Char) (c d : Char) (r q : List Char) (hp : p = c :: r)
    (hq : p.reverse = d :: q) (hc : isWhiteSpace c = false) (hd : isWhiteSpace d = false) :
    p <:+: trimChars s ↔ p <:+: s := by
  constructor
  · intro h
    have h1 : trimChars s <:+: s :=
      List.IsInfix.trans ( List.rdropWhile_prefix _ _).isInfix
        ( List.dropWhile_suffix _).isInfix
    exact List.IsInfix.trans h h1
  · intro h
    unfold trimChars
    apply infix_rdropWhile isWhiteSpace d q p _ hq hd
    rw [hp]
    apply infix_dropWhile isWhiteSpace c r s hc
    rw [← hp]
    exact h

/-- The test `includes` of a pattern without white space at its ends gives the same
answer on the trimmed text. -/
theorem includes_trim (text pattern : String) (c d : Char) (r q : List Char)
    (hp : pattern.data = c :: r) (hq : pattern.data.reverse = d :: q)
    (hc : isWhiteSpace c = false) (hd : isWhiteSpace d = false) :
    includes (trim text) pattern = includes text pattern := by
  unfold includes trim
  simp only [infix_trimChars pattern.data text.data c d r q hp hq hc hd]

/-- A pattern that occurs in a part of a text occurs in the text. -/
theorem includes_mono (a b : List Char) (pattern : String) (h : a <:+: b)
    (ha : includes (String.mk a) pattern = true) : includes (String.mk b) pattern = true := by
  unfold includes at *
  simp only [decide_eq_true_eq] at *
  exact List.IsInfix.trans ha h

/-- The marker test does not depend on the trimming of the text. -/
theorem isFollowUsText_trim (variant : CutVariant) (text : String) :
    isFollowUsText variant text =
      (includes (toLowerCase text) "follow us here" || includes (toLowerCase text) "follow us!" ||
        (includes (toLowerCase text) "follow us" &&
          (includes (toLowerCase text) "social" || includes (toLowerCase text) "icon" ||
            (variant.hereCounts && includes (toLowerCase text) "here")))) := by
  unfold isFollowUsText
  cases variant.trimsText
  · rfl
  · simp only [if_true]
    rw [includes_trim _ "follow us here" 'f' 'e' _ _ rfl rfl (by decide) (by decide),
      includes_trim _ "follow us!" 'f' '!' _ _ rfl rfl (by decide) (by decide),
      includes_trim _ "follow us" 'f' 's' _ _ rfl rfl (by decide) (by decide),
      includes_trim _ "social" 's' 'l' _ _ rfl rfl (by decide) (by decide),
      includes_trim _ "icon" 'i' 'n' _ _ rfl rfl (by decide) (by decide),
      includes_trim _ "here" 'h' 'e' _ _ rfl rfl (by decide) (by decide)]

/-- The marker test is monotone: a text that contains a text passing the test
passes the test. -/
theorem isFollowUsText_mono (variant : CutVariant) (a b : List Char) (h : a <:+: b)
    (ha : isFollowUsText variant (String.mk a) = true) :
    isFollowUsText variant (String.mk b) = true := by
  rw [isFollowUsText_trim] at *
  have hl : (toLowerCase (String.mk a)).data <:+: (toLowerCase (String.mk b)).data :=
    toLowerCaseChars_infix_mono a b h
  have hm : ∀ pattern, includes (toLowerCase (String.mk a)) pattern = true →
      includes (toLowerCase (String.mk b)) pattern = true := fun pattern hp =>
    includes_mono _ _ pattern hl hp
  simp only [Bool.or_eq_true, Bool.and_eq_true] at *
  rcases ha with (h1 | h1) | ⟨h1, (h2 | h2) | ⟨h2, h3⟩⟩
  · exact Or.inl (Or.inl (hm _ h1))
  · exact Or.inl (Or.inr (hm _ h1))
  · exact Or.inr ⟨hm _ h1, Or.inl (Or.inl (hm _ h2))⟩
  · exact Or.inr ⟨hm _ h1, Or.inl (Or.inr (hm _ h2))⟩
  · exact Or.inr ⟨hm _ h1, Or.inr ⟨h2, hm _ h3⟩⟩

mutual
/-- The text of an element inside a node is part of the text of the node. -/
theorem textChars_infix_of_mem : ∀ (node el : Dom), el ∈ node.selfAndDescendants →
    el.textChars <:+: node.textChars
  | .text _, el, h => by simp [Dom.selfAndDescendants] at h
  | .element tag className src children, el, h => by
    simp only [Dom.selfAndDescendants, List.mem_cons] at h
    rcases h with h | h
    · rw [h]
    · simpa [Dom.textChars] using textChars_infix_of_mem_nodes children el h
/-- The text of an element among or inside sibling nodes is part of their text. -/
theorem textChars_infix_of_mem_nodes : ∀ (nodes : List Dom) (el : Dom),
    el ∈ elementsOfNodes nodes → el.textChars <:+: textCharsOfNodes nodes
  | [], el, h => by simp [elementsOfNodes] at h
  | node :: rest, el, h => by
    simp only [elementsOfNodes, List.mem_append] at h
    simp only [textCharsOfNodes]
    rcases h with h | h
    · exact List.IsInfix.trans (textChars_infix_of_mem node el h)
        (List.infix_append' [] _ _)
    · exact List.IsInfix.trans (textChars_infix_of_mem_nodes rest el h)
        ( List.suffix_append _ _).isInfix
end

mutual
/-- A cut inside a node comes from an element inside it that passes the test. -/
theorem exists_marker_of_cutInside (variant : CutVariant) : ∀ (node : Dom) (result : Dom × Bool),
    cutInside variant node = some result →
      ∃ el, el ∈ node.selfAndDescendants ∧ isFollowUs variant el = true
  | .text _, result, h => by simp [cutInside] at h
  | .element tag className src children, result, h => by
    simp only [cutInside] at h
    cases hc : cutSiblings variant children with
    | none => simp [hc] at h
    | some r =>
      obtain ⟨el, hel, hm⟩ := exists_marker_of_cutSiblings variant children r hc
      exact ⟨el, by simp [Dom.selfAndDescendants, hel], hm⟩
/-- A cut among sibling nodes comes from an element that passes the test. -/
theorem exists_marker_of_cutSiblings (variant : CutVariant) : ∀ (nodes : List Dom)
    (result : List Dom × Bool), cutSiblings variant nodes = some result →
      ∃ el, el ∈ elementsOfNodes nodes ∧ isFollowUs variant el = true
  | [], result, h => by simp [cutSiblings] at h
  | node :: rest, result, h => by
    by_cases hn : isFollowUs variant node = true
    · cases node with
      | text content => simp [isFollowUs, Dom.isText] at hn
      | element tag className src children =>
        exact ⟨_, by simp [elementsOfNodes, Dom.selfAndDescendants], hn⟩
    · cases hi : cutInside variant node with
      | some r =>
        obtain ⟨el, hel, hm⟩ := exists_marker_of_cutInside variant node r hi
        exact ⟨el, by simp [elementsOfNodes, hel], hm⟩
      | none =>
        cases hs : cutSiblings variant rest with
        | none => simp [cutSiblings, hn, hi, hs] at h
        | some r =>
          obtain ⟨el, hel, hm⟩ := exists_marker_of_cutSiblings variant rest r hs
          exact ⟨el, by simp [elementsOfNodes, hel], hm⟩
end

/-- An element inside a node passes the test only if the node does: the first
element in document order that passes the test is a child of the container. -/
theorem isFollowUs_of_mem (variant : CutVariant) (node el : Dom)
    (hel : el ∈ node.selfAndDescendants) (hm : isFollowUs variant el = true) :
    isFollowUs variant node = true := by
  cases node with
  | text content => simp [Dom.selfAndDescendants] at hel
  | element tag className src children =>
    have hi := textChars_infix_of_mem _ el hel
    simp only [isFollowUs, Bool.and_eq_true, Dom.isText, Bool.not_false, true_and] at hm ⊢
    exact isFollowUsText_mono variant _ _ hi hm.2

/-- Nothing is cut inside a node that does not pass the test. -/
theorem cutInside_eq_none (variant : CutVariant) (node : Dom)
    (h : isFollowUs variant node = false) : cutInside variant node = none := by
  cases hc : cutInside variant node with
  | none => rfl
  | some r =>
    obtain ⟨el, hel, hm⟩ := exists_marker_of_cutInside variant node r hc
    rw [isFollowUs_of_mem variant node el hel hm] at h
    exact absurd h (by decide)

/-- The cut at the first child that passes the test. -/
theorem cutSiblings_at_marker (variant : CutVariant) (before : List Dom) (marker : Dom)
    (after : List Dom) (hb : ∀ node ∈ before, isFollowUs variant node = false)
    (hm : isFollowUs variant marker = true) :
    cutSiblings variant (before ++ marker :: after) =
      some (before ++ keptFollowing variant.elementSiblingsOnly after, true) := by
  induction before with
  | nil => simp [cutSiblings, hm]
  | cons node rest ih =>
    have hn := hb node (List.mem_cons_self _ _)
    have ih := ih fun n hmem => hb n (List.mem_cons_of_mem _ hmem)
    simp [cutSiblings, hn, cutInside_eq_none variant node hn, ih]

/-- The pass after the cut works child by child. -/
theorem removeSocialIconsOfNodes_append (a b : List Dom) :
    removeSocialIconsOfNodes (a ++ b) =
      removeSocialIconsOfNodes a ++ removeSocialIconsOfNodes b := by
  induction a with
  | nil => simp [removeSocialIconsOfNodes]
  | cons node rest ih =>
    by_cases h : isSocialIcon node = true
    · simp [removeSocialIconsOfNodes, h, ih]
    · simp [removeSocialIconsOfNodes, h, ih]

/-- The pass after the cut keeps text nodes. -/
theorem removeSocialIconsOfNodes_text (nodes : List Dom) :
    removeSocialIconsOfNodes (nodes.filter fun node => node.isText) =
      nodes.filter fun node => node.isText := by
  induction nodes with
  | nil => simp [removeSocialIconsOfNodes]
  | cons node rest ih =>
    cases node with
    | text content =>
      have hf : (List.filter (fun node => node.isText) (Dom.text content :: rest)) =
          Dom.text content :: List.filter (fun node => node.isText) rest := by
        rw [List.filter_cons]; rfl
      rw [hf]
      simp only [removeSocialIconsOfNodes, isSocialIcon, removeSocialIcons]
      rw [ih]
      simp
    | element tag className src children =>
      have hf : (List.filter (fun node => node.isText)
          (Dom.element tag className src children :: rest)) =
            List.filter (fun node => node.isText) rest := by
        rw [List.filter_cons]; rfl
      rw [hf, ih]

mutual
/-- The pass after the cut leaves a node without a selected element as it is. -/
theorem removeSocialIcons_eq_self : ∀ (node : Dom),
    (∀ el ∈ node.selfAndDescendants, isSocialIcon el = false) → removeSocialIcons node = node
  | .text _, _ => by simp [removeSocialIcons]
  | .element tag className src children, h => by
    simp only [removeSocialIcons]
    rw [removeSocialIconsOfNodes_eq_self children fun el hel =>
      h el (by simp [Dom.selfAndDescendants, hel])]
/-- The pass after the cut leaves nodes without a selected element as they are. -/
theorem removeSocialIconsOfNodes_eq_self : ∀ (nodes : List Dom),
    (∀ el ∈ elementsOfNodes nodes, isSocialIcon el = false) →
      removeSocialIconsOfNodes nodes = nodes
  | [], _ => by simp [removeSocialIconsOfNodes]
  | node :: rest, h => by
    have hrest := removeSocialIconsOfNodes_eq_self rest fun el hel =>
      h el (by simp [elementsOfNodes, hel])
    have hnode := removeSocialIcons_eq_self node fun el hel =>
      h el (by simp [elementsOfNodes, hel])
    have hself : isSocialIcon node = false := by
      cases node with
      | text content => rfl
      | element tag className src children =>
        exact h _ (by simp [elementsOfNodes, Dom.selfAndDescendants])
    simp [removeSocialIconsOfNodes, hself, hnode, hrest]
end

/-- A node without a selected element is not selected itself. -/
theorem isSocialIcon_eq_false (node : Dom)
    (h : ∀ el ∈ node.selfAndDescendants, isSocialIcon el = false) :
    isSocialIcon node = false := by
  cases node with
  | text content => rfl
  | element tag className src children => exact h _ (by simp [Dom.selfAndDescendants])

/-- The pass after the cut keeps a child without a selected element. -/
theorem mem_removeSocialIconsOfNodes (nodes : List Dom) (node : Dom) (hmem : node ∈ nodes)
    (h : ∀ el ∈ node.selfAndDescendants, isSocialIcon el = false) :
    node ∈ removeSocialIconsOfNodes nodes := by
  induction nodes with
  | nil => simp at hmem
  | cons first rest ih =>
    rcases List.mem_cons.mp hmem with heq | hrest
    · subst heq
      simp [removeSocialIconsOfNodes, isSocialIcon_eq_false node h,
        removeSocialIcons_eq_self node h]
    · by_cases hf : isSocialIcon first = true
      · simpa [removeSocialIconsOfNodes, hf] using ih hrest
      · simp only [removeSocialIconsOfNodes, hf]
        exact List.mem_cons_of_mem _ (ih hrest)

/-- C28, what the code does: when the marker paragraph and the paragraph before it
share a wrapper element, the wrapper is the first element in document order whose
text holds the marker; it is removed whole, and the paragraph `Body of the
article.`, which lies before the marker text and does not pass the marker test,
is absent from the extracted content of all three copies. -/
theorem wrapper_removed_with_marker :
    (elementsOfNodes sampleWrappedContent).map (fun el => (el.tag, el.textContent)) =
        [("h2", "Heading"), ("div", "Body of the article.Follow us here!"),
          ("p", "Body of the article."), ("p", "Follow us here!")] ∧
      isFollowUs renderedCut (.element "p" "" "" [.text "Body of the article."]) = false ∧
      isFollowUs backendCut (.element "p" "" "" [.text "Body of the article."]) = false ∧
      cutTrailingBoilerplate renderedCut sampleWrappedContent =
        [.element "h2" "" "" [.text "Heading"]] ∧
      cutTrailingBoilerplate fallbackCut sampleWrappedContent =
        [.element "h2" "" "" [.text "Heading"]] ∧
      cutTrailingBoilerplate backendCut sampleWrappedContent =
        [.element "h2" "" "" [.text "Heading"]] :=
  ⟨by decide, by decide, by decide, by rfl, by rfl, by rfl⟩

/-- The pass after the cut runs over the whole content element: the image inside
the first paragraph lies before the marker paragraph, and it is absent from the
extracted content of all three copies, because its `src` contains `icon`. -/
theorem icon_before_marker_removed :
    (elementsOfNodes sampleMarkedContent).map Dom.tag = ["p", "img", "p", "div"] ∧
      isFollowUs renderedCut (.element "p" "" ""
        [.text "Read the guide ", .element "img" "" "/assets/icon-pdf.png" []]) = false ∧
      cutTrailingBoilerplate renderedCut sampleMarkedContent =
        [.element "p" "" "" [.text "Read the guide "]] ∧
      cutTrailingBoilerplate fallbackCut sampleMarkedContent =
        [.element "p" "" "" [.text "Read the guide "]] ∧
      cutTrailingBoilerplate backendCut sampleMarkedContent =
        [.element "p" "" "" [.text "Read the guide "]] :=
  ⟨by decide, by decide, by rfl, by rfl, by rfl⟩

/-- What the cut keeps: in each copy of the cut, when a child of the content element
passes the marker test and no child before it does, no element inside the
children before it passes the test, the extracted content is those children after
the social-icon pass followed by what the copy keeps of the following siblings
(nothing, or their text nodes), and every child before the marker child that holds
no element selected by the social-icon pass is still present. -/
theorem content_before_marker_kept (variant : CutVariant) (before : List Dom) (marker : Dom)
    (after : List Dom) (hb : ∀ node ∈ before, isFollowUs variant node = false)
    (hm : isFollowUs variant marker = true) :
    (∀ node ∈ before, ∀ el ∈ node.selfAndDescendants, isFollowUs variant el = false) ∧
      cutTrailingBoilerplate variant (before ++ marker :: after) =
        removeSocialIconsOfNodes before ++ keptFollowing variant.elementSiblingsOnly after ∧
      (∀ node ∈ before, (∀ el ∈ node.selfAndDescendants, isSocialIcon el = false) →
        node ∈ cutTrailingBoilerplate variant (before ++ marker :: after)) := by
  have hcut : cutTrailingBoilerplate variant (before ++ marker :: after) =
      removeSocialIconsOfNodes before ++ keptFollowing variant.elementSiblingsOnly after := by
    unfold cutTrailingBoilerplate
    rw [cutSiblings_at_marker variant before marker after hb hm]
    simp only [removeSocialIconsOfNodes_append]
    congr 1
    unfold keptFollowing
    cases variant.elementSiblingsOnly
    · rfl
    · exact removeSocialIconsOfNodes_text after
  refine ⟨?_, hcut, ?_⟩
  · intro node hnode el hel
    cases hf : isFollowUs variant el with
    | false => rfl
    | true =>
      have := isFollowUs_of_mem variant node el hel hf
      rw [hb node hnode] at this
      exact absurd this (by decide)
  · intro node hnode hfree
    rw [hcut]
    exact List.mem_append_left _ (mem_removeSocialIconsOfNodes before node hnode hfree)

/-- What the cut keeps, at a heading and a paragraph before a marker paragraph, in
the copy of the backend scraper. -/
theorem content_before_marker_kept_witness :
    (∀ node ∈ sampleLeadingNodes, isFollowUs backendCut node = false) ∧
      isFollowUs backendCut sampleMarker = true ∧
      cutTrailingBoilerplate backendCut
          (sampleLeadingNodes ++ sampleMarker :: sampleFollowingNodes) =
        removeSocialIconsOfNodes sampleLeadingNodes ++
          keptFollowing backendCut.elementSiblingsOnly sampleFollowingNodes :=
  ⟨by decide, by decide,
    (content_before_marker_kept backendCut sampleLeadingNodes sampleMarker
      sampleFollowingNodes (by decide) (by decide)).2.1⟩

end BeyondChats
